import Mathlib

/-!
# gh-review: pull-request references and the comment pipeline

A shallow embedding of `internal/api/client.go` (`NewPRRef`, `prURLPattern`,
`ParsePRArg`), `cmd/root.go` (`resolvePR`) and `cmd/comments.go`
(`matchesFilters`, the tail step and the grouping step of `runComments`).

Go strings are modelled as lists of Unicode code points (`List Char`), that
is, as valid UTF-8 text; Go's byte-wise string order then coincides with the
lexicographic order on code points.  The Go type `int` is modelled as `Int`
with the 64-bit bounds made explicit where the library clamps.
-/

namespace GhReview

/-- A Go string, as its sequence of code points. -/
abbrev Str := List Char

deriving instance DecidableEq for Except

/-! ## Go standard library: `unicode`, `strings`, `strconv` -/

/-- Go `unicode.IsSpace`: the code points with the Unicode White_Space
property. -/
def isSpace (c : Char) : Bool :=
  let n := c.toNat
  (9 ≤ n && n ≤ 13) || n == 32 || n == 0x85 || n == 0xA0 || n == 0x1680 ||
  (0x2000 ≤ n && n ≤ 0x200a) || n == 0x2028 || n == 0x2029 || n == 0x202f ||
  n == 0x205f || n == 0x3000

/-- Go `strings.TrimSpace`: removes leading and trailing white space. -/
def TrimSpace (s : Str) : Str :=
  ((s.dropWhile isSpace).reverse.dropWhile isSpace).reverse

/-- Go `strings.TrimPrefix`: `s` without the leading `p`, or `s` itself when
`s` does not start with `p`. -/
def TrimPrefix (s p : Str) : Str :=
  if p.isPrefixOf s then s.drop p.length else s

/-- The byte test `'0' <= c && c <= '9'`. -/
def isDigit (c : Char) : Bool :=
  48 ≤ c.toNat && c.toNat ≤ 57

/-- The value of a run of decimal digits, most significant first
(`n = n*10 + (c - '0')`). -/
def digitsValue (s : Str) : Nat :=
  s.foldl (fun n c => n * 10 + (c.toNat - 48)) 0

/-- The two kinds of `strconv.NumError`. -/
inductive NumError where
  | errSyntax
  | errRange
  deriving DecidableEq, Repr

/-- Size of the Go type `int` in bits (64-bit platform). -/
def intSize : Nat := 64

/-- Largest value of the Go type `int`. -/
def maxInt : Int := 2 ^ (intSize - 1) - 1

/-- Smallest value of the Go type `int`. -/
def minInt : Int := -(2 ^ (intSize - 1))

/-- Largest value of the Go type `uint64`. -/
def maxUint64 : Nat := 2 ^ 64 - 1

/-- The digit loop of `strconv.ParseUint` in base 10, with the value `n` read
so far: a byte that is no digit ends it with `ErrSyntax`, a value that leaves
the `uint64` range ends it with the largest `uint64` and `ErrRange`,
whichever comes first. -/
def parseUintLoop : Str → Nat → Nat × Option NumError
  | [], n => (n, none)
  | c :: rest, n =>
    if !isDigit c then (0, some .errSyntax)
    else if n ≥ maxUint64 / 10 + 1 then (maxUint64, some .errRange)
    else
      let n1 := n * 10 + (c.toNat - 48)
      if n1 > maxUint64 then (maxUint64, some .errRange)
      else parseUintLoop rest n1

/-- Go `strconv.Atoi`: an optional sign followed by one or more decimal
digits.  A malformed string gives `(0, ErrSyntax)`; a value outside the `int`
range gives the nearest bound together with `ErrRange`.  (The fast path for
strings shorter than 19 bytes and `ParseInt` give the same results: on so
short a string the digit loop cannot leave the `uint64` range.) -/
def Atoi (s : Str) : Int × Option NumError :=
  match s with
  | [] => (0, some .errSyntax)
  | c :: rest =>
    let neg := c == '-'
    let body := if c == '+' || c == '-' then rest else s
    if body.isEmpty then (0, some .errSyntax)
    else
      match parseUintLoop body 0 with
      | (_, some .errSyntax) => (0, some .errSyntax)
      | (_, some .errRange) => (if neg then minInt else maxInt, some .errRange)
      | (un, none) =>
        if !neg && decide (2 ^ (intSize - 1) ≤ un) then (maxInt, some .errRange)
        else if neg && decide (2 ^ (intSize - 1) < un) then (minInt, some .errRange)
        else (if neg then -(un : Int) else (un : Int), none)

/-! ## Go `regexp`: the fragment used by `prURLPattern`

Leftmost-first (backtracking-priority) matching with capture groups, for
literals, character classes, concatenation, greedy `?`, greedy `+` over a
character class, and capture groups. -/

/-- Regular expressions (the constructs occurring in `prURLPattern`). -/
inductive Regex where
  | lit (c : Char)
  | cls (p : Char → Bool)
  | cat (r s : Regex)
  | opt (r : Regex)
  | plus (p : Char → Bool)
  | cap (i : Nat) (r : Regex)

/-- Submatches: the text of each capture group (empty when unset). -/
abbrev Caps := Nat → Str

/-- No group set. -/
def Caps.empty : Caps := fun _ => []

/-- Records `v` as the text of group `i`. -/
def Caps.set (caps : Caps) (i : Nat) (v : Str) : Caps :=
  fun j => if j = i then v else caps j

/-- Greedy `p*` followed by the continuation `k`: the longest run first, then
shorter ones. -/
def starRun {α : Type} (p : Char → Bool) (k : Str → Option α) : Str → Option α
  | [] => k []
  | c :: s =>
    if p c then
      match starRun p k s with
      | some v => some v
      | none => k (c :: s)
    else k (c :: s)

/-- Greedy `p+` followed by the continuation `k`. -/
def plusRun {α : Type} (p : Char → Bool) (k : Str → Option α) : Str → Option α
  | [] => none
  | c :: s => if p c then starRun p k s else none

/-- Backtracking matcher: matches `r` at the start of `s` and hands the rest
of the input and the captures to the continuation `k`; alternatives are
tried in priority order and the first overall success wins. -/
def Regex.run {α : Type} : Regex → Str → Caps → (Str → Caps → Option α) → Option α
  | .lit c, s, caps, k =>
    match s with
    | [] => none
    | d :: t => if d = c then k t caps else none
  | .cls p, s, caps, k =>
    match s with
    | [] => none
    | d :: t => if p d then k t caps else none
  | .cat r₁ r₂, s, caps, k => r₁.run s caps (fun t caps₁ => r₂.run t caps₁ k)
  | .opt r, s, caps, k =>
    match r.run s caps k with
    | some v => some v
    | none => k s caps
  | .plus p, s, caps, k => plusRun p (fun t => k t caps) s
  | .cap i r, s, caps, k =>
    r.run s caps (fun t caps₁ => k t (caps₁.set i (s.take (s.length - t.length))))

/-- The literal string `w` as a regular expression (`w` non-empty in all
uses). -/
def Regex.str : Str → Regex
  | [] => .opt (.cls (fun _ => false))
  | [c] => .lit c
  | c :: w => .cat (.lit c) (Regex.str w)

/-- A match of the whole pattern: group 0 is the matched text. -/
def Regex.matchAt (r : Regex) (s : Str) : Option Caps :=
  r.run s Caps.empty (fun t caps => some (caps.set 0 (s.take (s.length - t.length))))

/-- Go `(*Regexp).FindStringSubmatch`: the leftmost match and its submatches,
or `none` (Go `nil`) when the pattern matches nowhere in `s`. -/
def Regex.FindStringSubmatch (r : Regex) : Str → Option Caps
  | [] => r.matchAt []
  | c :: s =>
    match r.matchAt (c :: s) with
    | some m => some m
    | none => Regex.FindStringSubmatch r s

/-! ## `internal/api/client.go` -/

/-- The character class `[^/]`. -/
def notSlash (c : Char) : Bool := c != '/'

/-- The pattern
`(?:https?://)?(?:www\.)?github\.com/([^/]+)/([^/]+)/pull/(\d+)`. -/
def prURLPattern : Regex :=
  .cat (.opt (.cat (Regex.str "http".toList) (.cat (.opt (.lit 's')) (Regex.str "://".toList))))
  (.cat (.opt (Regex.str "www.".toList))
  (.cat (Regex.str "github.com/".toList)
  (.cat (.cap 1 (.plus notSlash))
  (.cat (.lit '/')
  (.cat (.cap 2 (.plus notSlash))
  (.cat (Regex.str "/pull/".toList)
  (.cap 3 (.plus isDigit))))))))

/-- The errors of reference resolution.  `invalidReference arg` is
`invalid PR reference %q: expected number or URL`, `notPositive` is
`PR number must be positive`, `noRepository e` is
`could not determine repository: %w (use -R owner/repo)` and
`invalidRepository repo e` is `invalid repository %q: %w`. -/
inductive RefError where
  | invalidReference (arg : Str)
  | notPositive
  | noRepository (cause : Str)
  | invalidRepository (repo : Str) (cause : Str)
  deriving DecidableEq, Repr

/-- `ParsePRArg`: the PR number and the repository taken from a URL (empty
for a bare number). -/
def ParsePRArg (arg : Str) : Except RefError (Int × Str) :=
  let arg := TrimSpace arg
  match prURLPattern.FindStringSubmatch arg with
  | some m =>
    let number := (Atoi (m 3)).1
    .ok (number, m 1 ++ "/".toList ++ m 2)
  | none =>
    let arg := TrimPrefix arg "#".toList
    match Atoi arg with
    | (_, some _) => .error (.invalidReference arg)
    | (number, none) =>
      if number ≤ 0 then .error .notPositive
      else .ok (number, [])

/-- The result of the go-gh calls `repository.Current` and
`repository.Parse`. -/
structure Repository where
  Owner : Str
  Name : Str
  deriving DecidableEq, Repr

/-- The go-gh collaborators of `NewPRRef`: `Current` is the repository of the
working directory (or the error's message), `Parse` reads an `OWNER/REPO`
string (or gives the error's message). -/
structure RepoEnv where
  Current : Except Str Repository
  Parse : Str → Except Str Repository

/-- The calls made to the go-gh `repository` package. -/
inductive RepoCall where
  | current
  | parse (repo : Str)
  deriving DecidableEq, Repr

/-- The struct `PRRef`. -/
structure PRRef where
  Owner : Str
  Repo : Str
  Number : Int
  deriving DecidableEq, Repr

/-- `NewPRRef`: the reference for `number` in `repo`, or in the current
repository when `repo` is empty; the second component lists the calls made
to the `repository` package, in order. -/
def NewPRRef (env : RepoEnv) (number : Int) (repo : Str) :
    Except RefError PRRef × List RepoCall :=
  if number ≤ 0 then (.error .notPositive, [])
  else if repo = [] then
    match env.Current with
    | .error e => (.error (.noRepository e), [.current])
    | .ok current => (.ok ⟨current.Owner, current.Name, number⟩, [.current])
  else
    match env.Parse repo with
    | .error e => (.error (.invalidRepository repo e), [.parse repo])
    | .ok parsed => (.ok ⟨parsed.Owner, parsed.Name, number⟩, [.parse repo])

/-! ## `cmd/root.go` -/

/-- Default of the `--repo` / `-R` flag: the value of `repoFlag` when the flag
is not given. -/
def repoFlagDefault : Str := []

/-- `resolvePR`, with the package variable `repoFlag` as an argument. -/
def resolvePR (env : RepoEnv) (repoFlag : Str) (arg : Str) :
    Except RefError PRRef × List RepoCall :=
  match ParsePRArg arg with
  | .error err => (.error err, [])
  | .ok (number, repoFromURL) =>
    let repo := if repoFromURL = [] then repoFlag else repoFromURL
    NewPRRef env number repo

/-! ## `internal/output/output.go` and `cmd/comments.go` -/

/-- The struct `output.Comment`. -/
structure Comment where
  ID : Str
  Path : Str
  Line : Int
  Body : Str
  State : Str
  Author : Str
  deriving DecidableEq, Repr

/-- The struct `output.CommentGroup`. -/
structure CommentGroup where
  Author : Str
  Comments : List Comment
  deriving DecidableEq, Repr

/-- Rune comparison of Go `strings.EqualFold`.  Two runes are equal under
folding when they are the same rune, or an ASCII upper-case letter and its
lower-case letter, or, when the larger one is not ASCII, when
`unicode.SimpleFold` leads from the smaller to the larger; `orbit` is that
last test, read off the Unicode case-folding table. -/
def equalFoldRune (orbit : Char → Char → Bool) (sr tr : Char) : Bool :=
  if tr = sr then true
  else
    let lo := if tr < sr then tr else sr
    let hi := if tr < sr then sr else tr
    if hi.toNat < 0x80 then
      decide ('A' ≤ lo) && decide (lo ≤ 'Z') && decide (hi.toNat = lo.toNat + 32)
    else orbit lo hi

/-- Go `strings.EqualFold`: equality of two strings under simple Unicode case
folding, rune by rune. -/
def EqualFold (orbit : Char → Char → Bool) : Str → Str → Bool
  | [], [] => true
  | sr :: s, tr :: t => equalFoldRune orbit sr tr && EqualFold orbit s t
  | _, _ => false

/-- The package variables of `cmd/comments.go` that steer filtering, tail
limiting and grouping. -/
structure ListFlags where
  listStates : List Str
  listAuthor : Str
  listTail : Int
  listFlat : Bool

/-- `matchesFilters`, with the package variables as an argument. -/
def matchesFilters (orbit : Char → Char → Bool) (f : ListFlags) (c : Comment) : Bool :=
  if f.listStates.length > 0 ∧
      (f.listStates.any (fun s => EqualFold orbit c.State s)) = false then false
  else if f.listAuthor ≠ [] ∧ EqualFold orbit c.Author f.listAuthor = false then false
  else true

/-- The loops of `runComments` that keep the candidate comments passing
`matchesFilters`, in order. -/
def filterComments (orbit : Char → Char → Bool) (f : ListFlags)
    (candidates : List Comment) : List Comment :=
  candidates.filter (matchesFilters orbit f)

/-- The `--tail` step of `runComments`:
`if listTail > 0 && len(comments) > listTail { comments = comments[len(comments)-listTail:] }`. -/
def applyTail (listTail : Int) (comments : List Comment) : List Comment :=
  if listTail > 0 ∧ (comments.length : Int) > listTail then
    comments.drop (comments.length - listTail.toNat)
  else comments

/-- The Go map `byAuthor`, as the list of its entries. -/
abbrev AuthorMap := List (Str × List Comment)

/-- The map read `byAuthor[author]`: the empty slice for an absent key. -/
def AuthorMap.get : AuthorMap → Str → List Comment
  | [], _ => []
  | (k, cs) :: m, a => if k = a then cs else AuthorMap.get m a

/-- The map update `byAuthor[author] = append(byAuthor[author], cmt)`. -/
def AuthorMap.append : AuthorMap → Str → Comment → AuthorMap
  | [], a, c => [(a, [c])]
  | (k, cs) :: m, a, c =>
    if k = a then (k, cs ++ [c]) :: m else (k, cs) :: AuthorMap.append m a c

/-- The keys of the map. -/
def AuthorMap.keys (m : AuthorMap) : List Str := m.map Prod.fst

/-- The first loop of the grouping step: every comment is appended to the
entry of its author. -/
def buildByAuthor (comments : List Comment) : AuthorMap :=
  comments.foldl (fun m cmt => m.append cmt.Author cmt) []

/-- Go `sort.Strings`: ascending order. -/
def sortStrings (l : List Str) : List Str :=
  l.insertionSort (fun a b => a ≤ b)

/-- The grouping step of `runComments`.  `range` is the order in which the
`for author := range byAuthor` loop visits the keys, which Go leaves
unspecified. -/
def buildGroups (range : List Str → List Str) (listFlat : Bool)
    (comments : List Comment) : List CommentGroup :=
  if listFlat then [⟨[], comments⟩]
  else
    let byAuthor := buildByAuthor comments
    let authors := sortStrings (range byAuthor.keys)
    authors.map (fun author => ⟨author, byAuthor.get author⟩)

/-- The pure part of `runComments` after the fetch: filter, then tail, then
group. -/
def commentGroups (orbit : Char → Char → Bool) (range : List Str → List Str)
    (f : ListFlags) (candidates : List Comment) : List CommentGroup :=
  buildGroups range f.listFlat (applyTail f.listTail (filterComments orbit f candidates))

/-! ## Specification-side definitions -/

/-- The words a regular expression matches, with the captures before and
after (no priorities: every way of matching). -/
def Regex.Matches : Regex → Str → Caps → Caps → Prop
  | .lit c, w, a, b => w = [c] ∧ b = a
  | .cls p, w, a, b => ∃ d, w = [d] ∧ p d = true ∧ b = a
  | .cat r₁ r₂, w, a, b => ∃ u v m, w = u ++ v ∧ r₁.Matches u a m ∧ r₂.Matches v m b
  | .opt r, w, a, b => (w = [] ∧ b = a) ∨ r.Matches w a b
  | .plus p, w, a, b => w ≠ [] ∧ (∀ c ∈ w, p c = true) ∧ b = a
  | .cap i r, w, a, b => ∃ m, r.Matches w a m ∧ b = m.set i w

/-- The decimal numeral of `n`. -/
def numeral (n : Nat) : Str := (Nat.repr n).toList

/-- A run of white space. -/
def allSpace (s : Str) : Prop := ∀ c ∈ s, isSpace c = true

instance (s : Str) : Decidable (allSpace s) := by
  unfold allSpace; infer_instance

/-- A non-empty run of ASCII decimal digits. -/
def isDigits (s : Str) : Prop := s ≠ [] ∧ ∀ c ∈ s, isDigit c = true

instance (s : Str) : Decidable (isDigits s) := by
  unfold isDigits; infer_instance

/-- The text `x` is a letter-case spelling of the lower-case text `y`: each
character is that of `y` or its upper-case form. -/
def caseSpelling (x y : Str) : Prop :=
  List.Forall₂ (fun c d => c = d ∨ c = d.toUpper) x y

instance (x y : Str) : Decidable (caseSpelling x y) := by
  unfold caseSpelling; infer_instance

/-- The optional scheme and `www.` in front of the host, as the pattern
allows them. -/
def urlPrefixes : List Str :=
  ["".toList, "http://".toList, "https://".toList, "www.".toList, "http://www.".toList,
    "https://www.".toList]

/-- The text of a pull-request URL, from its parts. -/
def prURL (pfx owner repo digits : Str) : Str :=
  pfx ++ "github.com/".toList ++ owner ++ "/".toList ++ repo ++ "/pull/".toList ++ digits

/-- A non-empty text without `/`: what `[^/]+` matches in full. -/
def isSegment (s : Str) : Prop := s ≠ [] ∧ ∀ c ∈ s, notSlash c = true

instance (s : Str) : Decidable (isSegment s) := by
  unfold isSegment; infer_instance

/-- Whether the text starts with one of the fixed beginnings of a match:
an optional scheme, an optional `www.`, and the host with its `/`. -/
def startsURL (s : Str) : Bool :=
  urlPrefixes.any (fun pfx => (pfx ++ "github.com/".toList).isPrefixOf s)

/-- The leftmost match in `s` has groups `o`, `r` and `d`. -/
def findsGroups (s o r d : Str) : Prop :=
  ∃ m, prURLPattern.FindStringSubmatch s = some m ∧ m 1 = o ∧ m 2 = r ∧ m 3 = d

/-- An environment for the examples: no current repository, and `Parse`
knowing the two repositories `owner/repo` and `other/repo`. -/
def sampleEnv : RepoEnv where
  Current := .error "not a git repository".toList
  Parse := fun repo =>
    if repo = "owner/repo".toList then .ok ⟨"owner".toList, "repo".toList⟩
    else if repo = "other/repo".toList then .ok ⟨"other".toList, "repo".toList⟩
    else .error "expected OWNER/REPO".toList

/-- A comment for the examples, with the given line and author. -/
def sampleComment (line : Int) (author : String) : Comment :=
  ⟨[], "main.go".toList, line, "text".toList, "pending".toList, author.toList⟩

/-! ## More of the Go standard library: case mapping, prefixes, time -/

/-- The library data the client code relies on and that is taken as given:
`orbit` is the non-ASCII test of `strings.EqualFold` (see `equalFoldRune`),
`lowerRune` and `upperRune` are `unicode.ToLower` and `unicode.ToUpper` on
non-ASCII runes, `parseTime` is `time.Parse(time.RFC3339, s)` (the instant in
nanoseconds after the zero `time.Time`, or `none` for an error), and `quote`
is the `%q` verb. -/
structure Lib where
  orbit : Char → Char → Bool
  lowerRune : Char → Char
  upperRune : Char → Char
  parseTime : Str → Option Int
  quote : Str → Str

/-- Go `unicode.ToLower`. -/
def toLowerRune (lib : Lib) (c : Char) : Char :=
  if c.toNat < 0x80 then
    if 65 ≤ c.toNat ∧ c.toNat ≤ 90 then Char.ofNat (c.toNat + 32) else c
  else lib.lowerRune c

/-- Go `unicode.ToUpper`. -/
def toUpperRune (lib : Lib) (c : Char) : Char :=
  if c.toNat < 0x80 then
    if 97 ≤ c.toNat ∧ c.toNat ≤ 122 then Char.ofNat (c.toNat - 32) else c
  else lib.upperRune c

/-- Go `strings.ToLower`. -/
def ToLower (lib : Lib) (s : Str) : Str := s.map (toLowerRune lib)

/-- Go `strings.ToUpper`. -/
def ToUpper (lib : Lib) (s : Str) : Str := s.map (toUpperRune lib)

/-- Go `strings.HasPrefix`. -/
def HasPrefix (s p : Str) : Bool := p.isPrefixOf s

/-! ## `internal/api`: errors, transport and response shapes -/

/-- The errors of the client operations.  `text msg` is `fmt.Errorf(msg)` for
a fixed message, `invalidID kind id` is
`invalid <kind> ID %q: expected GraphQL node ID`, `wrap op cause` is
`fmt.Errorf("<op>: %w", err)` for a transport error with message `cause`, and
`prNotFound pr` is `PR %s not found or missing metadata`. -/
inductive ApiError where
  | text (msg : Str)
  | invalidID (kind : Str) (id : Str)
  | wrap (op : Str) (cause : Str)
  | prNotFound (pr : PRRef)
  deriving DecidableEq, Repr

/-- `(*PRRef).String`: `owner/repo#number`. -/
def PRRef.String (pr : PRRef) : Str :=
  pr.Owner ++ "/".toList ++ pr.Repo ++ "#".toList ++ (toString pr.Number).toList

/-- The message of an error (`err.Error()`). -/
def ApiError.message (lib : Lib) : ApiError → Str
  | .text msg => msg
  | .invalidID kind id =>
    "invalid ".toList ++ kind ++ " ID ".toList ++ lib.quote id ++
      ": expected GraphQL node ID".toList
  | .wrap op cause => op ++ ": ".toList ++ cause
  | .prNotFound pr => "PR ".toList ++ pr.String ++ " not found or missing metadata".toList

/-- The `input` variable of the `AddThread` mutation (a Go map): `startLine`
and `startSide` are present only when set. -/
structure AddThreadVariables where
  pullRequestReviewId : Str
  path : Str
  line : Int
  side : Str
  body : Str
  startLine : Option Int
  startSide : Option Str
  deriving DecidableEq, Repr

/-- A call of `gql.Do`: the document that is sent, with its variables. -/
inductive GqlCall where
  | resolvePR (owner name : Str) (number : Int)
  | viewerLogin
  | pendingReviews (owner name : Str) (number first : Int)
  | createReview (pullRequestId : Str) (commitOID : Option Str)
  | addThread (input : AddThreadVariables)
  | updateComment (pullRequestReviewCommentId body : Str)
  | deleteComment (id : Str)
  | submitReview (pullRequestReviewId event : Str) (body : Option Str)
  | deleteReview (pullRequestReviewId : Str)
  | allPRComments (owner name : Str) (number limit : Int) (states : Option (List Str))
  | reviewThreads (owner name : Str) (number limit : Int)
  deriving DecidableEq, Repr

/-- Response of the `ResolvePR` query (`repository.pullRequest`). -/
structure ResolvePRResponse where
  ID : Str
  HeadRefOID : Str
  deriving DecidableEq, Repr

/-- Response of the `ViewerLogin` query (`viewer.login`). -/
structure ViewerResponse where
  Login : Str
  deriving DecidableEq, Repr

/-- A comment node of the `PendingReviews` response. -/
structure PendingCommentNode where
  ID : Str
  Path : Str
  Line : Option Int
  StartLine : Option Int
  Body : Str
  Outdated : Bool
  OriginalLine : Option Int
  deriving DecidableEq, Repr

/-- A review node of the `PendingReviews` response (`Author.Login` and
`Comments.TotalCount`, `Comments.Nodes` flattened). -/
structure PendingReviewNode where
  ID : Str
  State : Str
  URL : Str
  UpdatedAt : Str
  AuthorLogin : Str
  CommentsTotalCount : Int
  Comments : List PendingCommentNode
  deriving DecidableEq, Repr

/-- Response of the `PendingReviews` query
(`repository.pullRequest.reviews.nodes`). -/
structure PendingReviewsResponse where
  Nodes : List PendingReviewNode
  deriving DecidableEq, Repr

/-- Response of the `CreateReview` mutation. -/
structure CreateReviewResponse where
  ID : Str
  State : Str
  deriving DecidableEq, Repr

/-- Response of the `AddThread` mutation (`thread`). -/
structure AddThreadResponse where
  ID : Str
  Path : Str
  Line : Option Int
  IsOutdated : Bool
  deriving DecidableEq, Repr

/-- A comment node inside a review of the `AllPRComments` response. -/
structure ReviewCommentNode where
  ID : Str
  Path : Str
  Line : Option Int
  StartLine : Option Int
  Body : Str
  Outdated : Bool
  OriginalLine : Option Int
  AuthorLogin : Str
  deriving DecidableEq, Repr

/-- A review node of the `AllPRComments` response. -/
structure ReviewNode where
  ID : Str
  State : Str
  AuthorLogin : Str
  Comments : List ReviewCommentNode
  deriving DecidableEq, Repr

/-- A discussion comment node of the `AllPRComments` response. -/
structure DiscussionNode where
  ID : Str
  Body : Str
  AuthorLogin : Str
  CreatedAt : Str
  deriving DecidableEq, Repr

/-- Response of the `AllPRComments` query (`reviews` and `comments` of the pull
request, each with its `totalCount` and `nodes`). -/
structure AllPRCommentsResponse where
  ReviewsTotalCount : Int
  Reviews : List ReviewNode
  CommentsTotalCount : Int
  Comments : List DiscussionNode
  deriving DecidableEq, Repr

/-- A comment node of a thread (`PullRequestReview.State` flattened). -/
structure ThreadCommentNode where
  ID : Str
  Body : Str
  AuthorLogin : Str
  ReviewState : Str
  deriving DecidableEq, Repr

/-- A thread node of the `ReviewThreads` response. -/
structure ThreadNode where
  ID : Str
  IsResolved : Bool
  Path : Str
  Line : Option Int
  OriginalLine : Option Int
  Comments : List ThreadCommentNode
  deriving DecidableEq, Repr

/-- Response of the `ReviewThreads` query. -/
structure ReviewThreadsResponse where
  TotalCount : Int
  Nodes : List ThreadNode
  deriving DecidableEq, Repr

/-- The interface `GraphQLClient`: what `Do` answers to each document, given
the call with its variables: the message of the error it returns, or the
decoded response. -/
structure GraphQLClient where
  resolvePR : GqlCall → Except Str ResolvePRResponse
  viewerLogin : GqlCall → Except Str ViewerResponse
  pendingReviews : GqlCall → Except Str PendingReviewsResponse
  createReview : GqlCall → Except Str CreateReviewResponse
  addThread : GqlCall → Except Str AddThreadResponse
  updateComment : GqlCall → Except Str Unit
  deleteComment : GqlCall → Except Str Unit
  submitReview : GqlCall → Except Str Unit
  deleteReview : GqlCall → Except Str Unit
  allPRComments : GqlCall → Except Str AllPRCommentsResponse
  reviewThreads : GqlCall → Except Str ReviewThreadsResponse

/-- The struct `PRIdentity`. -/
structure PRIdentity where
  NodeID : Str
  HeadRefOID : Str
  deriving DecidableEq, Repr

/-- `(*Client).ResolvePR`; the second component lists the calls of `gql.Do`,
in order (so for every operation below). -/
def ResolvePR (gql : GraphQLClient) (pr : PRRef) : Except ApiError PRIdentity × List GqlCall :=
  let call := GqlCall.resolvePR pr.Owner pr.Repo pr.Number
  match gql.resolvePR call with
  | .error err => (.error (.wrap "resolve PR".toList err), [call])
  | .ok response =>
    let nodeID := TrimSpace response.ID
    let headOID := TrimSpace response.HeadRefOID
    if nodeID = [] ∨ headOID = [] then (.error (.prNotFound pr), [call])
    else (.ok ⟨nodeID, headOID⟩, [call])

/-- `(*Client).ViewerLogin`. -/
def ViewerLogin (gql : GraphQLClient) : Except ApiError Str × List GqlCall :=
  match gql.viewerLogin .viewerLogin with
  | .error err => (.error (.wrap "get viewer login".toList err), [.viewerLogin])
  | .ok response =>
    let login := TrimSpace response.Login
    if login = [] then (.error (.text "viewer login unavailable".toList), [.viewerLogin])
    else (.ok login, [.viewerLogin])

/-! ## `internal/api/queries.go` -/

/-- The struct `ReviewComment`. -/
structure ReviewComment where
  ID : Str
  Path : Str
  Line : Int
  StartLine : Option Int
  Body : Str
  Side : Str
  StartSide : Option Str
  Outdated : Bool
  Author : Str
  deriving DecidableEq, Repr

/-- The struct `PendingReview`; `UpdatedAt` is an instant, in nanoseconds after
the zero `time.Time`. -/
structure PendingReview where
  ID : Str
  State : Str
  URL : Str
  UpdatedAt : Int
  Author : Str
  AuthorID : Int
  Comments : List ReviewComment
  TotalCount : Int
  deriving DecidableEq, Repr

/-- The struct `PRComment`. -/
structure PRComment where
  ID : Str
  Body : Str
  Author : Str
  CreatedAt : Int
  deriving DecidableEq, Repr

/-- The struct `ReviewCommentWithState`. -/
structure ReviewCommentWithState extends ReviewComment where
  State : Str
  deriving DecidableEq, Repr

/-- The struct `AllCommentsResult`. -/
structure AllCommentsResult where
  ReviewComments : List ReviewCommentWithState
  PRComments : List PRComment
  Truncated : Bool
  deriving DecidableEq, Repr

/-- The struct `PendingReviewsOptions`. -/
structure PendingReviewsOptions where
  Reviewer : Str
  First : Int
  deriving DecidableEq, Repr

/-- The struct `AllCommentsOptions`. -/
structure AllCommentsOptions where
  Limit : Int
  States : List Str
  deriving DecidableEq, Repr

/-- The body of the inner loop of `PendingReviews`: `none` is `continue`,
`some` is the comment appended. -/
def pendingCommentOfNode (cmt : PendingCommentNode) : Option ReviewComment :=
  let cmtID := TrimSpace cmt.ID
  if cmtID = [] then none
  else
    let line :=
      match cmt.Line with
      | some l => l
      | none =>
        match cmt.OriginalLine with
        | some o => o
        | none => 0
    some { ID := cmtID, Path := cmt.Path, Line := line, StartLine := cmt.StartLine,
           Body := cmt.Body, Side := [], StartSide := none, Outdated := cmt.Outdated,
           Author := [] }

/-- The body of the outer loop of `PendingReviews`: `none` is `continue`,
`some` is the review appended.  `time.Parse` errors are ignored, which leaves
the zero time. -/
def pendingReviewOfNode (lib : Lib) (reviewer : Str) (node : PendingReviewNode) :
    Option PendingReview :=
  let authorLogin := TrimSpace node.AuthorLogin
  if EqualFold lib.orbit authorLogin reviewer = false then none
  else
    let id := TrimSpace node.ID
    if id = [] then none
    else
      let updatedAt := (lib.parseTime node.UpdatedAt).getD 0
      let comments := node.Comments.filterMap pendingCommentOfNode
      some { ID := id, State := ToUpper lib node.State, URL := node.URL,
             UpdatedAt := updatedAt, Author := authorLogin, AuthorID := 0,
             Comments := comments, TotalCount := node.CommentsTotalCount }

/-- `(*Client).PendingReviews`. -/
def PendingReviews (lib : Lib) (gql : GraphQLClient) (pr : PRRef)
    (opts : PendingReviewsOptions) : Except ApiError (List PendingReview) × List GqlCall :=
  let first := if opts.First ≤ 0 then 20 else opts.First
  let reviewer := TrimSpace opts.Reviewer
  match (if reviewer = [] then ViewerLogin gql else (.ok reviewer, [])) with
  | (.error err, calls) => (.error err, calls)
  | (.ok reviewer, calls) =>
    let call := GqlCall.pendingReviews pr.Owner pr.Repo pr.Number first
    match gql.pendingReviews call with
    | .error err => (.error (.wrap "query pending reviews".toList err), calls ++ [call])
    | .ok response =>
      (.ok (response.Nodes.filterMap (pendingReviewOfNode lib reviewer)), calls ++ [call])

/-- `(*Client).LatestPendingReview`; `r.UpdatedAt.After(latest.UpdatedAt)` is
`latest.UpdatedAt < r.UpdatedAt`. -/
def LatestPendingReview (lib : Lib) (gql : GraphQLClient) (pr : PRRef)
    (opts : PendingReviewsOptions) : Except ApiError PendingReview × List GqlCall :=
  match PendingReviews lib gql pr opts with
  | (.error err, calls) => (.error err, calls)
  | (.ok reviews, calls) =>
    match reviews with
    | [] => (.error (.text "no pending review found".toList), calls)
    | first :: rest =>
      (.ok (rest.foldl (fun latest r => if latest.UpdatedAt < r.UpdatedAt then r else latest)
        first), calls)

/-- `normalizeReviewState`. -/
def normalizeReviewState (lib : Lib) (state : Str) : Str :=
  let s := ToLower lib state
  if s = "pending".toList then "pending".toList
  else if s = "approved".toList then "approved".toList
  else if s = "changes_requested".toList then "changes_requested".toList
  else if s = "commented".toList then "commented".toList
  else "submitted".toList

/-- The body of the inner loop over the comments of a review in
`AllPRComments`. -/
def reviewCommentOfNode (reviewState reviewAuthor : Str) (cmt : ReviewCommentNode) :
    Option ReviewCommentWithState :=
  let cmtID := TrimSpace cmt.ID
  if cmtID = [] then none
  else
    let line :=
      match cmt.Line with
      | some l => l
      | none =>
        match cmt.OriginalLine with
        | some o => o
        | none => 0
    let author := TrimSpace cmt.AuthorLogin
    let author := if author = [] then reviewAuthor else author
    some { ID := cmtID, Path := cmt.Path, Line := line, StartLine := cmt.StartLine,
           Body := cmt.Body, Side := [], StartSide := none, Outdated := cmt.Outdated,
           Author := author, State := reviewState }

/-- The body of the loop over the discussion comments in `AllPRComments`. -/
def prCommentOfNode (lib : Lib) (cmt : DiscussionNode) : Option PRComment :=
  let cmtID := TrimSpace cmt.ID
  if cmtID = [] then none
  else
    let createdAt := (lib.parseTime cmt.CreatedAt).getD 0
    some { ID := cmtID, Body := cmt.Body, Author := TrimSpace cmt.AuthorLogin,
           CreatedAt := createdAt }

/-- The part of `AllPRComments` after the query: the result built from the
response and the effective limit. -/
def allCommentsOfResponse (lib : Lib) (limit : Int) (response : AllPRCommentsResponse) :
    AllCommentsResult :=
  let reviewComments := response.Reviews.flatMap (fun review =>
    let reviewState := normalizeReviewState lib review.State
    let reviewAuthor := TrimSpace review.AuthorLogin
    review.Comments.filterMap (reviewCommentOfNode reviewState reviewAuthor))
  let prComments := response.Comments.filterMap (prCommentOfNode lib)
  let reviewCount := response.ReviewsTotalCount
  let prCommentCount := response.CommentsTotalCount
  { ReviewComments := reviewComments, PRComments := prComments,
    Truncated := decide (reviewCount > limit) || decide (prCommentCount > limit) }

/-- `(*Client).AllPRComments`. -/
def AllPRComments (lib : Lib) (gql : GraphQLClient) (pr : PRRef) (opts : AllCommentsOptions) :
    Except ApiError AllCommentsResult × List GqlCall :=
  let limit := if opts.Limit ≤ 0 then 100 else opts.Limit
  let states :=
    if opts.States.length > 0 then some (opts.States.map (ToUpper lib)) else none
  let call := GqlCall.allPRComments pr.Owner pr.Repo pr.Number limit states
  match gql.allPRComments call with
  | .error err => (.error (.wrap "query all PR comments".toList err), [call])
  | .ok response => (.ok (allCommentsOfResponse lib limit response), [call])

/-- The struct `ThreadComment`. -/
structure ThreadComment where
  ID : Str
  Body : Str
  Author : Str
  deriving DecidableEq, Repr

/-- The struct `Thread`. -/
structure Thread where
  ID : Str
  Path : Str
  Line : Int
  IsResolved : Bool
  State : Str
  Comments : List ThreadComment
  deriving DecidableEq, Repr

/-- The struct `ThreadsResult`. -/
structure ThreadsResult where
  Threads : List Thread
  Truncated : Bool
  deriving DecidableEq, Repr

/-- The struct `ReviewThreadsOptions`. -/
structure ReviewThreadsOptions where
  Limit : Int
  UnresolvedOnly : Bool
  States : List Str
  deriving DecidableEq, Repr

/-- The body of the inner loop of `ReviewThreads`. -/
def threadCommentOfNode (cmt : ThreadCommentNode) : Option ThreadComment :=
  let cmtID := TrimSpace cmt.ID
  if cmtID = [] then none
  else some { ID := cmtID, Body := cmt.Body, Author := TrimSpace cmt.AuthorLogin }

/-- The body of the outer loop of `ReviewThreads`: `none` is `continue`. -/
def threadOfNode (lib : Lib) (opts : ReviewThreadsOptions) (thread : ThreadNode) :
    Option Thread :=
  if opts.UnresolvedOnly && thread.IsResolved then none
  else
    let threadID := TrimSpace thread.ID
    if threadID = [] then none
    else
      let threadState :=
        match thread.Comments with
        | [] => []
        | cmt :: _ => normalizeReviewState lib cmt.ReviewState
      if opts.States.length > 0 ∧
          (opts.States.any (fun s => EqualFold lib.orbit threadState s)) = false then none
      else
        let line :=
          match thread.Line with
          | some l => l
          | none =>
            match thread.OriginalLine with
            | some o => o
            | none => 0
        let comments := thread.Comments.filterMap threadCommentOfNode
        some { ID := threadID, Path := thread.Path, Line := line,
               IsResolved := thread.IsResolved, State := threadState, Comments := comments }

/-- The part of `ReviewThreads` after the query. -/
def threadsOfResponse (lib : Lib) (opts : ReviewThreadsOptions) (limit : Int)
    (response : ReviewThreadsResponse) : ThreadsResult :=
  { Threads := response.Nodes.filterMap (threadOfNode lib opts),
    Truncated := decide (response.TotalCount > limit) }

/-- `(*Client).ReviewThreads`. -/
def ReviewThreads (lib : Lib) (gql : GraphQLClient) (pr : PRRef) (opts : ReviewThreadsOptions) :
    Except ApiError ThreadsResult × List GqlCall :=
  let limit := if opts.Limit ≤ 0 then 100 else opts.Limit
  let call := GqlCall.reviewThreads pr.Owner pr.Repo pr.Number limit
  match gql.reviewThreads call with
  | .error err => (.error (.wrap "query review threads".toList err), [call])
  | .ok response => (.ok (threadsOfResponse lib opts limit response), [call])

/-! ## `internal/api/mutations.go` -/

/-- The struct `CreateReviewInput`. -/
structure CreateReviewInput where
  PRNodeID : Str
  CommitOID : Str
  deriving DecidableEq, Repr

/-- The struct `CreateReviewResult`. -/
structure CreateReviewResult where
  ID : Str
  State : Str
  deriving DecidableEq, Repr

/-- `(*Client).CreateReview`. -/
def CreateReview (gql : GraphQLClient) (input : CreateReviewInput) :
    Except ApiError CreateReviewResult × List GqlCall :=
  let prNodeID := TrimSpace input.PRNodeID
  if prNodeID = [] then (.error (.text "PR node ID required".toList), [])
  else
    let commitOID := TrimSpace input.CommitOID
    let call := GqlCall.createReview prNodeID (if commitOID ≠ [] then some commitOID else none)
    match gql.createReview call with
    | .error err => (.error (.wrap "create review".toList err), [call])
    | .ok response =>
      let id := TrimSpace response.ID
      if id = [] then (.error (.text "create review returned empty ID".toList), [call])
      else (.ok ⟨id, response.State⟩, [call])

/-- The struct `AddThreadInput`. -/
structure AddThreadInput where
  ReviewID : Str
  Path : Str
  Line : Int
  Side : Str
  Body : Str
  StartLine : Option Int
  StartSide : Option Str
  deriving DecidableEq, Repr

/-- The struct `AddThreadResult`. -/
structure AddThreadResult where
  ThreadID : Str
  Path : Str
  Line : Int
  Outdated : Bool
  deriving DecidableEq, Repr

/-- `(*Client).AddThread`. -/
def AddThread (lib : Lib) (gql : GraphQLClient) (input : AddThreadInput) :
    Except ApiError AddThreadResult × List GqlCall :=
  let reviewID := TrimSpace input.ReviewID
  if reviewID = [] then (.error (.text "review ID required".toList), [])
  else if HasPrefix reviewID "PRR_".toList = false then
    (.error (.invalidID "review".toList reviewID), [])
  else
    let path := TrimSpace input.Path
    if path = [] then (.error (.text "path required".toList), [])
    else if input.Line ≤ 0 then (.error (.text "line must be positive".toList), [])
    else
      let body := TrimSpace input.Body
      if body = [] then (.error (.text "body required".toList), [])
      else
        let side := ToUpper lib (TrimSpace input.Side)
        let side := if side = [] then "RIGHT".toList else side
        let mutationInput : AddThreadVariables :=
          { pullRequestReviewId := reviewID, path := path, line := input.Line, side := side,
            body := body, startLine := input.StartLine,
            startSide := input.StartSide.map (ToUpper lib) }
        let call := GqlCall.addThread mutationInput
        match gql.addThread call with
        | .error err => (.error (.wrap "add thread".toList err), [call])
        | .ok response =>
          let threadID := TrimSpace response.ID
          if threadID = [] then (.error (.text "add thread returned empty ID".toList), [call])
          else
            let line :=
              match response.Line with
              | some l => l
              | none => 0
            (.ok ⟨threadID, response.Path, line, response.IsOutdated⟩, [call])

/-- The struct `UpdateCommentInput`. -/
structure UpdateCommentInput where
  CommentID : Str
  Body : Str
  deriving DecidableEq, Repr

/-- `(*Client).UpdateComment`: `none` is the `nil` error. -/
def UpdateComment (gql : GraphQLClient) (input : UpdateCommentInput) :
    Option ApiError × List GqlCall :=
  let commentID := TrimSpace input.CommentID
  if commentID = [] then (some (.text "comment ID required".toList), [])
  else if HasPrefix commentID "PRRC_".toList = false then
    (some (.invalidID "comment".toList commentID), [])
  else
    let body := TrimSpace input.Body
    if body = [] then (some (.text "body required".toList), [])
    else
      let call := GqlCall.updateComment commentID body
      match gql.updateComment call with
      | .error err => (some (.wrap "update comment".toList err), [call])
      | .ok _ => (none, [call])

/-- `(*Client).DeleteComment`. -/
def DeleteComment (gql : GraphQLClient) (commentID : Str) : Option ApiError × List GqlCall :=
  let commentID := TrimSpace commentID
  if commentID = [] then (some (.text "comment ID required".toList), [])
  else if HasPrefix commentID "PRRC_".toList = false then
    (some (.invalidID "comment".toList commentID), [])
  else
    let call := GqlCall.deleteComment commentID
    match gql.deleteComment call with
    | .error err => (some (.wrap "delete comment".toList err), [call])
    | .ok _ => (none, [call])

/-- The struct `SubmitReviewInput`. -/
structure SubmitReviewInput where
  ReviewID : Str
  Event : Str
  Body : Str
  deriving DecidableEq, Repr

/-- `(*Client).SubmitReview`. -/
def SubmitReview (lib : Lib) (gql : GraphQLClient) (input : SubmitReviewInput) :
    Option ApiError × List GqlCall :=
  let reviewID := TrimSpace input.ReviewID
  if reviewID = [] then (some (.text "review ID required".toList), [])
  else if HasPrefix reviewID "PRR_".toList = false then
    (some (.invalidID "review".toList reviewID), [])
  else
    let event := ToUpper lib (TrimSpace input.Event)
    if event = [] then (some (.text "event required".toList), [])
    else
      let body := TrimSpace input.Body
      let call := GqlCall.submitReview reviewID event (if body ≠ [] then some body else none)
      match gql.submitReview call with
      | .error err => (some (.wrap "submit review".toList err), [call])
      | .ok _ => (none, [call])

/-- `(*Client).DeleteReview`. -/
def DeleteReview (gql : GraphQLClient) (reviewID : Str) : Option ApiError × List GqlCall :=
  let reviewID := TrimSpace reviewID
  if reviewID = [] then (some (.text "review ID required".toList), [])
  else if HasPrefix reviewID "PRR_".toList = false then
    (some (.invalidID "review".toList reviewID), [])
  else
    let call := GqlCall.deleteReview reviewID
    match gql.deleteReview call with
    | .error err => (some (.wrap "delete review".toList err), [call])
    | .ok _ => (none, [call])

/-! ## Specification-side definitions for the client operations -/

/-- The rule for the line of a comment or thread: the live line when the
response gives one, else the original line when the response gives one,
else 0. -/
def lineRule (live original : Option Int) (line : Int) : Prop :=
  (∀ l, live = some l → line = l) ∧
  (live = none → ∀ o, original = some o → line = o) ∧
  (live = none → original = none → line = 0)

/-- Library data for the examples: no case pairs outside ASCII, instants
written as plain numbers, and `%q` as plain double quotes. -/
def sampleLib : Lib where
  orbit := fun _ _ => false
  lowerRune := fun c => c
  upperRune := fun c => c
  parseTime := fun s => if s.all isDigit && !s.isEmpty then some (digitsValue s) else none
  quote := fun s => "\"".toList ++ s ++ "\"".toList

/-- A transport for the examples: the viewer is `alice`, the pull request has
two pending reviews of `alice` (`PRR_1` updated at 1, `PRR_2` updated at 2)
and one of `bob`, and every other document is answered with zero values. -/
def sampleGql : GraphQLClient where
  resolvePR := fun _ => .ok ⟨"PR_1".toList, "abc".toList⟩
  viewerLogin := fun _ => .ok ⟨"alice".toList⟩
  pendingReviews := fun _ => .ok ⟨[
    ⟨"PRR_1".toList, "PENDING".toList, [], "1".toList, "alice".toList, 1,
      [⟨"PRRC_1".toList, "main.go".toList, none, none, "text".toList, false, some 7⟩,
       ⟨" ".toList, "main.go".toList, some 3, none, "text".toList, false, some 9⟩]⟩,
    ⟨"PRR_9".toList, "PENDING".toList, [], "5".toList, "bob".toList, 0, []⟩,
    ⟨"PRR_2".toList, "PENDING".toList, [], "2".toList, "Alice ".toList, 0, []⟩]⟩
  createReview := fun _ => .ok ⟨"PRR_3".toList, "PENDING".toList⟩
  addThread := fun _ => .ok ⟨"PRRT_1".toList, "main.go".toList, some 4, false⟩
  updateComment := fun _ => .ok ()
  deleteComment := fun _ => .ok ()
  submitReview := fun _ => .ok ()
  deleteReview := fun _ => .ok ()
  allPRComments := fun _ => .ok ⟨1, [⟨"PRR_1".toList, "APPROVED".toList, "alice".toList,
      [⟨"PRRC_1".toList, "main.go".toList, none, none, "text".toList, false, some 7,
        []⟩]⟩], 200, []⟩
  reviewThreads := fun _ => .ok ⟨1, [⟨"PRRT_1".toList, false, "main.go".toList, none, some 5,
      []⟩]⟩

/-- A transport for the examples on which every call fails with the message
`boom`. -/
def failingGql : GraphQLClient where
  resolvePR := fun _ => .error "boom".toList
  viewerLogin := fun _ => .error "boom".toList
  pendingReviews := fun _ => .error "boom".toList
  createReview := fun _ => .error "boom".toList
  addThread := fun _ => .error "boom".toList
  updateComment := fun _ => .error "boom".toList
  deleteComment := fun _ => .error "boom".toList
  submitReview := fun _ => .error "boom".toList
  deleteReview := fun _ => .error "boom".toList
  allPRComments := fun _ => .error "boom".toList
  reviewThreads := fun _ => .error "boom".toList

/-- A pull-request reference for the examples. -/
def samplePR : PRRef := ⟨"owner".toList, "repo".toList, 42⟩

/-- A returned comment of a pending review is the record of the response node
`cn`: trimmed id, the node's path, body, start line and outdated flag, and the
line by `lineRule`. -/
def pendingCommentMatches (c : ReviewComment) (cn : PendingCommentNode) : Prop :=
  c.ID = TrimSpace cn.ID ∧ c.Path = cn.Path ∧ c.Body = cn.Body ∧ c.StartLine = cn.StartLine ∧
    c.Outdated = cn.Outdated ∧ lineRule cn.Line cn.OriginalLine c.Line

/-- A returned pending review is the record of the response node `node`:
trimmed id and author login, upper-cased state, the node's URL and comment
count, and as comments the records, in order, of the node's comments with a
non-empty trimmed id. -/
def pendingReviewMatches (lib : Lib) (r : PendingReview) (node : PendingReviewNode) : Prop :=
  r.ID = TrimSpace node.ID ∧ r.Author = TrimSpace node.AuthorLogin ∧
    r.State = ToUpper lib node.State ∧ r.URL = node.URL ∧
    r.TotalCount = node.CommentsTotalCount ∧
    List.Forall₂ pendingCommentMatches r.Comments
      (node.Comments.filter (fun cn => decide (TrimSpace cn.ID ≠ [])))

/-- The review nodes `PendingReviews` keeps for `reviewer`: author login equal
to the reviewer under `EqualFold` after trimming, and a non-empty trimmed id. -/
def keptReviewNodes (lib : Lib) (reviewer : Str) (nodes : List PendingReviewNode) :
    List PendingReviewNode :=
  nodes.filter (fun node =>
    EqualFold lib.orbit (TrimSpace node.AuthorLogin) reviewer &&
      decide (TrimSpace node.ID ≠ []))

/-- The reviews query sent by `PendingReviews`: `first` is 20 unless the option
is positive. -/
def pendingReviewsCall (pr : PRRef) (opts : PendingReviewsOptions) : GqlCall :=
  .pendingReviews pr.Owner pr.Repo pr.Number (if opts.First ≤ 0 then 20 else opts.First)

/-- The preconditions of `AddThread`. -/
def addThreadValid (input : AddThreadInput) : Prop :=
  TrimSpace input.ReviewID ≠ [] ∧ HasPrefix (TrimSpace input.ReviewID) "PRR_".toList = true ∧
    TrimSpace input.Path ≠ [] ∧ 0 < input.Line ∧ TrimSpace input.Body ≠ []

instance (input : AddThreadInput) : Decidable (addThreadValid input) := by
  unfold addThreadValid; infer_instance

/-- The mutation input that the claim on `AddThread` describes: trimmed review
id, path and body, the line unchanged, the side `RIGHT` when the given side is
blank and otherwise the trimmed side in upper case, and the start line and
start side (in upper case) when supplied. -/
def addThreadCall (lib : Lib) (input : AddThreadInput) : GqlCall :=
  .addThread
    { pullRequestReviewId := TrimSpace input.ReviewID, path := TrimSpace input.Path,
      line := input.Line,
      side := if TrimSpace input.Side = [] then "RIGHT".toList
        else ToUpper lib (TrimSpace input.Side),
      body := TrimSpace input.Body, startLine := input.StartLine,
      startSide := input.StartSide.map (ToUpper lib) }

/-- The preconditions of `UpdateComment`. -/
def updateCommentValid (input : UpdateCommentInput) : Prop :=
  TrimSpace input.CommentID ≠ [] ∧ HasPrefix (TrimSpace input.CommentID) "PRRC_".toList = true ∧
    TrimSpace input.Body ≠ []

instance (input : UpdateCommentInput) : Decidable (updateCommentValid input) := by
  unfold updateCommentValid; infer_instance

/-- The precondition of `DeleteComment`. -/
def commentIDValid (commentID : Str) : Prop :=
  TrimSpace commentID ≠ [] ∧ HasPrefix (TrimSpace commentID) "PRRC_".toList = true

instance (commentID : Str) : Decidable (commentIDValid commentID) := by
  unfold commentIDValid; infer_instance

/-- The precondition of `DeleteReview`. -/
def reviewIDValid (reviewID : Str) : Prop :=
  TrimSpace reviewID ≠ [] ∧ HasPrefix (TrimSpace reviewID) "PRR_".toList = true

instance (reviewID : Str) : Decidable (reviewIDValid reviewID) := by
  unfold reviewIDValid; infer_instance

/-- The preconditions of `SubmitReview`. -/
def submitReviewValid (input : SubmitReviewInput) : Prop :=
  reviewIDValid input.ReviewID ∧ TrimSpace input.Event ≠ []

instance (input : SubmitReviewInput) : Decidable (submitReviewValid input) := by
  unfold submitReviewValid; infer_instance

/-- The call sent by `ResolvePR`. -/
def resolvePRCall (pr : PRRef) : GqlCall := .resolvePR pr.Owner pr.Repo pr.Number

/-- The call sent by `CreateReview`. -/
def createReviewCall (input : CreateReviewInput) : GqlCall :=
  .createReview (TrimSpace input.PRNodeID)
    (if TrimSpace input.CommitOID ≠ [] then some (TrimSpace input.CommitOID) else none)

/-- The call sent by `UpdateComment`. -/
def updateCommentCall (input : UpdateCommentInput) : GqlCall :=
  .updateComment (TrimSpace input.CommentID) (TrimSpace input.Body)

/-- The call sent by `SubmitReview`. -/
def submitReviewCall (lib : Lib) (input : SubmitReviewInput) : GqlCall :=
  .submitReview (TrimSpace input.ReviewID) (ToUpper lib (TrimSpace input.Event))
    (if TrimSpace input.Body ≠ [] then some (TrimSpace input.Body) else none)

/-- The limit used by `AllPRComments` and `ReviewThreads`: the requested limit
when it is positive and 100 otherwise. -/
def effectiveLimit (limit : Int) : Int := if 0 < limit then limit else 100

/-- The call sent by `AllPRComments`. -/
def allPRCommentsCall (lib : Lib) (pr : PRRef) (opts : AllCommentsOptions) : GqlCall :=
  .allPRComments pr.Owner pr.Repo pr.Number (effectiveLimit opts.Limit)
    (if opts.States = [] then none else some (opts.States.map (ToUpper lib)))

/-- The call sent by `ReviewThreads`. -/
def reviewThreadsCall (pr : PRRef) (opts : ReviewThreadsOptions) : GqlCall :=
  .reviewThreads pr.Owner pr.Repo pr.Number (effectiveLimit opts.Limit)

/-- A valid input of `AddThread` for the examples. -/
def sampleThreadInput : AddThreadInput :=
  ⟨" PRR_1 ".toList, "main.go".toList, 3, " left ".toList, "text".toList, none,
    some "right".toList⟩

/-- The comment nodes `AllPRComments` keeps, each with its parent review, in
response order: reviews in order, and within a review its comments with a
non-empty trimmed id in order. -/
def keptReviewComments (response : AllPRCommentsResponse) :
    List (ReviewNode × ReviewCommentNode) :=
  response.Reviews.flatMap (fun review =>
    (review.Comments.filter (fun cmt => decide (TrimSpace cmt.ID ≠ []))).map
      (fun cmt => (review, cmt)))

/-- A returned review comment is the record of the comment node `p.2` of the
review node `p.1`: state normalised from the state of the review, author the
trimmed login of the comment when that is non-empty and the trimmed login of
the review otherwise, trimmed id, and the node's path and body. -/
def reviewCommentMatches (lib : Lib) (c : ReviewCommentWithState)
    (p : ReviewNode × ReviewCommentNode) : Prop :=
  c.State = normalizeReviewState lib p.1.State ∧
    (TrimSpace p.2.AuthorLogin ≠ [] → c.Author = TrimSpace p.2.AuthorLogin) ∧
    (TrimSpace p.2.AuthorLogin = [] → c.Author = TrimSpace p.1.AuthorLogin) ∧
    c.ID = TrimSpace p.2.ID ∧ c.ID ≠ [] ∧ c.Path = p.2.Path ∧ c.Body = p.2.Body

/-- The state `ReviewThreads` gives a thread node: `normalizeReviewState` of
the review state of its first comment node, and the empty string when the
node has no comment node. -/
def threadStateOf (lib : Lib) (node : ThreadNode) : Str :=
  match node.Comments with
  | [] => []
  | cmt :: _ => normalizeReviewState lib cmt.ReviewState

/-- The thread nodes `ReviewThreads` keeps: a non-empty trimmed id, unresolved
when `UnresolvedOnly` is set, and, when `States` is non-empty, a state equal
under `EqualFold` to one of the requested states. -/
def keepsThread (lib : Lib) (opts : ReviewThreadsOptions) (node : ThreadNode) : Bool :=
  decide (TrimSpace node.ID ≠ []) && (!opts.UnresolvedOnly || !node.IsResolved) &&
    (opts.States.isEmpty ||
      opts.States.any (fun s => EqualFold lib.orbit (threadStateOf lib node) s))

/-- A returned thread comment is the record of the comment node `cn`. -/
def threadCommentMatches (c : ThreadComment) (cn : ThreadCommentNode) : Prop :=
  c.ID = TrimSpace cn.ID ∧ c.Body = cn.Body ∧ c.Author = TrimSpace cn.AuthorLogin

/-- A returned thread is the record of the thread node `node`: trimmed id, the
node's path and resolution flag, the state of `threadStateOf`, the line by
`lineRule`, and as comments the records, in order, of the node's comments
with a non-empty trimmed id. -/
def threadMatches (lib : Lib) (t : Thread) (node : ThreadNode) : Prop :=
  t.ID = TrimSpace node.ID ∧ t.Path = node.Path ∧ t.IsResolved = node.IsResolved ∧
    t.State = threadStateOf lib node ∧ lineRule node.Line node.OriginalLine t.Line ∧
    List.Forall₂ threadCommentMatches t.Comments
      (node.Comments.filter (fun cn => decide (TrimSpace cn.ID ≠ [])))

/-! ## Go strings as bytes, and `fmt` -/

/-- A Go string as the sequence of its bytes (each below 256).  `len(s)` and
the slice expressions `s[:n]` and `s[n:]` of the table renderer count bytes,
and a slice may cut a rune in two, so the cells of the table renderer are
byte sequences. -/
abbrev Bytes := List Nat

/-- The UTF-8 encoding of a rune. -/
def utf8Char (c : Char) : Bytes :=
  let n := c.toNat
  if n < 0x80 then [n]
  else if n < 0x800 then [0xC0 + n / 0x40, 0x80 + n % 0x40]
  else if n < 0x10000 then [0xE0 + n / 0x1000, 0x80 + n / 0x40 % 0x40, 0x80 + n % 0x40]
  else [0xF0 + n / 0x40000, 0x80 + n / 0x1000 % 0x40, 0x80 + n / 0x40 % 0x40, 0x80 + n % 0x40]

/-- The bytes of a string given by its runes. -/
def utf8 (s : Str) : Bytes := s.flatMap utf8Char

/-- The verb `%d` of `fmt` on an `int`. -/
def formatInt (n : Int) : Str := (toString n).toList

/-- Go `strings.Join`. -/
def Join (parts : List Str) (sep : Str) : Str := sep.intercalate parts

/-- Go `strings.ReplaceAll(s, "\n", " ")` on a string given by its runes. -/
def replaceNewlines (s : Str) : Str := s.map (fun c => if c = '\n' then ' ' else c)

/-- Go `strings.ReplaceAll(s, "\n", " ")` on the bytes of a string: the byte
10 occurs in UTF-8 only as the encoding of the newline. -/
def replaceNewlineBytes (s : Bytes) : Bytes := s.map (fun b => if b = 10 then 32 else b)

/-! ## `internal/output/output.go`: the results -/

/-- The struct `output.CommentsResult`. -/
structure CommentsResult where
  PRRef : Str
  Groups : List CommentGroup
  IncludeIDs : Bool
  deriving DecidableEq, Repr

/-- The struct `output.ViewThreadComment`. -/
structure ViewThreadComment where
  ID : Str
  Author : Str
  Body : Str
  deriving DecidableEq, Repr

/-- The struct `output.ViewThread`. -/
structure ViewThread where
  ID : Str
  Path : Str
  Line : Int
  Resolved : Bool
  Comments : List ViewThreadComment
  deriving DecidableEq, Repr

/-- The struct `output.ViewResult`. -/
structure ViewResult where
  PRRef : Str
  Threads : List ViewThread
  IncludeIDs : Bool
  deriving DecidableEq, Repr

/-- The struct `output.AddResult`. -/
structure AddResult where
  Path : Str
  Line : Int
  deriving DecidableEq, Repr

/-! ## `internal/output/json.go` -/

/-- The struct `jsonComment`. -/
structure jsonComment where
  ID : Str
  State : Str
  Path : Str
  Line : Int
  Body : Str
  deriving DecidableEq, Repr

/-- The struct `jsonCommentGroup`. -/
structure jsonCommentGroup where
  Author : Str
  Comments : List jsonComment
  deriving DecidableEq, Repr

/-- The struct `jsonCommentsResult`. -/
structure jsonCommentsResult where
  PR : Str
  Groups : List jsonCommentGroup
  deriving DecidableEq, Repr

/-- The body of the inner loop of `(*jsonFormatter).formatComments`: the
`jsonComment` of a comment. -/
def jsonFormatter.comment (includeIDs : Bool) (c : Comment) : jsonComment :=
  let cmt : jsonComment := { ID := [], State := c.State, Path := c.Path, Line := c.Line,
                             Body := c.Body }
  if includeIDs then { cmt with ID := c.ID } else cmt

/-- `(*jsonFormatter).formatComments`. -/
def jsonFormatter.formatComments (r : CommentsResult) : jsonCommentsResult :=
  { PR := r.PRRef,
    Groups := r.Groups.map (fun g =>
      { Author := g.Author,
        Comments := g.Comments.map (jsonFormatter.comment r.IncludeIDs) }) }

/-- The struct `jsonViewComment`. -/
structure jsonViewComment where
  ID : Str
  Author : Str
  Body : Str
  deriving DecidableEq, Repr

/-- The struct `jsonViewThread`. -/
structure jsonViewThread where
  ID : Str
  Path : Str
  Line : Int
  Resolved : Bool
  Comments : List jsonViewComment
  deriving DecidableEq, Repr

/-- The struct `jsonViewResult`. -/
structure jsonViewResult where
  PR : Str
  Threads : List jsonViewThread
  deriving DecidableEq, Repr

/-- The body of the inner loop of `(*jsonFormatter).formatView`. -/
def jsonFormatter.viewComment (includeIDs : Bool) (c : ViewThreadComment) : jsonViewComment :=
  let cmt : jsonViewComment := { ID := [], Author := c.Author, Body := c.Body }
  if includeIDs then { cmt with ID := c.ID } else cmt

/-- The body of the outer loop of `(*jsonFormatter).formatView`. -/
def jsonFormatter.viewThread (includeIDs : Bool) (t : ViewThread) : jsonViewThread :=
  let comments := t.Comments.map (jsonFormatter.viewComment includeIDs)
  let thread : jsonViewThread := { ID := [], Path := t.Path, Line := t.Line,
                                   Resolved := t.Resolved, Comments := comments }
  if includeIDs then { thread with ID := t.ID } else thread

/-- `(*jsonFormatter).formatView`. -/
def jsonFormatter.formatView (r : ViewResult) : jsonViewResult :=
  { PR := r.PRRef, Threads := r.Threads.map (jsonFormatter.viewThread r.IncludeIDs) }

/-- A JSON value: what `json.MarshalIndent` writes, before it is laid out as
text.  The members of an object are in the order of the struct fields. -/
inductive JSON where
  | null
  | bool (b : Bool)
  | number (n : Int)
  | string (s : Str)
  | array (items : List JSON)
  | object (members : List (Str × JSON))

/-- A member of an object that the tag `omitempty` leaves out when the field
has its zero value. -/
def omitempty (key : String) (value : JSON) (isZero : Bool) : List (Str × JSON) :=
  if isZero then [] else [(key.toList, value)]

/-- `json.Marshal` of a `jsonComment`, by its struct tags:
`id,omitempty`, `state`, `path,omitempty`, `line,omitempty`, `body`. -/
def jsonComment.marshal (c : jsonComment) : JSON :=
  .object (omitempty "id" (.string c.ID) (decide (c.ID = [])) ++
    [("state".toList, .string c.State)] ++
    omitempty "path" (.string c.Path) (decide (c.Path = [])) ++
    omitempty "line" (.number c.Line) (decide (c.Line = 0)) ++
    [("body".toList, .string c.Body)])

/-- `json.Marshal` of a `jsonCommentGroup`: `author,omitempty`, `comments`. -/
def jsonCommentGroup.marshal (g : jsonCommentGroup) : JSON :=
  .object (omitempty "author" (.string g.Author) (decide (g.Author = [])) ++
    [("comments".toList, .array (g.Comments.map jsonComment.marshal))])

/-- `json.Marshal` of a `jsonCommentsResult`: `pr`, `groups`. -/
def jsonCommentsResult.marshal (r : jsonCommentsResult) : JSON :=
  .object [("pr".toList, .string r.PR),
    ("groups".toList, .array (r.Groups.map jsonCommentGroup.marshal))]

/-- `json.Marshal` of a `jsonViewComment`: `id,omitempty`, `author`, `body`. -/
def jsonViewComment.marshal (c : jsonViewComment) : JSON :=
  .object (omitempty "id" (.string c.ID) (decide (c.ID = [])) ++
    [("author".toList, .string c.Author), ("body".toList, .string c.Body)])

/-- `json.Marshal` of a `jsonViewThread`: `id,omitempty`, `path`,
`line,omitempty`, `resolved`, `comments`. -/
def jsonViewThread.marshal (t : jsonViewThread) : JSON :=
  .object (omitempty "id" (.string t.ID) (decide (t.ID = [])) ++
    [("path".toList, .string t.Path)] ++
    omitempty "line" (.number t.Line) (decide (t.Line = 0)) ++
    [("resolved".toList, .bool t.Resolved),
     ("comments".toList, .array (t.Comments.map jsonViewComment.marshal))])

/-- `json.Marshal` of a `jsonViewResult`: `pr`, `threads`. -/
def jsonViewResult.marshal (r : jsonViewResult) : JSON :=
  .object [("pr".toList, .string r.PR),
    ("threads".toList, .array (r.Threads.map jsonViewThread.marshal))]

/-! ## `internal/output/plain.go` -/

/-- `joinTSV`. -/
def joinTSV (parts : List Str) : Str := Join parts "\t".toList

/-- The slice `parts` built for a comment in `(*plainFormatter).formatComments`;
`groupAuthor` is `group.Author`. -/
def plainFormatter.commentParts (includeIDs : Bool) (groupAuthor : Str) (c : Comment) :
    List Str :=
  let parts := [c.State]
  let parts := if includeIDs then parts ++ [c.ID] else parts
  let parts :=
    if c.Path ≠ [] then
      let loc := if c.Line > 0 then c.Path ++ ":".toList ++ formatInt c.Line else c.Path
      parts ++ [loc]
    else parts
  let parts := parts ++ [c.Body]
  if groupAuthor = [] ∧ c.Author ≠ [] then parts ++ [c.Author] else parts

/-- What `(*plainFormatter).formatComments` writes for one comment. -/
def plainFormatter.commentRow (includeIDs : Bool) (groupAuthor : Str) (c : Comment) : Str :=
  let pfx := if groupAuthor = [] then [] else "\t".toList
  pfx ++ joinTSV (plainFormatter.commentParts includeIDs groupAuthor c) ++ "\n".toList

/-- `(*plainFormatter).formatComments`: the text written to `f.w`. -/
def plainFormatter.formatComments (r : CommentsResult) : Str :=
  r.Groups.flatMap (fun group =>
    (if group.Author ≠ [] then "@".toList ++ group.Author ++ "\n".toList else []) ++
      group.Comments.flatMap (plainFormatter.commentRow r.IncludeIDs group.Author))

/-- What `(*plainFormatter).formatView` writes for a thread before its
comments. -/
def plainFormatter.threadRow (includeIDs : Bool) (t : ViewThread) : Str :=
  let status := if !t.Resolved then "unresolved".toList else "resolved".toList
  let loc := if t.Line > 0 then t.Path ++ ":".toList ++ formatInt t.Line else t.Path
  if includeIDs then t.ID ++ "\t".toList ++ status ++ "\t".toList ++ loc ++ "\n".toList
  else status ++ "\t".toList ++ loc ++ "\n".toList

/-- What `(*plainFormatter).formatView` writes for a comment of a thread. -/
def plainFormatter.viewCommentRow (includeIDs : Bool) (c : ViewThreadComment) : Str :=
  let body := replaceNewlines c.Body
  if includeIDs then
    "\t".toList ++ c.ID ++ "\t".toList ++ c.Author ++ "\t".toList ++ body ++ "\n".toList
  else "\t".toList ++ c.Author ++ "\t".toList ++ body ++ "\n".toList

/-- `(*plainFormatter).formatView`: the text written to `f.w`. -/
def plainFormatter.formatView (r : ViewResult) : Str :=
  r.Threads.flatMap (fun t =>
    plainFormatter.threadRow r.IncludeIDs t ++
      t.Comments.flatMap (plainFormatter.viewCommentRow r.IncludeIDs))

/-! ## `internal/output/table.go` -/

/-- The lipgloss collaborators of the table renderer, taken as given:
`authorStyle.Render`, `dimStyle.Render`, and the rendering of a table from its
headers and rows (border and the three row styles included). -/
structure Styles where
  authorStyle : Bytes → Bytes
  dimStyle : Bytes → Bytes
  table : List Bytes → List (List Bytes) → Bytes

/-- The row built for a comment in `(*tableFormatter).formatComments`. -/
def tableFormatter.commentRow (includeIDs : Bool) (groupAuthor : Str) (c : Comment) :
    List Bytes :=
  let bodyPreview := utf8 c.Body
  let bodyPreview :=
    if bodyPreview.length > 40 then bodyPreview.take 40 ++ utf8 "...".toList else bodyPreview
  let bodyPreview := replaceNewlineBytes bodyPreview
  let location :=
    if c.Path ≠ [] then
      let pathShort := utf8 c.Path
      let pathShort :=
        if pathShort.length > 20 then utf8 "...".toList ++ pathShort.drop (pathShort.length - 17)
        else pathShort
      if c.Line > 0 then pathShort ++ utf8 ":".toList ++ utf8 (formatInt c.Line)
      else pathShort
    else utf8 "(global)".toList
  let row := [utf8 c.State, location, bodyPreview]
  let row := if includeIDs then [utf8 c.ID] ++ row else row
  if groupAuthor = [] ∧ c.Author ≠ [] then row ++ [utf8 c.Author] else row

/-- The slice `headers` of `(*tableFormatter).formatComments`. -/
def tableFormatter.headers (includeIDs : Bool) (groupAuthor : Str) : List Bytes :=
  let headers := [utf8 "State".toList, utf8 "Location".toList, utf8 "Body".toList]
  let headers := if includeIDs then [utf8 "ID".toList] ++ headers else headers
  if groupAuthor = [] then headers ++ [utf8 "Author".toList] else headers

/-- `(*tableFormatter).formatComments`: the arguments of the calls of
`fmt.Fprintln(f.w, ...)`, in order; each is written followed by a newline, and
the empty sequence is the call without argument. -/
def tableFormatter.formatComments (styles : Styles) (isTTY : Bool) (r : CommentsResult) :
    List Bytes :=
  (r.Groups.enum.map (fun (i, group) =>
    (if i > 0 then [[]] else []) ++
    (if group.Author ≠ [] then
      let authorHeader := utf8 ("@".toList ++ group.Author ++ " (".toList ++
        formatInt group.Comments.length ++ " comments)".toList)
      [if isTTY then styles.authorStyle authorHeader else authorHeader]
     else []) ++
    [styles.table (tableFormatter.headers r.IncludeIDs group.Author)
      (group.Comments.map (tableFormatter.commentRow r.IncludeIDs group.Author))])).flatten

/-- `truncateBody`; `none` is the panic of the slice expression `s[:maxLen]`
for a negative `maxLen`. -/
def truncateBody (s : Bytes) (maxLen : Int) : Option Bytes :=
  let s := replaceNewlineBytes s
  if (s.length : Int) > maxLen then
    if maxLen < 0 then none
    else some (s.take maxLen.toNat ++ utf8 "...".toList)
  else some s

/-- The header of a thread in `(*tableFormatter).formatView`, before
styling. -/
def tableFormatter.threadHeader (includeIDs : Bool) (thread : ViewThread) : Str :=
  let status := if !thread.Resolved then "unresolved".toList else "resolved".toList
  let location :=
    if thread.Line > 0 then thread.Path ++ ":".toList ++ formatInt thread.Line
    else thread.Path
  let header := "[".toList ++ status ++ "] ".toList ++ location
  if includeIDs then
    "[".toList ++ status ++ "] ".toList ++ location ++ " (".toList ++ thread.ID ++ ")".toList
  else header

/-- The line of a comment in `(*tableFormatter).formatView`. -/
def tableFormatter.viewCommentLine (includeIDs : Bool) (c : ViewThreadComment) :
    Option Bytes :=
  match truncateBody (utf8 c.Body) 60 with
  | none => none
  | some body =>
    let line := utf8 ("  @".toList ++ c.Author ++ ": ".toList) ++ body
    if includeIDs then
      match truncateBody (utf8 c.Body) 50 with
      | none => none
      | some body =>
        some (utf8 ("  [".toList ++ c.ID ++ "] @".toList ++ c.Author ++ ": ".toList) ++ body)
    else some line

/-- All the values of a list of optional values, or `none` if one is
missing. -/
def allSome {α : Type} : List (Option α) → Option (List α)
  | [] => some []
  | none :: _ => none
  | some a :: l =>
    match allSome l with
    | none => none
    | some r => some (a :: r)

/-- What `(*tableFormatter).formatView` prints for the thread at index `i`:
the arguments of the calls of `fmt.Fprintln(f.w, ...)`, in order. -/
def tableFormatter.viewThread (styles : Styles) (isTTY : Bool) (includeIDs : Bool) (i : Nat)
    (thread : ViewThread) : Option (List Bytes) :=
  let header := utf8 (tableFormatter.threadHeader includeIDs thread)
  let header :=
    if isTTY then
      if thread.Resolved then styles.dimStyle header else styles.authorStyle header
    else header
  match allSome (thread.Comments.map (tableFormatter.viewCommentLine includeIDs)) with
  | none => none
  | some lines => some ((if i > 0 then [[]] else []) ++ [header] ++ lines)

/-- `(*tableFormatter).formatView`: the arguments of the calls of
`fmt.Fprintln(f.w, ...)`, in order. -/
def tableFormatter.formatView (styles : Styles) (isTTY : Bool) (r : ViewResult) :
    Option (List Bytes) :=
  (allSome (r.Threads.enum.map (fun (i, thread) =>
    tableFormatter.viewThread styles isTTY r.IncludeIDs i thread))).map List.flatten

/-! ## `internal/templates/templates.go` -/

/-- The map `templates`, as the list of its entries. -/
def templates : List (Str × Str) :=
  [("naming".toList,
    ("**Naming Convention**\n\nConsider using a more descriptive name that follows the " ++
      "project\x27s naming conventions.").toList),
   ("security".toList,
    ("**Security Concern**\n\nThis code may have security implications. Please review for " ++
      "potential vulnerabilities.").toList),
   ("perf".toList,
    ("**Performance**\n\nThis implementation may have performance implications at scale. " ++
      "Consider optimizing.").toList),
   ("style".toList,
    ("**Style Guide**\n\nThis code doesn\x27t follow the project\x27s style guide. Please " ++
      "update to match conventions.").toList)]

/-- `templates.Get`: `none` is `ok == false`. -/
def templates.Get (name : Str) : Option Str := List.lookup name templates

/-! ## `cmd/add.go` and the rest of `cmd/comments.go` -/

/-- The errors a command returns.  `ref` is an error of `resolvePR`, `api` an
error of a client operation returned as it is, `unknownTemplate name` is
`unknown template %q (available: %v)`, `text msg` is `fmt.Errorf(msg)`,
`newClient cause` is `create GraphQL client: %w` of `api.NewClient`, and
`resolveUser err` is `resolve current user: %w`. -/
inductive CmdError where
  | ref (err : RefError)
  | api (err : ApiError)
  | unknownTemplate (name : Str)
  | text (msg : Str)
  | newClient (cause : Str)
  | resolveUser (err : ApiError)
  deriving DecidableEq, Repr

/-- What a command finds around it: the library data, the go-gh `repository`
package, the package variable `repoFlag`, the transport `api.NewClient`
obtains from `api.DefaultGraphQLClient` (or the message of its error), and
the order `range` in which a Go map is visited. -/
structure CmdEnv where
  lib : Lib
  repo : RepoEnv
  repoFlag : Str
  DefaultGraphQLClient : Except Str GraphQLClient
  range : List Str → List Str

/-- The package variables of `cmd/add.go`. -/
structure AddFlags where
  addPath : Str
  addLine : Int
  addBody : Str
  addSide : Str
  addTemplate : Str
  addStartLine : Int
  addStartSide : Str
  addReviewID : Str
  deriving DecidableEq, Repr

/-- The block of `runAdd` that determines `reviewID`: the explicit review id,
or the latest pending review, or a review created for the pull request. -/
def runAdd.reviewID (lib : Lib) (gql : GraphQLClient) (addReviewID : Str) (pr : PRRef) :
    Except CmdError Str × List GqlCall :=
  if addReviewID ≠ [] then (.ok addReviewID, [])
  else
    match LatestPendingReview lib gql pr ⟨[], 0⟩ with
    | (.error _, calls) =>
      match ResolvePR gql pr with
      | (.error resolveErr, calls2) => (.error (.api resolveErr), calls ++ calls2)
      | (.ok prIdentity, calls2) =>
        match CreateReview gql ⟨prIdentity.NodeID, prIdentity.HeadRefOID⟩ with
        | (.error createErr, calls3) => (.error (.api createErr), calls ++ calls2 ++ calls3)
        | (.ok result, calls3) => (.ok result.ID, calls ++ calls2 ++ calls3)
    | (.ok review, calls) => (.ok review.ID, calls)

/-- `runAdd`, with the package variables as an argument: the result handed to
the formatter, or the error returned, and the calls of `gql.Do` in order.
(Writing the result to standard output is left out.) -/
def runAdd (env : CmdEnv) (flags : AddFlags) (arg : Str) :
    Except CmdError AddResult × List GqlCall :=
  match (resolvePR env.repo env.repoFlag arg).1 with
  | .error err => (.error (.ref err), [])
  | .ok pr =>
    let body : Except CmdError Str :=
      if flags.addTemplate ≠ [] then
        match templates.Get flags.addTemplate with
        | none => .error (.unknownTemplate flags.addTemplate)
        | some tpl => .ok tpl
      else .ok flags.addBody
    match body with
    | .error err => (.error err, [])
    | .ok body =>
      if body = [] then (.error (.text "body is required (use -b or -t)".toList), [])
      else
        match env.DefaultGraphQLClient with
        | .error err => (.error (.newClient err), [])
        | .ok gql =>
          match runAdd.reviewID env.lib gql flags.addReviewID pr with
          | (.error err, calls) => (.error err, calls)
          | (.ok reviewID, calls) =>
            let input : AddThreadInput :=
              { ReviewID := reviewID, Path := flags.addPath, Line := flags.addLine,
                Side := flags.addSide, Body := body,
                StartLine := if flags.addStartLine > 0 then some flags.addStartLine else none,
                StartSide := if flags.addStartSide ≠ [] then some flags.addStartSide else none }
            match AddThread env.lib gql input with
            | (.error err, calls4) => (.error (.api err), calls ++ calls4)
            | (.ok _, calls4) => (.ok ⟨flags.addPath, flags.addLine⟩, calls ++ calls4)

/-- The package variables of `cmd/comments.go`: those of `ListFlags` and the
remaining ones. -/
structure CommentsFlags extends ListFlags where
  listMine : Bool
  listUnresolved : Bool
  listIDs : Bool
  listLimit : Int

/-- The comments `runComments` builds from the review threads, before
`matchesFilters` is asked. -/
def threadComments (threads : List Thread) : List Comment :=
  threads.flatMap (fun thread =>
    thread.Comments.map (fun c =>
      { ID := c.ID, Path := thread.Path, Line := thread.Line, Body := c.Body,
        State := "unresolved".toList, Author := c.Author }))

/-- The comments `runComments` builds from the result of `AllPRComments`,
before `matchesFilters` is asked: the review comments, then the discussion
comments. -/
def allComments (all : AllCommentsResult) : List Comment :=
  all.ReviewComments.map (fun c =>
      { ID := c.ID, Path := c.Path, Line := c.Line, Body := c.Body, State := c.State,
        Author := c.Author }) ++
    all.PRComments.map (fun c =>
      { ID := c.ID, Path := [], Line := 0, Body := c.Body, State := "discussion".toList,
        Author := c.Author })

/-- `runComments`, with the package variables as an argument: the result
handed to the formatter together with the flag `truncated`, or the error
returned, and the calls of `gql.Do` in order.  (Writing the result and the
warning is left out.) -/
def runComments (env : CmdEnv) (flags : CommentsFlags) (arg : Str) :
    Except CmdError (CommentsResult × Bool) × List GqlCall :=
  match (resolvePR env.repo env.repoFlag arg).1 with
  | .error err => (.error (.ref err), [])
  | .ok pr =>
    match env.DefaultGraphQLClient with
    | .error err => (.error (.newClient err), [])
    | .ok gql =>
      let mine : Except CmdError Str × List GqlCall :=
        if flags.listMine then
          match ViewerLogin gql with
          | (.error err, calls) => (.error (.resolveUser err), calls)
          | (.ok login, calls) => (.ok login, calls)
        else (.ok flags.listAuthor, [])
      match mine with
      | (.error err, calls) => (.error err, calls)
      | (.ok listAuthor, calls) =>
        let f : ListFlags := { flags.toListFlags with listAuthor := listAuthor }
        let fetched : Except CmdError (List Comment × Bool) × List GqlCall :=
          if flags.listUnresolved then
            match ReviewThreads env.lib gql pr ⟨flags.listLimit, true, []⟩ with
            | (.error err, calls2) => (.error (.api err), calls2)
            | (.ok threads, calls2) =>
              (.ok (filterComments env.lib.orbit f (threadComments threads.Threads),
                threads.Truncated), calls2)
          else
            match AllPRComments env.lib gql pr ⟨flags.listLimit, flags.listStates⟩ with
            | (.error err, calls2) => (.error (.api err), calls2)
            | (.ok all, calls2) =>
              (.ok (filterComments env.lib.orbit f (allComments all), all.Truncated), calls2)
        match fetched with
        | (.error err, calls2) => (.error err, calls ++ calls2)
        | (.ok (comments, truncated), calls2) =>
          (.ok ({ PRRef := pr.String, IncludeIDs := flags.listIDs,
                  Groups := buildGroups env.range f.listFlat (applyTail f.listTail comments) },
            truncated), calls ++ calls2)

/-! ## Specification-side definitions for the renderers and the commands -/

/-- The value of the member `key` among the members of an object. -/
def JSON.lookup (key : String) : List (Str × JSON) → Option JSON
  | [] => none
  | (k, v) :: rest => if k = key.toList then some v else JSON.lookup key rest

/-- The value of the member `key` of a JSON object; `none` when the value is
no object or has no such member. -/
def JSON.member (key : String) : JSON → Option JSON
  | .object members => JSON.lookup key members
  | _ => none

/-- Reading a string field back (`json.Unmarshal`): an absent member or `null`
leaves the zero value, a value of another kind is an error (`none`). -/
def JSON.stringField (key : String) (members : List (Str × JSON)) : Option Str :=
  match JSON.lookup key members with
  | none => some []
  | some .null => some []
  | some (.string s) => some s
  | some _ => none

/-- Reading an `int` field back. -/
def JSON.intField (key : String) (members : List (Str × JSON)) : Option Int :=
  match JSON.lookup key members with
  | none => some 0
  | some .null => some 0
  | some (.number n) => some n
  | some _ => none

/-- Reading a slice field back, each element with `f`. -/
def JSON.arrayField {α : Type} (f : JSON → Option α) (key : String)
    (members : List (Str × JSON)) : Option (List α) :=
  match JSON.lookup key members with
  | none => some []
  | some .null => some []
  | some (.array items) => allSome (items.map f)
  | some _ => none

/-- Parsing a JSON value back into a `jsonComment`. -/
def jsonComment.unmarshal : JSON → Option jsonComment
  | .object m =>
    match JSON.stringField "id" m, JSON.stringField "state" m, JSON.stringField "path" m,
      JSON.intField "line" m, JSON.stringField "body" m with
    | some id, some state, some path, some line, some body => some ⟨id, state, path, line, body⟩
    | _, _, _, _, _ => none
  | _ => none

/-- Parsing a JSON value back into a `jsonCommentGroup`. -/
def jsonCommentGroup.unmarshal : JSON → Option jsonCommentGroup
  | .object m =>
    match JSON.stringField "author" m, JSON.arrayField jsonComment.unmarshal "comments" m with
    | some author, some comments => some ⟨author, comments⟩
    | _, _ => none
  | _ => none

/-- Parsing a JSON value back into a `jsonCommentsResult`. -/
def jsonCommentsResult.unmarshal : JSON → Option jsonCommentsResult
  | .object m =>
    match JSON.stringField "pr" m, JSON.arrayField jsonCommentGroup.unmarshal "groups" m with
    | some pr, some groups => some ⟨pr, groups⟩
    | _, _ => none
  | _ => none

/-- The number of newline characters of a text: the number of lines written. -/
def lineCount (s : Str) : Nat := s.count '\n'

/-- The number of comments of a result. -/
def commentCount (r : CommentsResult) : Nat := (r.Groups.map (fun g => g.Comments.length)).sum

/-- The number of groups of a result with a non-empty author. -/
def headerCount (r : CommentsResult) : Nat :=
  (r.Groups.filter (fun g => decide (g.Author ≠ []))).length

/-- A transport for the examples: as `sampleGql`, but the reviews query of
`PendingReviews` fails with the message `boom`. -/
def reviewsFailingGql : GraphQLClient :=
  { sampleGql with pendingReviews := fun _ => .error "boom".toList }

/-- A transport for the examples: as `sampleGql`, but the viewer query fails
with the message `boom`. -/
def viewerFailingGql : GraphQLClient :=
  { sampleGql with viewerLogin := fun _ => .error "boom".toList }

/-- A transport for the examples: as `sampleGql`, but the pull request has one
unresolved thread with two comments, whose review is approved. -/
def threadsGql : GraphQLClient :=
  { sampleGql with
    reviewThreads := fun _ => .ok ⟨1, [⟨"PRRT_1".toList, false, "main.go".toList, some 3, none,
      [⟨"PRRC_1".toList, "first".toList, "alice".toList, "APPROVED".toList⟩,
       ⟨"PRRC_2".toList, "second".toList, "bob".toList, "APPROVED".toList⟩]⟩]⟩ }

/-- An environment of the commands for the examples, around the transport
`gql`: the repository flag is `owner/repo`. -/
def sampleCmdEnv (gql : GraphQLClient) : CmdEnv where
  lib := sampleLib
  repo := sampleEnv
  repoFlag := "owner/repo".toList
  DefaultGraphQLClient := .ok gql
  range := fun keys => keys

/-- Flags of `add` for the examples: a comment on line 3 of `main.go`, no
explicit review id. -/
def sampleAddFlags : AddFlags :=
  ⟨"main.go".toList, 3, "text".toList, "RIGHT".toList, [], 0, [], []⟩

/-- A comment for the examples with the given id, body and author. -/
def sampleOutputComment (id body author : String) : Comment :=
  ⟨id.toList, "main.go".toList, 3, body.toList, "pending".toList, author.toList⟩

/-- A transport for the examples: as `sampleGql`, but each of the three
queries is answered with comment or thread nodes that have a live and an
original line (3 and 9), an original line only (7), and neither. -/
def linesGql : GraphQLClient :=
  { sampleGql with
    pendingReviews := fun _ => .ok ⟨[
      ⟨"PRR_1".toList, "PENDING".toList, [], "1".toList, "alice".toList, 3,
        [⟨"PRRC_1".toList, "main.go".toList, some 3, none, "text".toList, false, some 9⟩,
         ⟨"PRRC_2".toList, "main.go".toList, none, none, "text".toList, true, some 7⟩,
         ⟨"PRRC_3".toList, "main.go".toList, none, none, "text".toList, true, none⟩]⟩]⟩
    allPRComments := fun _ => .ok ⟨1, [⟨"PRR_1".toList, "APPROVED".toList, "alice".toList,
      [⟨"PRRC_1".toList, "main.go".toList, some 3, none, "text".toList, false, some 9, []⟩,
       ⟨"PRRC_2".toList, "main.go".toList, none, none, "text".toList, true, some 7, []⟩,
       ⟨"PRRC_3".toList, "main.go".toList, none, none, "text".toList, true, none, []⟩]⟩],
      0, []⟩
    reviewThreads := fun _ => .ok ⟨3, [
      ⟨"PRRT_1".toList, false, "main.go".toList, some 3, some 9, []⟩,
      ⟨"PRRT_2".toList, false, "main.go".toList, none, some 7, []⟩,
      ⟨"PRRT_3".toList, false, "main.go".toList, none, none, []⟩]⟩ }

/-! ## Library facts: white space, digits, `Atoi` -/

theorem isSpace_of_isDigit {c : Char} (h : isDigit c = true) : isSpace c = false := by
  simp only [isDigit, Bool.and_eq_true, decide_eq_true_eq] at h
  simp only [isSpace, Bool.or_eq_false_iff, Bool.and_eq_false_iff, decide_eq_false_iff_not,
    beq_eq_false_iff_ne]
  omega

theorem dropWhile_allSpace_append (pre s : Str) (hpre : allSpace pre) :
    (pre ++ s).dropWhile isSpace = s.dropWhile isSpace := by
  induction pre with
  | nil => rfl
  | cons c pre ih =>
    have hc : isSpace c = true := hpre c (List.mem_cons_self _ _)
    have hrest : allSpace pre := fun d hd => hpre d (List.mem_cons_of_mem _ hd)
    simp [List.dropWhile, hc, ih hrest]

theorem dropWhile_of_head (c : Char) (s : Str) (hc : isSpace c = false) :
    (c :: s).dropWhile isSpace = c :: s := by
  simp [List.dropWhile, hc]

/-- Trimming removes white space around a text that neither starts nor ends
with white space. -/
theorem TrimSpace_pad (pre core post : Str) (hpre : allSpace pre) (hpost : allSpace post)
    (hne : core ≠ []) (hhead : isSpace (core.head hne) = false)
    (hlast : isSpace (core.getLast hne) = false) :
    TrimSpace (pre ++ core ++ post) = core := by
  unfold TrimSpace
  rw [List.append_assoc, dropWhile_allSpace_append _ _ hpre]
  obtain ⟨c, t, rfl⟩ := List.exists_cons_of_ne_nil hne
  rw [List.cons_append, dropWhile_of_head c _ hhead, ← List.cons_append, List.reverse_append,
    dropWhile_allSpace_append _ _ (fun d hd => hpost d (List.mem_reverse.mp hd))]
  have hrne : (c :: t).reverse ≠ [] := by simp
  obtain ⟨d, u, hdu⟩ := List.exists_cons_of_ne_nil hrne
  have hd : isSpace d = false := by
    have h1 : (c :: t).getLast hne = d := by
      have := List.head_reverse (l := c :: t) hrne
      rw [← this]
      simp [hdu]
    rw [← h1]; exact hlast
  rw [hdu, dropWhile_of_head d u hd, ← hdu, List.reverse_reverse]

theorem TrimSpace_allSpace (s : Str) (h : allSpace s) : TrimSpace s = [] := by
  unfold TrimSpace
  have := dropWhile_allSpace_append s [] h
  rw [List.append_nil] at this
  rw [this]; rfl

theorem digitsValue_append_single (s : Str) (c : Char) :
    digitsValue (s ++ [c]) = digitsValue s * 10 + (c.toNat - 48) := by
  simp [digitsValue, List.foldl_append]

theorem foldl_digits_le (ds : Str) (n : Nat) :
    n ≤ ds.foldl (fun n c => n * 10 + (c.toNat - 48)) n := by
  induction ds generalizing n with
  | nil => exact Nat.le_refl n
  | cons c ds ih =>
    rw [List.foldl_cons]
    exact Nat.le_trans (by omega) (ih (n * 10 + (c.toNat - 48)))

/-- On a run of digits the loop of `ParseUint` ends with the value of the run
when that is in the `uint64` range, and with `ErrRange` otherwise. -/
theorem parseUintLoop_digits (ds : Str) (hall : ∀ c ∈ ds, isDigit c = true) (n : Nat)
    (hn : n ≤ maxUint64) :
    parseUintLoop ds n =
      if ds.foldl (fun n c => n * 10 + (c.toNat - 48)) n ≤ maxUint64 then
        (ds.foldl (fun n c => n * 10 + (c.toNat - 48)) n, none)
      else (maxUint64, some .errRange) := by
  have hmax : maxUint64 = 18446744073709551615 := by decide
  induction ds generalizing n with
  | nil => simp only [parseUintLoop, List.foldl_nil, hn, if_true]
  | cons c ds ih =>
    have hc : isDigit c = true := hall c (List.mem_cons_self _ _)
    have hrest : ∀ x ∈ ds, isDigit x = true := fun x hx => hall x (List.mem_cons_of_mem _ hx)
    have hmono := foldl_digits_le ds (n * 10 + (c.toNat - 48))
    rw [List.foldl_cons]
    simp only [parseUintLoop, hc, Bool.not_true, Bool.false_eq_true, if_false]
    by_cases h1 : n ≥ maxUint64 / 10 + 1
    · rw [if_pos h1]
      have : ¬ ds.foldl (fun n c => n * 10 + (c.toNat - 48)) (n * 10 + (c.toNat - 48)) ≤
          maxUint64 := by
        rw [hmax] at h1 ⊢; omega
      rw [if_neg this]
    · rw [if_neg h1]
      by_cases h2 : n * 10 + (c.toNat - 48) > maxUint64
      · rw [if_pos h2]
        have : ¬ ds.foldl (fun n c => n * 10 + (c.toNat - 48)) (n * 10 + (c.toNat - 48)) ≤
            maxUint64 := by omega
        rw [if_neg this]
      · rw [if_neg h2]
        exact ih hrest _ (by omega)

/-- `Atoi` on a non-empty run of digits. -/
theorem Atoi_digits_cases (ds : Str) (hd : isDigits ds) :
    Atoi ds =
      if (digitsValue ds : Int) ≤ maxInt then ((digitsValue ds : Int), none)
      else (maxInt, some .errRange) := by
  obtain ⟨hne, hall⟩ := hd
  obtain ⟨c, t, rfl⟩ := List.exists_cons_of_ne_nil hne
  have hc : isDigit c = true := hall c (List.mem_cons_self _ _)
  have hplus : (c == '+') = false := by
    rw [beq_eq_false_iff_ne]; rintro rfl; revert hc; decide
  have hminus : (c == '-') = false := by
    rw [beq_eq_false_iff_ne]; rintro rfl; revert hc; decide
  have hmaxInt : maxInt = 2 ^ 63 - 1 := by decide
  have h2 : (2 : Nat) ^ (intSize - 1) = 2 ^ 63 := by decide
  have hmax : maxUint64 = 18446744073709551615 := by decide
  have hloop := parseUintLoop_digits (c :: t) hall 0 (Nat.zero_le _)
  have hval : (c :: t).foldl (fun n c => n * 10 + (c.toNat - 48)) 0 = digitsValue (c :: t) := rfl
  rw [hval] at hloop
  simp only [Atoi, hplus, hminus, Bool.or_self, Bool.false_eq_true, if_false,
    List.isEmpty_cons, hloop]
  by_cases hfit : digitsValue (c :: t) ≤ maxUint64
  · rw [if_pos hfit]
    by_cases hv : (digitsValue (c :: t) : Int) ≤ maxInt
    · have hlt : ¬ (2 ^ (intSize - 1) ≤ digitsValue (c :: t)) := by
        rw [hmaxInt] at hv; rw [h2]; omega
      simp only [Bool.not_false, Bool.true_and, Bool.false_and, decide_eq_true_eq, hlt,
        Bool.false_eq_true, if_false, hv, if_true]
    · have hlt : (2 ^ (intSize - 1) ≤ digitsValue (c :: t)) := by
        rw [hmaxInt] at hv; rw [h2]; omega
      simp only [Bool.not_false, Bool.true_and, decide_eq_true_eq, hlt, if_true, hv, if_false]
  · rw [if_neg hfit]
    have hv : ¬ (digitsValue (c :: t) : Int) ≤ maxInt := by
      rw [hmaxInt]; rw [hmax] at hfit; omega
    simp only [Bool.false_eq_true, if_false, hv]

/-- `Atoi` on a minus sign followed by a non-empty run of digits. -/
theorem Atoi_neg_digits (ds : Str) (hd : isDigits ds) :
    Atoi ('-' :: ds) =
      if (digitsValue ds : Int) ≤ -minInt then (-(digitsValue ds : Int), none)
      else (minInt, some .errRange) := by
  obtain ⟨hne, hall⟩ := hd
  have hemp : ds.isEmpty = false := by
    cases ds with
    | nil => exact absurd rfl hne
    | cons c t => rfl
  have hminInt : minInt = -(2 ^ 63) := by decide
  have h2 : (2 : Nat) ^ (intSize - 1) = 2 ^ 63 := by decide
  have hmax : maxUint64 = 18446744073709551615 := by decide
  have hloop := parseUintLoop_digits ds hall 0 (Nat.zero_le _)
  have hval : ds.foldl (fun n c => n * 10 + (c.toNat - 48)) 0 = digitsValue ds := rfl
  rw [hval] at hloop
  have hsign : (('-' : Char) == '+' || ('-' : Char) == '-') = true := by decide
  have hneg : (('-' : Char) == '-') = true := by decide
  simp only [Atoi, hsign, hneg, Bool.or_true, if_true, hemp, Bool.false_eq_true, if_false, hloop]
  by_cases hfit : digitsValue ds ≤ maxUint64
  · rw [if_pos hfit]
    by_cases hv : (digitsValue ds : Int) ≤ -minInt
    · have hlt : ¬ (2 ^ (intSize - 1) < digitsValue ds) := by
        rw [hminInt] at hv; rw [h2]; omega
      simp only [Bool.not_true, Bool.false_and, Bool.true_and, decide_eq_true_eq, hlt,
        Bool.false_eq_true, if_false, hv, if_true]
    · have hlt : (2 ^ (intSize - 1) < digitsValue ds) := by
        rw [hminInt] at hv; rw [h2]; omega
      simp only [Bool.not_true, Bool.false_and, Bool.true_and, decide_eq_true_eq, hlt,
        Bool.false_eq_true, if_false, hv, if_true]
  · rw [if_neg hfit]
    have hv : ¬ (digitsValue ds : Int) ≤ -minInt := by
      rw [hminInt]; rw [hmax] at hfit; omega
    simp only [hv, if_false]

/-- On a non-empty run of digits whose value fits, `Atoi` returns the value. -/
theorem Atoi_digits (ds : Str) (hd : isDigits ds) (hv : (digitsValue ds : Int) ≤ maxInt) :
    Atoi ds = ((digitsValue ds : Int), none) := by
  rw [Atoi_digits_cases ds hd, if_pos hv]

/-- On a run of digits too large for `int`, `Atoi` returns the largest
`int`. -/
theorem Atoi_digits_clamp (ds : Str) (hd : isDigits ds) (hv : maxInt < (digitsValue ds : Int)) :
    Atoi ds = (maxInt, some .errRange) := by
  rw [Atoi_digits_cases ds hd, if_neg (by omega)]

/-! ## The decimal numeral of a number -/

theorem digitChar_spec (m : Nat) (hm : m < 10) :
    isDigit (Nat.digitChar m) = true ∧ (Nat.digitChar m).toNat - 48 = m := by
  interval_cases m <;> decide

theorem toDigitsCore_spec (fuel : Nat) :
    ∀ (n : Nat) (acc : Str), n < fuel →
      ∃ ds : Str, Nat.toDigitsCore 10 fuel n acc = ds ++ acc ∧ isDigits ds ∧
        digitsValue ds = n := by
  induction fuel with
  | zero => intro n acc h; omega
  | succ fuel ih =>
    intro n acc hn
    obtain ⟨hdig, hval⟩ := digitChar_spec (n % 10) (Nat.mod_lt _ (by decide))
    by_cases hq : n / 10 = 0
    · refine ⟨[Nat.digitChar (n % 10)], ?_, ⟨by simp, ?_⟩, ?_⟩
      · simp [Nat.toDigitsCore, hq]
      · intro c hc
        rw [List.mem_singleton] at hc
        rw [hc]; exact hdig
      · simp only [digitsValue, List.foldl_cons, List.foldl_nil, Nat.zero_mul, Nat.zero_add, hval]
        omega
    · have hlt : n / 10 < fuel := by omega
      obtain ⟨ds, hds, ⟨hne, hall⟩, hv⟩ := ih (n / 10) (Nat.digitChar (n % 10) :: acc) hlt
      refine ⟨ds ++ [Nat.digitChar (n % 10)], ?_, ⟨by simp, ?_⟩, ?_⟩
      · simp [Nat.toDigitsCore, hq, hds]
      · intro c hc
        rcases List.mem_append.mp hc with h | h
        · exact hall c h
        · rw [List.mem_singleton] at h
          rw [h]; exact hdig
      · rw [digitsValue_append_single, hv, hval]
        omega

/-- The decimal numeral of `n` is a non-empty run of digits with value `n`. -/
theorem numeral_spec (n : Nat) : isDigits (numeral n) ∧ digitsValue (numeral n) = n := by
  obtain ⟨ds, hds, hd, hv⟩ := toDigitsCore_spec (n + 1) n [] (Nat.lt_succ_self n)
  have : numeral n = ds := by
    simp [numeral, Nat.repr, Nat.toDigits, hds, List.asString]
  rw [this]
  exact ⟨hd, hv⟩

/-! ## The matcher is sound for the declarative semantics -/

theorem starRun_sound {α : Type} (p : Char → Bool) (k : Str → Option α) (s : Str) (v : α)
    (h : starRun p k s = some v) :
    ∃ w t, s = w ++ t ∧ (∀ c ∈ w, p c = true) ∧ k t = some v := by
  induction s with
  | nil => exact ⟨[], [], rfl, by simp, h⟩
  | cons c s ih =>
    unfold starRun at h
    by_cases hc : p c = true
    · simp only [hc, if_true] at h
      cases hs : starRun p k s with
      | some v' =>
        rw [hs] at h
        obtain ⟨w, t, hw, hall, hk⟩ := ih (hs.trans h)
        refine ⟨c :: w, t, by rw [hw]; rfl, ?_, hk⟩
        intro d hd
        rcases List.mem_cons.mp hd with rfl | hd
        · exact hc
        · exact hall d hd
      | none =>
        rw [hs] at h
        exact ⟨[], c :: s, rfl, by simp, h⟩
    · simp only [hc, if_false] at h
      exact ⟨[], c :: s, rfl, by simp, h⟩

theorem plusRun_sound {α : Type} (p : Char → Bool) (k : Str → Option α) (s : Str) (v : α)
    (h : plusRun p k s = some v) :
    ∃ w t, s = w ++ t ∧ w ≠ [] ∧ (∀ c ∈ w, p c = true) ∧ k t = some v := by
  cases s with
  | nil => simp [plusRun] at h
  | cons c s =>
    unfold plusRun at h
    by_cases hc : p c = true
    · simp only [hc, if_true] at h
      obtain ⟨w, t, hw, hall, hk⟩ := starRun_sound p k s v h
      refine ⟨c :: w, t, by rw [hw]; rfl, by simp, ?_, hk⟩
      intro d hd
      rcases List.mem_cons.mp hd with rfl | hd
      · exact hc
      · exact hall d hd
    · simp [hc] at h

theorem take_length_sub (w t : Str) : (w ++ t).take ((w ++ t).length - t.length) = w := by
  simp

/-- Every success of the matcher is a match in the declarative sense. -/
theorem run_sound {α : Type} (r : Regex) :
    ∀ (s : Str) (a : Caps) (k : Str → Caps → Option α) (v : α), r.run s a k = some v →
      ∃ w t b, s = w ++ t ∧ r.Matches w a b ∧ k t b = some v := by
  induction r with
  | lit c =>
    intro s a k v h
    cases s with
    | nil => simp [Regex.run] at h
    | cons d t =>
      by_cases hd : d = c
      · simp only [Regex.run, hd, if_true] at h
        exact ⟨[c], t, a, by rw [hd]; rfl, ⟨rfl, rfl⟩, h⟩
      · simp [Regex.run, hd] at h
  | cls p =>
    intro s a k v h
    cases s with
    | nil => simp [Regex.run] at h
    | cons d t =>
      by_cases hd : p d = true
      · simp only [Regex.run, hd, if_true] at h
        exact ⟨[d], t, a, rfl, ⟨d, rfl, hd, rfl⟩, h⟩
      · simp [Regex.run, hd] at h
  | cat r₁ r₂ ih₁ ih₂ =>
    intro s a k v h
    simp only [Regex.run] at h
    obtain ⟨u, t₁, m, hs, hm₁, h₂⟩ := ih₁ s a _ v h
    obtain ⟨u₂, t, b, ht, hm₂, hk⟩ := ih₂ t₁ m k v h₂
    exact ⟨u ++ u₂, t, b, by rw [hs, ht, List.append_assoc], ⟨u, u₂, m, rfl, hm₁, hm₂⟩, hk⟩
  | opt r ih =>
    intro s a k v h
    simp only [Regex.run] at h
    cases hr : r.run s a k with
    | some v' =>
      rw [hr] at h
      obtain ⟨w, t, b, hs, hm, hk⟩ := ih s a k v (hr.trans h)
      exact ⟨w, t, b, hs, Or.inr hm, hk⟩
    | none =>
      rw [hr] at h
      exact ⟨[], s, a, rfl, Or.inl ⟨rfl, rfl⟩, h⟩
  | plus p =>
    intro s a k v h
    simp only [Regex.run] at h
    obtain ⟨w, t, hs, hne, hall, hk⟩ := plusRun_sound p _ s v h
    exact ⟨w, t, a, hs, ⟨hne, hall, rfl⟩, hk⟩
  | cap i r ih =>
    intro s a k v h
    simp only [Regex.run] at h
    obtain ⟨w, t, m, hs, hm, hk⟩ := ih s a _ v h
    refine ⟨w, t, m.set i w, hs, ⟨m, hm, rfl⟩, ?_⟩
    rw [hs, take_length_sub] at hk
    exact hk

theorem matchAt_sound (r : Regex) (s : Str) (m : Caps) (h : r.matchAt s = some m) :
    ∃ w t b, s = w ++ t ∧ r.Matches w Caps.empty b ∧ m = b.set 0 w := by
  unfold Regex.matchAt at h
  obtain ⟨w, t, b, hs, hm, hk⟩ := run_sound r s _ _ m h
  refine ⟨w, t, b, hs, hm, ?_⟩
  rw [hs, take_length_sub] at hk
  exact (Option.some.inj hk).symm

theorem find_sound (r : Regex) (s : Str) (m : Caps) (h : r.FindStringSubmatch s = some m) :
    ∃ pre w t b, s = pre ++ w ++ t ∧ r.Matches w Caps.empty b ∧ m = b.set 0 w := by
  induction s with
  | nil =>
    simp only [Regex.FindStringSubmatch] at h
    obtain ⟨w, t, b, hs, hm, hb⟩ := matchAt_sound r [] m h
    exact ⟨[], w, t, b, by simpa using hs, hm, hb⟩
  | cons c s ih =>
    simp only [Regex.FindStringSubmatch] at h
    cases hr : r.matchAt (c :: s) with
    | some m' =>
      rw [hr] at h
      obtain ⟨w, t, b, hs, hm, hb⟩ := matchAt_sound r (c :: s) m (hr.trans h)
      exact ⟨[], w, t, b, by simpa using hs, hm, hb⟩
    | none =>
      rw [hr] at h
      obtain ⟨pre, w, t, b, hs, hm, hb⟩ := ih h
      exact ⟨c :: pre, w, t, b, by rw [hs]; rfl, hm, hb⟩

theorem str_matches (w : Str) (hw : w ≠ []) (u : Str) (a b : Caps)
    (h : (Regex.str w).Matches u a b) : u = w ∧ b = a := by
  induction w generalizing u a b with
  | nil => exact absurd rfl hw
  | cons c w ih =>
    cases w with
    | nil =>
      simp only [Regex.str, Regex.Matches] at h
      exact h
    | cons d w =>
      simp only [Regex.str, Regex.Matches] at h
      obtain ⟨u₁, u₂, m, hu, ⟨hu₁, hm⟩, h₂⟩ := h
      obtain ⟨hu₂, hb⟩ := ih (by simp) u₂ m b h₂
      exact ⟨by rw [hu, hu₁, hu₂]; rfl, by rw [hb, hm]⟩

theorem prURLPattern_matches (w : Str) (a b : Caps) (h : prURLPattern.Matches w a b) :
    ∃ pfx o r d, w = prURL pfx o r d ∧ pfx ∈ urlPrefixes ∧ isSegment o ∧ isSegment r ∧
      isDigits d ∧ b 1 = o ∧ b 2 = r ∧ b 3 = d := by
  simp only [prURLPattern, Regex.Matches] at h
  obtain ⟨u₁, v₁, m₁, hw, hscheme, u₂, v₂, m₂, hv₁, hwww, u₃, v₃, m₃, hv₂, hhost,
    o, v₄, m₄, hv₃, ⟨m₄', ⟨hone, hoall, hm₄'⟩, hm₄⟩, u₅, v₅, m₅, hv₄, ⟨hu₅, hm₅⟩,
    r, v₆, m₆, hv₅, ⟨m₆', ⟨hrne, hrall, hm₆'⟩, hm₆⟩, u₇, d, m₇, hv₆, hpull,
    m₈, ⟨hdne, hdall, hm₈⟩, hb⟩ := h
  obtain ⟨hu₃, -⟩ := str_matches "github.com/".toList (by decide) u₃ m₂ m₃ hhost
  obtain ⟨hu₇, hm₇⟩ := str_matches "/pull/".toList (by decide) u₇ m₆ m₇ hpull
  have hpfx : u₁ ++ u₂ ∈ urlPrefixes := by
    have h₁ : u₁ = [] ∨ u₁ = "http://".toList ∨ u₁ = "https://".toList := by
      rcases hscheme with ⟨h, -⟩ | ⟨x, y, m, hxy, hx, z, t, m', hy, hz, ht⟩
      · exact Or.inl h
      · obtain ⟨hx', -⟩ := str_matches "http".toList (by decide) x a m hx
        obtain ⟨ht', -⟩ := str_matches "://".toList (by decide) t m' m₁ ht
        rcases hz with ⟨hz', -⟩ | ⟨hz', -⟩
        · right; left; rw [hxy, hx', hy, hz', ht']; rfl
        · right; right; rw [hxy, hx', hy, hz', ht']; rfl
    have h₂ : u₂ = [] ∨ u₂ = "www.".toList := by
      rcases hwww with ⟨h, -⟩ | h
      · exact Or.inl h
      · exact Or.inr (str_matches "www.".toList (by decide) u₂ m₁ m₂ h).1
    rcases h₁ with h₁ | h₁ | h₁ <;> rcases h₂ with h₂ | h₂ <;> rw [h₁, h₂] <;> decide
  refine ⟨u₁ ++ u₂, o, r, d, ?_, hpfx, ⟨hone, hoall⟩, ⟨hrne, hrall⟩, ⟨hdne, hdall⟩, ?_, ?_, ?_⟩
  · rw [hw, hv₁, hv₂, hv₃, hv₄, hv₅, hv₆, hu₃, hu₅, hu₇]
    simp [prURL]
  · rw [hb, hm₈, hm₇, hm₆, hm₆', hm₅, hm₄]; simp [Caps.set]
  · rw [hb, hm₈, hm₇, hm₆]; simp [Caps.set]
  · rw [hb]; simp [Caps.set]

/-- Every match found by `FindStringSubmatch` for `prURLPattern` is a URL text
inside the argument, with its three groups. -/
theorem find_prURL_sound (s : Str) (m : Caps) (h : prURLPattern.FindStringSubmatch s = some m) :
    ∃ pre pfx o r d t, s = pre ++ prURL pfx o r d ++ t ∧ pfx ∈ urlPrefixes ∧ isSegment o ∧
      isSegment r ∧ isDigits d ∧ m 1 = o ∧ m 2 = r ∧ m 3 = d := by
  obtain ⟨pre, w, t, b, hs, hm, hb⟩ := find_sound _ s m h
  obtain ⟨pfx, o, r, d, hw, hpfx, ho, hr, hd, h1, h2, h3⟩ := prURLPattern_matches w _ b hm
  refine ⟨pre, pfx, o, r, d, t, by rw [hs, hw], hpfx, ho, hr, hd, ?_, ?_, ?_⟩
  · rw [hb, ← h1]; simp [Caps.set]
  · rw [hb, ← h2]; simp [Caps.set]
  · rw [hb, ← h3]; simp [Caps.set]

/-- A text without the letter `g` contains no pull-request URL. -/
theorem find_prURL_none (s : Str) (h : 'g' ∉ s) : prURLPattern.FindStringSubmatch s = none := by
  cases hf : prURLPattern.FindStringSubmatch s with
  | none => rfl
  | some m =>
    obtain ⟨pre, pfx, o, r, d, t, hs, -⟩ := find_prURL_sound s m hf
    exfalso; apply h
    rw [hs]
    simp [prURL]

/-! ## The matcher on well-formed URL texts -/

theorem starRun_greedy {α : Type} (p : Char → Bool) (k : Str → Option α) (xs t : Str) (v : α)
    (hall : ∀ c ∈ xs, p c = true) (ht : ∀ c t', t = c :: t' → p c = false)
    (hk : k t = some v) : starRun p k (xs ++ t) = some v := by
  induction xs with
  | nil =>
    cases t with
    | nil => exact hk
    | cons c t' =>
      have hc := ht c t' rfl
      simp only [List.nil_append, starRun, hc, Bool.false_eq_true, if_false]
      exact hk
  | cons x xs ih =>
    have hx : p x = true := hall x (List.mem_cons_self _ _)
    have := ih (fun c hc => hall c (List.mem_cons_of_mem _ hc))
    rw [List.cons_append]
    unfold starRun
    simp only [hx, if_true]
    rw [this]

theorem plusRun_greedy {α : Type} (p : Char → Bool) (k : Str → Option α) (xs t : Str) (v : α)
    (hne : xs ≠ []) (hall : ∀ c ∈ xs, p c = true) (ht : ∀ c t', t = c :: t' → p c = false)
    (hk : k t = some v) : plusRun p k (xs ++ t) = some v := by
  obtain ⟨x, xs', rfl⟩ := List.exists_cons_of_ne_nil hne
  have hx : p x = true := hall x (List.mem_cons_self _ _)
  simp only [List.cons_append, plusRun, hx, if_true]
  exact starRun_greedy p k xs' t v (fun c hc => hall c (List.mem_cons_of_mem _ hc)) ht hk

/-- The part of the pattern after the host, on `<owner>/<repo>/pull/<digits>`
at the end of the input: the three groups are set to the three parts. -/
theorem run_tail {α : Type} (o r d : Str) (ho : isSegment o) (hr : isSegment r)
    (hd : isDigits d) (a : Caps) (k : Str → Caps → Option α) (v : α)
    (hk : k [] (((a.set 1 o).set 2 r).set 3 d) = some v) :
    (Regex.cat (.cap 1 (.plus notSlash)) (.cat (.lit '/') (.cat (.cap 2 (.plus notSlash))
      (.cat (Regex.str "/pull/".toList) (.cap 3 (.plus isDigit)))))).run
      (o ++ '/' :: (r ++ '/' :: 'p' :: 'u' :: 'l' :: 'l' :: '/' :: d)) a k = some v := by
  simp only [Regex.run]
  apply plusRun_greedy _ _ _ _ _ ho.1 ho.2
  · intro c t' h; cases h; rfl
  simp only [List.length_append, List.length_cons, Nat.add_sub_cancel, List.take_left',
    if_true]
  apply plusRun_greedy _ _ _ _ _ hr.1 hr.2
  · intro c t' h; cases h; rfl
  simp only [List.length_append, List.length_cons, Nat.add_sub_cancel, List.take_left',
    Regex.str, Regex.run, String.toList, if_true]
  have := plusRun_greedy isDigit (fun t => k t (((a.set 1 o).set 2 r).set 3
    (d.take (d.length - t.length)))) d [] v hd.1 hd.2 (by intro c t' h; cases h)
    (by simpa using hk)
  simpa using this

theorem run_head {α : Type} (R : Regex) (pfx : Str) (hpfx : pfx ∈ urlPrefixes) (u : Str)
    (a : Caps) (k : Str → Caps → Option α) (v : α) (hR : R.run u a k = some v) :
    (Regex.cat (.opt (.cat (Regex.str "http".toList)
        (.cat (.opt (.lit 's')) (Regex.str "://".toList))))
      (.cat (.opt (Regex.str "www.".toList))
      (.cat (Regex.str "github.com/".toList) R))).run (pfx ++ "github.com/".toList ++ u) a k
      = some v := by
  simp only [urlPrefixes, List.mem_cons, List.mem_singleton, List.not_mem_nil, or_false] at hpfx
  rcases hpfx with rfl | rfl | rfl | rfl | rfl | rfl <;>
    simp [Regex.run, Regex.str, hR]

/-- At the start of a well-formed URL text the pattern matches, with the
owner, the repository and the digits as its groups. -/
theorem matchAt_prURL (pfx o r d : Str) (hpfx : pfx ∈ urlPrefixes) (ho : isSegment o)
    (hr : isSegment r) (hd : isDigits d) :
    ∃ m, prURLPattern.matchAt (prURL pfx o r d) = some m ∧ m 1 = o ∧ m 2 = r ∧ m 3 = d := by
  refine ⟨(((Caps.empty.set 1 o).set 2 r).set 3 d).set 0 (prURL pfx o r d), ?_,
    by simp [Caps.set], by simp [Caps.set], by simp [Caps.set]⟩
  unfold Regex.matchAt prURLPattern
  have hshape : prURL pfx o r d = pfx ++ "github.com/".toList ++
      (o ++ '/' :: (r ++ '/' :: 'p' :: 'u' :: 'l' :: 'l' :: '/' :: d)) := by
    simp [prURL]
  rw [hshape]
  apply run_head _ pfx hpfx
  apply run_tail o r d ho hr hd
  simp only [List.length_nil, Nat.sub_zero, List.take_length]

/-! ## `ParsePRArg` on bare numbers -/

theorem not_g_of_isDigit {c : Char} (h : isDigit c = true) : c ≠ 'g' := by
  rintro rfl; revert h; decide

theorem not_hash_of_isDigit {c : Char} (h : isDigit c = true) : c ≠ '#' := by
  rintro rfl; revert h; decide

theorem TrimPrefix_hash_cons (t : Str) : TrimPrefix ('#' :: t) "#".toList = t := by
  simp [TrimPrefix, List.isPrefixOf]

theorem TrimPrefix_hash_digits (ds : Str) (hd : isDigits ds) :
    TrimPrefix ds "#".toList = ds := by
  obtain ⟨c, t, rfl⟩ := List.exists_cons_of_ne_nil hd.1
  have hc := not_hash_of_isDigit (hd.2 c (List.mem_cons_self _ _))
  simp [TrimPrefix, List.isPrefixOf, Ne.symm hc]

/-- The text after trimming, for a number with an optional `#` in front. -/
theorem TrimSpace_bare (ds : Str) (hd : isDigits ds) (hash : Bool) (pre post : Str)
    (hpre : allSpace pre) (hpost : allSpace post) :
    TrimSpace (pre ++ ((if hash then "#".toList else []) ++ ds) ++ post) =
      (if hash then "#".toList else []) ++ ds := by
  obtain ⟨c, t, rfl⟩ := List.exists_cons_of_ne_nil hd.1
  have hc : isDigit c = true := hd.2 c (List.mem_cons_self _ _)
  have hne : (if hash then "#".toList else []) ++ c :: t ≠ [] := by simp
  apply TrimSpace_pad pre _ post hpre hpost hne
  · cases hash
    · simpa using isSpace_of_isDigit hc
    · simp only [if_true, String.toList, List.cons_append, List.head_cons]; decide
  · rw [List.getLast_append_of_ne_nil (List.cons_ne_nil c t)]
    exact isSpace_of_isDigit (hd.2 _ (List.getLast_mem _))

/-- A bare number, with an optional `#` and white space around it and with a
value in the `int` range, takes the number branch of `ParsePRArg`. -/
theorem ParsePRArg_bare (ds : Str) (hd : isDigits ds) (hv : (digitsValue ds : Int) ≤ maxInt)
    (hash : Bool) (pre post : Str) (hpre : allSpace pre) (hpost : allSpace post) :
    ParsePRArg (pre ++ ((if hash then "#".toList else []) ++ ds) ++ post) =
      if (digitsValue ds : Int) ≤ 0 then .error .notPositive
      else .ok ((digitsValue ds : Int), []) := by
  have hfind : prURLPattern.FindStringSubmatch ((if hash then "#".toList else []) ++ ds)
      = none := by
    apply find_prURL_none
    intro hg
    rcases List.mem_append.mp hg with h | h
    · cases hash
      · simp at h
      · revert h; decide
    · exact not_g_of_isDigit (hd.2 _ h) rfl
  have htrim : TrimPrefix ((if hash then "#".toList else []) ++ ds) "#".toList = ds := by
    cases hash
    · simpa using TrimPrefix_hash_digits ds hd
    · simpa using TrimPrefix_hash_cons ds
  unfold ParsePRArg
  simp only [TrimSpace_bare ds hd hash pre post hpre hpost, hfind, htrim, Atoi_digits ds hd hv]

/-! ## `ParsePRArg` on URL texts -/

theorem find_of_matchAt (r : Regex) (s : Str) (m : Caps) (h : r.matchAt s = some m) :
    r.FindStringSubmatch s = some m := by
  cases s with
  | nil => exact h
  | cons c s => simp only [Regex.FindStringSubmatch, h]

theorem find_cons_of_none (r : Regex) (c : Char) (s : Str) (h : r.matchAt (c :: s) = none) :
    r.FindStringSubmatch (c :: s) = r.FindStringSubmatch s := by
  simp only [Regex.FindStringSubmatch, h]

theorem head_prURL_not_space (pfx o r d : Str) (hpfx : pfx ∈ urlPrefixes) :
    ∃ c t, prURL pfx o r d = c :: t ∧ isSpace c = false := by
  simp only [urlPrefixes, List.mem_cons, List.mem_singleton, List.not_mem_nil, or_false] at hpfx
  rcases hpfx with rfl | rfl | rfl | rfl | rfl | rfl <;>
    exact ⟨_, _, by simp only [prURL, String.toList, List.cons_append, List.nil_append,
      List.append_assoc]; rfl, by decide⟩

theorem TrimSpace_prURL (pfx o r d : Str) (hpfx : pfx ∈ urlPrefixes) (hd : isDigits d) :
    TrimSpace (prURL pfx o r d) = prURL pfx o r d := by
  obtain ⟨c, t, hct, hc⟩ := head_prURL_not_space pfx o r d hpfx
  have hne : prURL pfx o r d ≠ [] := by rw [hct]; simp
  have := TrimSpace_pad [] (prURL pfx o r d) [] (by intro c h; cases h) (by intro c h; cases h)
    hne (by simp only [hct, List.head_cons]; exact hc)
    (by
      unfold prURL
      rw [List.getLast_append_of_ne_nil hd.1]
      exact isSpace_of_isDigit (hd.2 _ (List.getLast_mem _)))
  simpa using this

/-- On a well-formed URL text `ParsePRArg` takes the URL branch: the number is
what `Atoi` makes of the digits and the repository is `<owner>/<repo>`. -/
theorem ParsePRArg_prURL (pfx o r d : Str) (hpfx : pfx ∈ urlPrefixes) (ho : isSegment o)
    (hr : isSegment r) (hd : isDigits d) :
    ParsePRArg (prURL pfx o r d) = .ok ((Atoi d).1, o ++ "/".toList ++ r) := by
  obtain ⟨m, hm, h1, h2, h3⟩ := matchAt_prURL pfx o r d hpfx ho hr hd
  unfold ParsePRArg
  simp only [TrimSpace_prURL pfx o r d hpfx hd, find_of_matchAt _ _ _ hm, h1, h2, h3]

/-! ## Claims about `ParsePRArg` -/

/-- C1: for every integer `n >= 1` in the `int` range, `ParsePRArg` applied to
the decimal numeral of `n`, optionally preceded by one `#` and optionally
surrounded by white space, returns `(n, "")` with no error. -/
theorem parsePRArg_number (n : Nat) (hpos : 1 ≤ n) (hmax : (n : Int) ≤ maxInt) (hash : Bool)
    (pre post : Str) (hpre : allSpace pre) (hpost : allSpace post) :
    ParsePRArg (pre ++ ((if hash then "#".toList else []) ++ numeral n) ++ post) =
      .ok ((n : Int), []) := by
  obtain ⟨hd, hv⟩ := numeral_spec n
  rw [ParsePRArg_bare (numeral n) hd (by rw [hv]; exact hmax) hash pre post hpre hpost, hv]
  have : ¬ ((n : Int) ≤ 0) := by omega
  simp only [this, if_false]

theorem parsePRArg_number_witness :
    ParsePRArg "  #789  ".toList = .ok (789, []) :=
  parsePRArg_number 789 (by decide) (by decide) true "  ".toList "  ".toList
    (by decide) (by decide)

/-- C2, amended: for every owner and repository that are non-empty and contain
no `/`, and every number `n` of the `int` range, `ParsePRArg` applied to the
URL text with scheme `https://`, `http://` or none, with or without `www.`,
and with the decimal numeral of `n` as its digits, returns
`(n, "<owner>/<repo>")` with no error; the same holds for every run of digits
(leading zeros included) whose value `n` is in the `int` range. -/
theorem parsePRArg_pullURL (pfx owner repo : Str) (n : Nat) (hpfx : pfx ∈ urlPrefixes)
    (ho : isSegment owner) (hr : isSegment repo) (hmax : (n : Int) ≤ maxInt) :
    ParsePRArg (prURL pfx owner repo (numeral n)) =
        .ok ((n : Int), owner ++ "/".toList ++ repo) ∧
      (∀ ds : Str, isDigits ds → digitsValue ds = n →
        ParsePRArg (prURL pfx owner repo ds) =
          .ok ((n : Int), owner ++ "/".toList ++ repo)) := by
  have hgen : ∀ ds : Str, isDigits ds → digitsValue ds = n →
      ParsePRArg (prURL pfx owner repo ds) =
        .ok ((n : Int), owner ++ "/".toList ++ repo) := by
    intro ds hd hv
    rw [ParsePRArg_prURL pfx owner repo ds hpfx ho hr hd,
      Atoi_digits ds hd (by rw [hv]; exact hmax), hv]
  obtain ⟨hd, hv⟩ := numeral_spec n
  exact ⟨hgen (numeral n) hd hv, hgen⟩

theorem parsePRArg_pullURL_witness :
    ParsePRArg "https://www.github.com/test/project/pull/55".toList =
      .ok (55, "test/project".toList) :=
  (parsePRArg_pullURL "https://www.".toList "test".toList "project".toList 55 (by decide)
    (by decide) (by decide) (by decide)).1

/-- C2 as stated fails: for the numeral of `2^63`, which is outside the `int`
range, the returned number is the largest `int`, not the number written. -/
theorem parsePRArg_clamps_overflow :
    ParsePRArg (prURL "https://".toList "o".toList "r".toList (numeral 9223372036854775808)) =
        .ok (9223372036854775807, "o/r".toList) ∧
      ParsePRArg (prURL "https://".toList "o".toList "r".toList (numeral 9223372036854775808)) ≠
        .ok (9223372036854775808, "o/r".toList) := by
  decide

theorem ParsePRArg_neg (ds : Str) (hd : isDigits ds) :
    ParsePRArg ('-' :: ds) =
      match Atoi ('-' :: ds) with
      | (_, some _) => .error (.invalidReference ('-' :: ds))
      | (number, none) => if number ≤ 0 then .error .notPositive else .ok (number, []) := by
  have htrim : TrimSpace ('-' :: ds) = '-' :: ds := by
    have := TrimSpace_pad [] ('-' :: ds) [] (by intro c h; cases h) (by intro c h; cases h)
      (by simp) (by simp only [List.head_cons]; decide)
      (by
        rw [List.getLast_cons hd.1]
        exact isSpace_of_isDigit (hd.2 _ (List.getLast_mem _)))
    simpa using this
  have hfind : prURLPattern.FindStringSubmatch ('-' :: ds) = none := by
    apply find_prURL_none
    intro hg
    rcases List.mem_cons.mp hg with h | h
    · revert h; decide
    · exact not_g_of_isDigit (hd.2 _ h) rfl
  have hpre : TrimPrefix ('-' :: ds) "#".toList = '-' :: ds := by
    simp [TrimPrefix, List.isPrefixOf]
  unfold ParsePRArg
  simp only [htrim, hfind, hpre]

/-- C3, amended: `ParsePRArg` returns an error for the arguments `""`, `"abc"`,
`"0"`, `"-1"`, `"#"` and for every argument of white space only; for `"0"` and
for the negative numerals of the `int` range (down to `-2^63`) the error is
the one saying that the number must be positive, for the others, and for the
negative numerals below the `int` range, the one saying that the reference is
invalid. -/
theorem parsePRArg_rejects :
    ParsePRArg "".toList = .error (.invalidReference []) ∧
    ParsePRArg "abc".toList = .error (.invalidReference "abc".toList) ∧
    ParsePRArg "0".toList = .error .notPositive ∧
    ParsePRArg "-1".toList = .error .notPositive ∧
    ParsePRArg "#".toList = .error (.invalidReference []) ∧
    (∀ s : Str, allSpace s → ParsePRArg s = .error (.invalidReference [])) ∧
    (∀ ds : Str, isDigits ds → (digitsValue ds : Int) ≤ -minInt →
      ParsePRArg ('-' :: ds) = .error .notPositive) ∧
    (∀ ds : Str, isDigits ds → -minInt < (digitsValue ds : Int) →
      ParsePRArg ('-' :: ds) = .error (.invalidReference ('-' :: ds))) := by
  refine ⟨by decide, by decide, by decide, by decide, by decide, ?_, ?_, ?_⟩
  · intro s hs
    unfold ParsePRArg
    rw [TrimSpace_allSpace s hs]
    decide
  · intro ds hd hv
    rw [ParsePRArg_neg ds hd, Atoi_neg_digits ds hd, if_pos hv]
    have : -(digitsValue ds : Int) ≤ 0 := by omega
    simp only [this, if_true]
  · intro ds hd hv
    rw [ParsePRArg_neg ds hd, Atoi_neg_digits ds hd, if_neg (by omega)]

theorem parsePRArg_rejects_witness :
    ParsePRArg " \t ".toList = .error (.invalidReference []) ∧
      ParsePRArg "-5".toList = .error .notPositive ∧
      ParsePRArg "-9223372036854775810".toList =
        .error (.invalidReference "-9223372036854775810".toList) :=
  ⟨parsePRArg_rejects.2.2.2.2.2.1 " \t ".toList (by decide),
    parsePRArg_rejects.2.2.2.2.2.2.1 "5".toList (by decide) (by decide),
    parsePRArg_rejects.2.2.2.2.2.2.2 "9223372036854775810".toList (by decide) (by decide)⟩

/-- C3 as stated fails: the negative numeral `-9223372036854775809`, one below
the `int` range, is rejected with the error saying that the reference is
invalid, not with the one saying that the number must be positive, which the
smallest `int` still gets. -/
theorem parsePRArg_negative_overflow :
    ParsePRArg "-9223372036854775809".toList =
        .error (.invalidReference "-9223372036854775809".toList) ∧
      ParsePRArg "-9223372036854775808".toList = .error .notPositive := by
  decide

/-- C4, the code at the failing inputs: a pull-request URL whose digits are
`0` is accepted with number `0`, and one whose digits exceed the `int` range
is accepted with the largest `int`; the bare number `0` is rejected. -/
theorem parsePRArg_zero_in_url :
    ParsePRArg "github.com/o/r/pull/0".toList = .ok (0, "o/r".toList) ∧
    ParsePRArg "github.com/o/r/pull/9223372036854775808".toList =
      .ok (9223372036854775807, "o/r".toList) ∧
    ParsePRArg "0".toList = .error .notPositive := by
  decide

/-! ## Claims about `resolvePR` and `NewPRRef` -/

theorem repo_from_url_ne_nil (o r : Str) : o ++ "/".toList ++ r ≠ [] := by
  simp

/-- C6: in `resolvePR`, for every value of the `-R` flag: when the argument is
a pull-request URL (the pattern matches) the repository handed to `NewPRRef`
is the `<owner>/<repo>` of the URL, whatever the flag; when the argument is a
bare number or `#number` it is the value of the flag, and `NewPRRef` then asks
for the current repository exactly when that value is the empty default. -/
theorem resolvePR_repo (env : RepoEnv) (repoFlag : Str) :
    (∀ (arg : Str) (m : Caps), prURLPattern.FindStringSubmatch (TrimSpace arg) = some m →
      resolvePR env repoFlag arg = NewPRRef env (Atoi (m 3)).1 (m 1 ++ "/".toList ++ m 2)) ∧
    (∀ pfx owner repo digits : Str, pfx ∈ urlPrefixes → isSegment owner → isSegment repo →
      isDigits digits →
      resolvePR env repoFlag (prURL pfx owner repo digits) =
        NewPRRef env (Atoi digits).1 (owner ++ "/".toList ++ repo)) ∧
    (∀ (ds : Str) (hash : Bool) (pre post : Str), isDigits ds → 0 < digitsValue ds →
      (digitsValue ds : Int) ≤ maxInt → allSpace pre → allSpace post →
      resolvePR env repoFlag (pre ++ ((if hash then "#".toList else []) ++ ds) ++ post) =
        NewPRRef env (digitsValue ds : Int) repoFlag) ∧
    (∀ n : Int, 0 < n →
      (NewPRRef env n repoFlag).2 =
        if repoFlag = repoFlagDefault then [RepoCall.current] else [RepoCall.parse repoFlag]) := by
  refine ⟨?_, ?_, ?_, ?_⟩
  · intro arg m hm
    simp only [resolvePR, ParsePRArg, hm, repo_from_url_ne_nil, if_false]
  · intro pfx owner repo digits hpfx ho hr hd
    simp only [resolvePR, ParsePRArg_prURL pfx owner repo digits hpfx ho hr hd,
      repo_from_url_ne_nil, if_false]
  · intro ds hash pre post hd hpos hmax hpre hpost
    have hnot : ¬ ((digitsValue ds : Int) ≤ 0) := by omega
    simp only [resolvePR, ParsePRArg_bare ds hd hmax hash pre post hpre hpost, hnot, if_false,
      if_true]
  · intro n hn
    have hnot : ¬ (n ≤ 0) := by omega
    unfold NewPRRef repoFlagDefault
    by_cases hflag : repoFlag = []
    · simp only [hnot, hflag, if_false, if_true]
      cases env.Current <;> rfl
    · simp only [hnot, hflag, if_false]
      cases env.Parse repoFlag <;> rfl

theorem resolvePR_repo_witness :
    resolvePR sampleEnv "other/repo".toList "https://github.com/owner/repo/pull/123".toList =
        NewPRRef sampleEnv 123 "owner/repo".toList ∧
      resolvePR sampleEnv "other/repo".toList "#42".toList =
        NewPRRef sampleEnv 42 "other/repo".toList ∧
      (NewPRRef sampleEnv 42 []).2 = [RepoCall.current] :=
  ⟨(resolvePR_repo sampleEnv "other/repo".toList).2.1 "https://".toList "owner".toList
      "repo".toList "123".toList (by decide) (by decide) (by decide) (by decide),
    (resolvePR_repo sampleEnv "other/repo".toList).2.2.1 "42".toList true [] []
      (by decide) (by decide) (by decide) (by decide) (by decide),
    (resolvePR_repo sampleEnv []).2.2.2 42 (by decide)⟩

/-- C7: `NewPRRef(number, repo)` returns the error `PR number must be positive`
for every `number <= 0` and every `repo`, without any call to the `repository`
package and so whatever that package would answer; whenever it succeeds the
`PRRef` has `Number` equal to the input number, hence `Number > 0`. -/
theorem newPRRef_validates (env : RepoEnv) (number : Int) (repo : Str) :
    (number ≤ 0 → NewPRRef env number repo = (.error .notPositive, [])) ∧
    (∀ ref : PRRef, (NewPRRef env number repo).1 = .ok ref →
      ref.Number = number ∧ 0 < ref.Number) := by
  constructor
  · intro h
    simp only [NewPRRef, h, if_true]
  · intro ref h
    by_cases hn : number ≤ 0
    · simp [NewPRRef, hn] at h
    · have hpos : 0 < number := by omega
      unfold NewPRRef at h
      simp only [hn, if_false] at h
      by_cases hrepo : repo = []
      · simp only [hrepo, if_true] at h
        cases hc : env.Current with
        | error e => rw [hc] at h; cases h
        | ok cur =>
          rw [hc] at h
          injection h with h
          subst h
          exact ⟨rfl, hpos⟩
      · simp only [hrepo, if_false] at h
        cases hp : env.Parse repo with
        | error e => rw [hp] at h; cases h
        | ok parsed =>
          rw [hp] at h
          injection h with h
          subst h
          exact ⟨rfl, hpos⟩

theorem newPRRef_validates_witness :
    NewPRRef sampleEnv 0 "owner/repo".toList = (.error .notPositive, []) ∧
      ((7 : Int) = 7 ∧ (0 : Int) < 7) :=
  ⟨(newPRRef_validates sampleEnv 0 "owner/repo".toList).1 (by decide),
    (newPRRef_validates sampleEnv 7 "owner/repo".toList).2
      ⟨"owner".toList, "repo".toList, 7⟩ (by decide)⟩

/-! ## Claims about the comment pipeline -/

/-- C8: `matchesFilters(c)` is true iff (the state list is empty or `c.State`
equals one of its elements under `EqualFold`) and (the author filter is empty
or `c.Author` equals it under `EqualFold`); with no filters every comment
matches. -/
theorem matchesFilters_iff (orbit : Char → Char → Bool) (f : ListFlags) (c : Comment) :
    (matchesFilters orbit f c = true ↔
      (f.listStates = [] ∨ ∃ s ∈ f.listStates, EqualFold orbit c.State s = true) ∧
      (f.listAuthor = [] ∨ EqualFold orbit c.Author f.listAuthor = true)) ∧
    (∀ (tail : Int) (flat : Bool), matchesFilters orbit ⟨[], [], tail, flat⟩ c = true) := by
  constructor
  · unfold matchesFilters
    by_cases hs : f.listStates = []
    · by_cases ha : f.listAuthor = []
      · simp [hs, ha]
      · by_cases he : EqualFold orbit c.Author f.listAuthor = true
        · simp [hs, ha, he]
        · simp [hs, ha, he]
    · have hlen : f.listStates.length > 0 := List.length_pos.mpr hs
      by_cases hany : (f.listStates.any fun s => EqualFold orbit c.State s) = true
      · have hex : ∃ s ∈ f.listStates, EqualFold orbit c.State s = true := by
          simpa [List.any_eq_true] using hany
        by_cases ha : f.listAuthor = []
        · simp [hs, hlen, hany, ha, hex]
        · by_cases he : EqualFold orbit c.Author f.listAuthor = true
          · simp [hs, hlen, hany, ha, he, hex]
          · simp [hs, hlen, hany, ha, he]
      · have hnex : ¬ ∃ s ∈ f.listStates, EqualFold orbit c.State s = true := by
          simpa [List.any_eq_true] using hany
        have hany' : (f.listStates.any fun s => EqualFold orbit c.State s) = false := by
          simpa using hany
        simp [hs, hlen, hany', hnex]
  · intro tail flat
    simp [matchesFilters]

/-- C9: for every list `L` of filtered comments and every tail count `N >= 1`,
the tail step yields exactly `min(N, len L)` comments, the last
`min(N, len L)` elements of `L` in their order; for `N <= 0` it leaves `L`
unchanged; and in the pipeline the step is applied to the filtered list and
its result is what is grouped. -/
theorem applyTail_spec (L : List Comment) (N : Int) :
    (1 ≤ N → (applyTail N L).length = min N.toNat L.length ∧
      applyTail N L = L.drop (L.length - min N.toNat L.length) ∧ applyTail N L <:+ L) ∧
    (N ≤ 0 → applyTail N L = L) ∧
    (∀ (orbit : Char → Char → Bool) (range : List Str → List Str) (f : ListFlags)
      (candidates : List Comment),
      commentGroups orbit range f candidates =
        buildGroups range f.listFlat
          (applyTail f.listTail (candidates.filter (matchesFilters orbit f)))) := by
  refine ⟨?_, ?_, ?_⟩
  · intro hN
    have hpos : N > 0 := by omega
    by_cases hlen : (L.length : Int) > N
    · have hlt : N.toNat < L.length := by omega
      have hmin : min N.toNat L.length = N.toNat := by omega
      have heq : applyTail N L = L.drop (L.length - N.toNat) := by
        simp only [applyTail, hpos, hlen, and_self, if_true]
      rw [heq, hmin]
      refine ⟨?_, rfl, List.drop_suffix _ _⟩
      rw [List.length_drop]
      omega
    · have hge : L.length ≤ N.toNat := by omega
      have hmin : min N.toNat L.length = L.length := by omega
      have heq : applyTail N L = L := by
        simp only [applyTail, hlen, and_false, if_false]
      rw [heq, hmin]
      refine ⟨rfl, by simp, List.suffix_refl _⟩
  · intro hN
    have hnot : ¬ (N > 0) := by omega
    simp only [applyTail, hnot, false_and, if_false]
  · intro orbit range f candidates
    rfl

theorem applyTail_spec_witness :
    (applyTail 2 [sampleComment 1 "bob", sampleComment 2 "al", sampleComment 3 "bob"]).length =
        min (2 : Int).toNat 3 ∧
      applyTail 0 [sampleComment 1 "bob"] = [sampleComment 1 "bob"] :=
  ⟨((applyTail_spec [sampleComment 1 "bob", sampleComment 2 "al", sampleComment 3 "bob"] 2).1
      (by decide)).1,
    (applyTail_spec [sampleComment 1 "bob"] 0).2.1 (by decide)⟩

/-! ## The grouping step -/

theorem AuthorMap.get_append (m : AuthorMap) (k a : Str) (c : Comment) :
    (m.append k c).get a = if k = a then m.get a ++ [c] else m.get a := by
  induction m with
  | nil =>
    by_cases h : k = a <;> simp [AuthorMap.append, AuthorMap.get, h]
  | cons e m ih =>
    obtain ⟨k', cs⟩ := e
    by_cases hk : k' = k
    · subst hk
      by_cases h : k' = a <;> simp [AuthorMap.append, AuthorMap.get, h]
    · by_cases h : k' = a
      · subst h
        have hka : ¬ k = k' := fun h' => hk h'.symm
        simp [AuthorMap.append, AuthorMap.get, hk, hka]
      · simp [AuthorMap.append, AuthorMap.get, hk, h, ih]

theorem AuthorMap.keys_append (m : AuthorMap) (k : Str) (c : Comment) :
    (m.append k c).keys = if k ∈ m.keys then m.keys else m.keys ++ [k] := by
  induction m with
  | nil => simp [AuthorMap.append, AuthorMap.keys]
  | cons e m ih =>
    obtain ⟨k', cs⟩ := e
    by_cases hk : k' = k
    · subst hk
      simp [AuthorMap.append, AuthorMap.keys]
    · have hk' : ¬ k = k' := fun h => hk h.symm
      simp only [AuthorMap.keys] at ih
      by_cases hmem : k ∈ List.map Prod.fst m
      · simp [AuthorMap.append, AuthorMap.keys, hk, hk', hmem, ih]
      · simp [AuthorMap.append, AuthorMap.keys, hk, hk', hmem, ih]

theorem foldl_get (L : List Comment) (m : AuthorMap) (a : Str) :
    (L.foldl (fun m cmt => m.append cmt.Author cmt) m).get a =
      m.get a ++ L.filter (fun c => decide (c.Author = a)) := by
  induction L generalizing m with
  | nil => simp
  | cons c L ih =>
    rw [List.foldl_cons, ih, AuthorMap.get_append]
    by_cases h : c.Author = a <;> simp [h, List.filter_cons]

theorem foldl_keys_nodup (L : List Comment) (m : AuthorMap) (hm : m.keys.Nodup) :
    (L.foldl (fun m cmt => m.append cmt.Author cmt) m).keys.Nodup := by
  induction L generalizing m with
  | nil => exact hm
  | cons c L ih =>
    rw [List.foldl_cons]
    apply ih
    rw [AuthorMap.keys_append]
    by_cases h : c.Author ∈ m.keys
    · simpa [h] using hm
    · simp only [h, if_false]
      exact List.Nodup.append hm (List.nodup_singleton _) (by simpa using h)

theorem foldl_keys_mem (L : List Comment) (m : AuthorMap) (k : Str) :
    k ∈ (L.foldl (fun m cmt => m.append cmt.Author cmt) m).keys ↔
      k ∈ m.keys ∨ ∃ c ∈ L, c.Author = k := by
  induction L generalizing m with
  | nil => simp
  | cons c L ih =>
    rw [List.foldl_cons, ih, AuthorMap.keys_append]
    by_cases h : c.Author ∈ m.keys
    · simp only [h, if_true, List.mem_cons, exists_eq_or_imp]
      constructor
      · rintro (h' | h')
        · exact Or.inl h'
        · exact Or.inr (Or.inr h')
      · rintro (h' | h' | h')
        · exact Or.inl h'
        · exact Or.inl (h' ▸ h)
        · exact Or.inr h'
    · rw [if_neg h, List.mem_append, List.mem_singleton]
      simp only [List.mem_cons, exists_eq_or_imp]
      constructor
      · rintro ((h' | h') | h')
        · exact Or.inl h'
        · exact Or.inr (Or.inl h'.symm)
        · exact Or.inr (Or.inr h')
      · rintro (h' | h' | h')
        · exact Or.inl (Or.inl h')
        · exact Or.inl (Or.inr h'.symm)
        · exact Or.inr h'

/-- The entry of an author in `byAuthor` holds the comments of that author, in
their order. -/
theorem buildByAuthor_get (L : List Comment) (a : Str) :
    (buildByAuthor L).get a = L.filter (fun c => decide (c.Author = a)) := by
  simp [buildByAuthor, foldl_get, AuthorMap.get]

theorem buildByAuthor_keys_nodup (L : List Comment) : (buildByAuthor L).keys.Nodup :=
  foldl_keys_nodup L [] (by simp [AuthorMap.keys])

theorem buildByAuthor_keys_mem (L : List Comment) (k : Str) :
    k ∈ (buildByAuthor L).keys ↔ ∃ c ∈ L, c.Author = k := by
  unfold buildByAuthor
  rw [foldl_keys_mem]
  simp [AuthorMap.keys]

/-- Splitting a list by the authors of a duplicate-free list of names gives
back, up to order, the comments whose author is among the names. -/
theorem join_filter_perm (L : List Comment) (names : List Str) (hn : names.Nodup) :
    ((names.map (fun a => L.filter (fun c => decide (c.Author = a)))).flatten).Perm
      (L.filter (fun c => decide (c.Author ∈ names))) := by
  induction names with
  | nil => simp
  | cons a names ih =>
    obtain ⟨ha, hn'⟩ := List.nodup_cons.mp hn
    rw [List.map_cons, List.flatten_cons]
    have h1 : L.filter (fun c => decide (c.Author = a)) =
        (L.filter (fun c => decide (c.Author ∈ a :: names))).filter
          (fun c => decide (c.Author = a)) := by
      rw [List.filter_filter]
      congr 1
      funext c
      by_cases h : c.Author = a <;> simp [h]
    have h2 : L.filter (fun c => decide (c.Author ∈ names)) =
        (L.filter (fun c => decide (c.Author ∈ a :: names))).filter
          (fun c => !decide (c.Author = a)) := by
      rw [List.filter_filter]
      congr 1
      funext c
      by_cases h : c.Author = a
      · have : c.Author ∉ names := h ▸ ha
        simp [h, ha]
      · simp [h]
    refine (List.Perm.append_left _ (ih hn')).trans ?_
    rw [h1, h2]
    exact List.filter_append_perm _ _

/-- C10: in grouped mode, for every comment list `L` and whatever the order in
which the map is ranged over: the authors of the groups are strictly
ascending (so none is repeated), every group is non-empty, each group holds
exactly the comments of `L` with the group's author, in the order they have in
`L`, and the groups together are a rearrangement of `L`. -/
theorem buildGroups_grouped (range : List Str → List Str)
    (hrange : ∀ l, (range l).Perm l) (L : List Comment) :
    ((buildGroups range false L).map (fun g => g.Author)).Pairwise (fun a b => a < b) ∧
    ((buildGroups range false L).map (fun g => g.Author)).Nodup ∧
    (∀ g ∈ buildGroups range false L, g.Comments ≠ [] ∧
      g.Comments = L.filter (fun c => decide (c.Author = g.Author))) ∧
    (((buildGroups range false L).map (fun g => g.Comments)).flatten).Perm L := by
  have hperm : (sortStrings (range (buildByAuthor L).keys)).Perm (buildByAuthor L).keys :=
    (List.perm_insertionSort _ _).trans (hrange _)
  have hnodup : (sortStrings (range (buildByAuthor L).keys)).Nodup :=
    hperm.nodup_iff.mpr (buildByAuthor_keys_nodup L)
  have hsorted : (sortStrings (range (buildByAuthor L).keys)).Sorted (fun a b => a ≤ b) :=
    List.sorted_insertionSort _ _
  have hauthors : (buildGroups range false L).map (fun g => g.Author) =
      sortStrings (range (buildByAuthor L).keys) := by
    simp [buildGroups, List.map_map, Function.comp_def]
  have hcomments : (buildGroups range false L).map (fun g => g.Comments) =
      (sortStrings (range (buildByAuthor L).keys)).map
        (fun a => L.filter (fun c => decide (c.Author = a))) := by
    simp [buildGroups, List.map_map, Function.comp_def, buildByAuthor_get]
  refine ⟨?_, ?_, ?_, ?_⟩
  · rw [hauthors]
    exact hsorted.lt_of_le hnodup
  · rw [hauthors]
    exact hnodup
  · intro g hg
    simp only [buildGroups, Bool.false_eq_true, if_false, List.mem_map] at hg
    obtain ⟨a, ha, rfl⟩ := hg
    have hkey : a ∈ (buildByAuthor L).keys := hperm.mem_iff.mp ha
    obtain ⟨c, hc, hca⟩ := (buildByAuthor_keys_mem L a).mp hkey
    refine ⟨?_, buildByAuthor_get L a⟩
    show (buildByAuthor L).get a ≠ []
    rw [buildByAuthor_get]
    intro hnil
    have : c ∈ L.filter (fun c => decide (c.Author = a)) := by
      simp [List.mem_filter, hc, hca]
    rw [hnil] at this
    cases this
  · rw [hcomments]
    refine (join_filter_perm L _ hnodup).trans ?_
    have : L.filter (fun c => decide (c.Author ∈ sortStrings (range (buildByAuthor L).keys)))
        = L := by
      rw [List.filter_eq_self]
      intro c hc
      have : c.Author ∈ (buildByAuthor L).keys :=
        (buildByAuthor_keys_mem L c.Author).mpr ⟨c, hc, rfl⟩
      simpa using hperm.mem_iff.mpr this
    rw [this]

theorem buildGroups_grouped_witness :
    ((buildGroups List.reverse false
        [sampleComment 1 "bob", sampleComment 2 "al", sampleComment 3 "bob"]).map
        (fun g => g.Author)).Pairwise (fun a b => a < b) ∧
      buildGroups List.reverse false
        [sampleComment 1 "bob", sampleComment 2 "al", sampleComment 3 "bob"] =
        [⟨"al".toList, [sampleComment 2 "al"]⟩,
          ⟨"bob".toList, [sampleComment 1 "bob", sampleComment 3 "bob"]⟩] :=
  ⟨(buildGroups_grouped List.reverse (fun l => List.reverse_perm l)
      [sampleComment 1 "bob", sampleComment 2 "al", sampleComment 3 "bob"]).1,
    by decide⟩

/-! ## Letter case in URL texts -/

theorem isPrefixOf_append_self (w t : Str) : w.isPrefixOf (w ++ t) = true := by
  induction w with
  | nil => simp [List.isPrefixOf]
  | cons c w ih => simp [List.isPrefixOf, ih]

/-- The pattern matches only at texts that start with one of the fixed
beginnings. -/
theorem matchAt_none_of_not_startsURL (s : Str) (h : startsURL s = false) :
    prURLPattern.matchAt s = none := by
  cases hm : prURLPattern.matchAt s with
  | none => rfl
  | some m =>
    exfalso
    obtain ⟨w, t, b, hs, hw, -⟩ := matchAt_sound _ s m hm
    obtain ⟨pfx, o, r, d, hw', hpfx, -⟩ := prURLPattern_matches w _ b hw
    have : startsURL s = true := by
      unfold startsURL
      rw [List.any_eq_true]
      refine ⟨pfx, hpfx, ?_⟩
      rw [hs, hw']
      have : prURL pfx o r d ++ t = (pfx ++ "github.com/".toList) ++
          (o ++ "/".toList ++ r ++ "/pull/".toList ++ d ++ t) := by
        simp [prURL]
      rw [this]
      exact isPrefixOf_append_self _ _
    rw [h] at this
    cases this

theorem startsURL_cons_false (c : Char) (s : Str) (hh : c ≠ 'h') (hw : c ≠ 'w')
    (hg : c ≠ 'g') : startsURL (c :: s) = false := by
  simp [startsURL, urlPrefixes, List.isPrefixOf, Ne.symm hh, Ne.symm hw, Ne.symm hg]

theorem prURL_cons (c : Char) (p o r d : Str) : prURL (c :: p) o r d = c :: prURL p o r d :=
  rfl

theorem prURL_append (p q o r d : Str) : prURL (p ++ q) o r d = p ++ prURL q o r d := by
  simp [prURL]

theorem findsGroups_prURL (pfx o r d : Str) (hpfx : pfx ∈ urlPrefixes) (ho : isSegment o)
    (hr : isSegment r) (hd : isDigits d) : findsGroups (prURL pfx o r d) o r d := by
  obtain ⟨m, hm, h⟩ := matchAt_prURL pfx o r d hpfx ho hr hd
  exact ⟨m, find_of_matchAt _ _ _ hm, h⟩

theorem findsGroups_of_skip (c : Char) (s o r d : Str) (h : startsURL (c :: s) = false)
    (hs : findsGroups s o r d) : findsGroups (c :: s) o r d := by
  obtain ⟨m, hm, hg⟩ := hs
  refine ⟨m, ?_, hg⟩
  rw [find_cons_of_none _ _ _ (matchAt_none_of_not_startsURL _ h)]
  exact hm

theorem findsGroups_append_skip (pre s o r d : Str)
    (h : ∀ c ∈ pre, c ≠ 'h' ∧ c ≠ 'w' ∧ c ≠ 'g') (hs : findsGroups s o r d) :
    findsGroups (pre ++ s) o r d := by
  induction pre with
  | nil => exact hs
  | cons c pre ih =>
    obtain ⟨hh, hw, hg⟩ := h c (List.mem_cons_self _ _)
    exact findsGroups_of_skip c _ o r d (startsURL_cons_false c _ hh hw hg)
      (ih (fun x hx => h x (List.mem_cons_of_mem _ hx)))

theorem caseSpelling_nil (x : Str) : caseSpelling x [] ↔ x = [] := by
  unfold caseSpelling
  constructor
  · intro h; cases h; rfl
  · rintro rfl; exact List.Forall₂.nil

theorem caseSpelling_cons (x : Str) (d : Char) (y : Str) :
    caseSpelling x (d :: y) ↔
      ∃ c x', x = c :: x' ∧ (c = d ∨ c = d.toUpper) ∧ caseSpelling x' y := by
  unfold caseSpelling
  constructor
  · intro h
    cases h with
    | cons hc ht => exact ⟨_, _, rfl, hc, ht⟩
  · rintro ⟨c, x', rfl, hc, ht⟩
    exact List.Forall₂.cons hc ht

/-- The letter-case spellings of `www.`. -/
theorem caseSpelling_www (ww : Str) (h : caseSpelling ww "www.".toList) :
    ∃ a b c, ww = [a, b, c, '.'] ∧ (a = 'w' ∨ a = 'W') ∧ (b = 'w' ∨ b = 'W') ∧
      (c = 'w' ∨ c = 'W') := by
  simp only [String.toList, caseSpelling_cons, caseSpelling_nil] at h
  obtain ⟨a, _, rfl, ha, b, _, rfl, hb, c, _, rfl, hc, e, _, rfl, he, rfl⟩ := h
  have he' : e = '.' := by
    rcases he with h | h
    · exact h
    · rw [h]; decide
  subst he'
  exact ⟨a, b, c, rfl, ha, hb, hc⟩

/-- The letter-case spellings of `http://`. -/
theorem caseSpelling_http (sc : Str) (h : caseSpelling sc "http://".toList) :
    ∃ a b c e, sc = [a, b, c, e, ':', '/', '/'] ∧ (a = 'h' ∨ a = 'H') ∧ (b = 't' ∨ b = 'T') ∧
      (c = 't' ∨ c = 'T') ∧ (e = 'p' ∨ e = 'P') := by
  simp only [String.toList, caseSpelling_cons, caseSpelling_nil] at h
  obtain ⟨a, _, rfl, ha, b, _, rfl, hb, c, _, rfl, hc, e, _, rfl, he, x, _, rfl, hx,
    y, _, rfl, hy, z, _, rfl, hz, rfl⟩ := h
  have hx' : x = ':' := by
    rcases hx with h | h
    · exact h
    · rw [h]; decide
  have hy' : y = '/' := by
    rcases hy with h | h
    · exact h
    · rw [h]; decide
  have hz' : z = '/' := by
    rcases hz with h | h
    · exact h
    · rw [h]; decide
  subst hx' hy' hz'
  exact ⟨a, b, c, e, rfl, ha, hb, hc, he⟩

/-- The letter-case spellings of `https://`. -/
theorem caseSpelling_https (sc : Str) (h : caseSpelling sc "https://".toList) :
    ∃ a b c e f, sc = [a, b, c, e, f, ':', '/', '/'] ∧ (a = 'h' ∨ a = 'H') ∧
      (b = 't' ∨ b = 'T') ∧ (c = 't' ∨ c = 'T') ∧ (e = 'p' ∨ e = 'P') ∧
      (f = 's' ∨ f = 'S') := by
  simp only [String.toList, caseSpelling_cons, caseSpelling_nil] at h
  obtain ⟨a, _, rfl, ha, b, _, rfl, hb, c, _, rfl, hc, e, _, rfl, he, f, _, rfl, hf,
    x, _, rfl, hx, y, _, rfl, hy, z, _, rfl, hz, rfl⟩ := h
  have hx' : x = ':' := by
    rcases hx with h | h
    · exact h
    · rw [h]; decide
  have hy' : y = '/' := by
    rcases hy with h | h
    · exact h
    · rw [h]; decide
  have hz' : z = '/' := by
    rcases hz with h | h
    · exact h
    · rw [h]; decide
  subst hx' hy' hz'
  exact ⟨a, b, c, e, f, rfl, ha, hb, hc, he, hf⟩

/-- With the host in lower case and `www.` in any letter case (or absent) in
front of it, the leftmost match has the groups of the URL. -/
theorem findsGroups_www (ww o r d : Str) (hww : ww = [] ∨ caseSpelling ww "www.".toList)
    (ho : isSegment o) (hr : isSegment r) (hd : isDigits d) :
    findsGroups (prURL ww o r d) o r d := by
  have hbase : findsGroups (prURL [] o r d) o r d :=
    findsGroups_prURL [] o r d (by decide) ho hr hd
  rcases hww with rfl | hww
  · exact hbase
  · obtain ⟨a, b, c, rfl, ha, hb, hc⟩ := caseSpelling_www ww hww
    rcases ha with rfl | rfl <;> rcases hb with rfl | rfl <;> rcases hc with rfl | rfl
    · exact findsGroups_prURL "www.".toList o r d (by decide) ho hr hd
    all_goals
      simp only [prURL_cons]
      refine findsGroups_of_skip _ _ o r d
        (by simp [startsURL, urlPrefixes, List.isPrefixOf]) ?_
      refine findsGroups_of_skip _ _ o r d
        (by simp [startsURL, urlPrefixes, List.isPrefixOf]) ?_
      refine findsGroups_of_skip _ _ o r d
        (by simp [startsURL, urlPrefixes, List.isPrefixOf]) ?_
      exact findsGroups_of_skip _ _ o r d
        (by simp [startsURL, urlPrefixes, List.isPrefixOf]) hbase

/-- With the host in lower case, the scheme `http://` in any letter case and
`www.` in any letter case (or absent), the leftmost match has the groups of
the URL. -/
theorem findsGroups_http (sc ww o r d : Str) (hsc : caseSpelling sc "http://".toList)
    (hww : ww = [] ∨ caseSpelling ww "www.".toList)
    (ho : isSegment o) (hr : isSegment r) (hd : isDigits d) :
    findsGroups (prURL (sc ++ ww) o r d) o r d := by
  have hbase : findsGroups (prURL ww o r d) o r d := findsGroups_www ww o r d hww ho hr hd
  obtain ⟨a, b, c, e, rfl, ha, hb, hc, he⟩ := caseSpelling_http sc hsc
  rw [prURL_append]
  rcases ha with rfl | rfl <;> rcases hb with rfl | rfl <;> rcases hc with rfl | rfl <;>
    rcases he with rfl | rfl
  · have hrest : findsGroups ('t' :: 't' :: 'p' :: ':' :: '/' :: '/' :: prURL ww o r d) o r d :=
      findsGroups_append_skip ['t', 't', 'p', ':', '/', '/'] _ o r d (by decide) hbase
    rcases hww with rfl | hww
    · exact findsGroups_prURL "http://".toList o r d (by decide) ho hr hd
    · obtain ⟨x, y, z, rfl, hx, hy, hz⟩ := caseSpelling_www ww hww
      rcases hx with rfl | rfl <;> rcases hy with rfl | rfl <;> rcases hz with rfl | rfl
      · exact findsGroups_prURL "http://www.".toList o r d (by decide) ho hr hd
      all_goals
        exact findsGroups_of_skip _ _ o r d
          (by simp [startsURL, urlPrefixes, List.isPrefixOf, prURL_cons]) hrest
  all_goals
    exact findsGroups_of_skip _ _ o r d
      (by simp [startsURL, urlPrefixes, List.isPrefixOf])
      (findsGroups_append_skip [_, _, _, ':', '/', '/'] _ o r d (by decide) hbase)

/-- With the host in lower case, the scheme `https://` in any letter case and
`www.` in any letter case (or absent), the leftmost match has the groups of
the URL. -/
theorem findsGroups_https (sc ww o r d : Str) (hsc : caseSpelling sc "https://".toList)
    (hww : ww = [] ∨ caseSpelling ww "www.".toList)
    (ho : isSegment o) (hr : isSegment r) (hd : isDigits d) :
    findsGroups (prURL (sc ++ ww) o r d) o r d := by
  have hbase : findsGroups (prURL ww o r d) o r d := findsGroups_www ww o r d hww ho hr hd
  obtain ⟨a, b, c, e, f, rfl, ha, hb, hc, he, hf⟩ := caseSpelling_https sc hsc
  rw [prURL_append]
  rcases ha with rfl | rfl <;> rcases hb with rfl | rfl <;> rcases hc with rfl | rfl <;>
    rcases he with rfl | rfl <;> rcases hf with rfl | rfl
  · have hrest :
        findsGroups ('t' :: 't' :: 'p' :: 's' :: ':' :: '/' :: '/' :: prURL ww o r d) o r d :=
      findsGroups_append_skip ['t', 't', 'p', 's', ':', '/', '/'] _ o r d (by decide) hbase
    rcases hww with rfl | hww
    · exact findsGroups_prURL "https://".toList o r d (by decide) ho hr hd
    · obtain ⟨x, y, z, rfl, hx, hy, hz⟩ := caseSpelling_www ww hww
      rcases hx with rfl | rfl <;> rcases hy with rfl | rfl <;> rcases hz with rfl | rfl
      · exact findsGroups_prURL "https://www.".toList o r d (by decide) ho hr hd
      all_goals
        exact findsGroups_of_skip _ _ o r d
          (by simp [startsURL, urlPrefixes, List.isPrefixOf, prURL_cons]) hrest
  all_goals
    exact findsGroups_of_skip _ _ o r d
      (by simp [startsURL, urlPrefixes, List.isPrefixOf])
      (findsGroups_append_skip [_, _, _, _, ':', '/', '/'] _ o r d (by decide) hbase)

/-- The first character of a URL text in any of the letter-case spellings is
no white space. -/
theorem head_spelled_not_space (sc ww o r d : Str)
    (hsc : sc = [] ∨ caseSpelling sc "http://".toList ∨ caseSpelling sc "https://".toList)
    (hww : ww = [] ∨ caseSpelling ww "www.".toList) :
    ∃ c t, prURL (sc ++ ww) o r d = c :: t ∧ isSpace c = false := by
  rcases hsc with rfl | hsc | hsc
  · rcases hww with rfl | hww
    · exact ⟨'g', _, rfl, by decide⟩
    · obtain ⟨a, b, c, rfl, ha, -⟩ := caseSpelling_www ww hww
      rcases ha with rfl | rfl <;> exact ⟨_, _, rfl, by decide⟩
  · obtain ⟨a, b, c, e, rfl, ha, -⟩ := caseSpelling_http sc hsc
    rcases ha with rfl | rfl <;> exact ⟨_, _, rfl, by decide⟩
  · obtain ⟨a, b, c, e, f, rfl, ha, -⟩ := caseSpelling_https sc hsc
    rcases ha with rfl | rfl <;> exact ⟨_, _, rfl, by decide⟩

theorem TrimSpace_within (s : Str) : List.IsInfix (TrimSpace s) s := by
  unfold TrimSpace
  have h1 : List.IsSuffix (s.dropWhile isSpace) s := List.dropWhile_suffix _
  have h2 : List.IsSuffix ((s.dropWhile isSpace).reverse.dropWhile isSpace)
      (s.dropWhile isSpace).reverse := List.dropWhile_suffix _
  have h3 : List.IsPrefix ((s.dropWhile isSpace).reverse.dropWhile isSpace).reverse
      (s.dropWhile isSpace) := by
    have := List.reverse_prefix.mpr h2
    rwa [List.reverse_reverse] at this
  exact h3.isInfix.trans h1.isInfix

/-- A text in which the pattern finds a match contains `github.com/` in lower
case. -/
theorem find_prURL_host (s : Str) (m : Caps) (h : prURLPattern.FindStringSubmatch s = some m) :
    List.IsInfix "github.com/".toList s := by
  obtain ⟨pre, pfx, o, r, d, t, hs, -⟩ := find_prURL_sound s m h
  refine ⟨pre ++ pfx, o ++ "/".toList ++ r ++ "/pull/".toList ++ d ++ t, ?_⟩
  rw [hs]
  simp only [prURL, List.append_assoc]

/-- C5, amended: `ParsePRArg` matches the host `github.com` in lower case
only.  With the host so written, for every letter-case spelling of the scheme
(`https://` or `http://`, or none) and of `www.` (or none) it returns the
number of the numeral (in the `int` range) and the owner and repository
exactly as written.  An argument that does not contain `github.com/` in lower
case is never taken as a URL: the pattern finds nothing in it, it is read as a
bare number, and a result has no repository. -/
theorem parsePRArg_case :
    (∀ (sc ww owner repo : Str) (n : Nat),
      (sc = [] ∨ caseSpelling sc "http://".toList ∨ caseSpelling sc "https://".toList) →
      (ww = [] ∨ caseSpelling ww "www.".toList) →
      isSegment owner → isSegment repo → (n : Int) ≤ maxInt →
      ParsePRArg (prURL (sc ++ ww) owner repo (numeral n)) =
        .ok ((n : Int), owner ++ "/".toList ++ repo)) ∧
    (∀ arg : Str, ¬ List.IsInfix "github.com/".toList arg →
      prURLPattern.FindStringSubmatch (TrimSpace arg) = none ∧
      ParsePRArg arg =
        (match Atoi (TrimPrefix (TrimSpace arg) "#".toList) with
          | (_, some _) => .error (.invalidReference (TrimPrefix (TrimSpace arg) "#".toList))
          | (number, none) =>
            if number ≤ 0 then .error .notPositive else .ok (number, [])) ∧
      ∀ (number : Int) (repo : Str), ParsePRArg arg = .ok (number, repo) → repo = []) ∧
    (∀ (arg : Str) (number : Int) (repo : Str), ParsePRArg arg = .ok (number, repo) →
      repo ≠ [] → List.IsInfix "github.com/".toList arg) := by
  have hnone : ∀ arg : Str, ¬ List.IsInfix "github.com/".toList arg →
      prURLPattern.FindStringSubmatch (TrimSpace arg) = none := by
    intro arg harg
    cases hf : prURLPattern.FindStringSubmatch (TrimSpace arg) with
    | none => rfl
    | some m => exact absurd ((find_prURL_host _ m hf).trans (TrimSpace_within arg)) harg
  have hbare : ∀ arg : Str, prURLPattern.FindStringSubmatch (TrimSpace arg) = none →
      ParsePRArg arg =
        (match Atoi (TrimPrefix (TrimSpace arg) "#".toList) with
          | (_, some _) => .error (.invalidReference (TrimPrefix (TrimSpace arg) "#".toList))
          | (number, none) =>
            if number ≤ 0 then .error .notPositive else .ok (number, [])) := by
    intro arg hf
    unfold ParsePRArg
    simp only [hf]
  have hrepo : ∀ arg : Str, prURLPattern.FindStringSubmatch (TrimSpace arg) = none →
      ∀ (number : Int) (repo : Str), ParsePRArg arg = .ok (number, repo) → repo = [] := by
    intro arg hf number repo hok
    rw [hbare arg hf] at hok
    rcases hat : Atoi (TrimPrefix (TrimSpace arg) "#".toList) with ⟨v, e⟩
    rw [hat] at hok
    cases e with
    | some e => simp only [] at hok; cases hok
    | none =>
      simp only [] at hok
      split_ifs at hok
      injection hok with hok
      injection hok with _ hr
      exact hr.symm
  refine ⟨?_, fun arg harg => ⟨hnone arg harg, hbare arg (hnone arg harg),
    hrepo arg (hnone arg harg)⟩, ?_⟩
  · intro sc ww owner repo n hsc hww ho hr hmax
    obtain ⟨hd, hv⟩ := numeral_spec n
    have hfind : findsGroups (prURL (sc ++ ww) owner repo (numeral n)) owner repo
        (numeral n) := by
      rcases hsc with rfl | hsc | hsc
      · simpa using findsGroups_www ww owner repo (numeral n) hww ho hr hd
      · exact findsGroups_http sc ww owner repo (numeral n) hsc hww ho hr hd
      · exact findsGroups_https sc ww owner repo (numeral n) hsc hww ho hr hd
    obtain ⟨m, hm, h1, h2, h3⟩ := hfind
    obtain ⟨c, t, hct, hc⟩ := head_spelled_not_space sc ww owner repo (numeral n) hsc hww
    have hne : prURL (sc ++ ww) owner repo (numeral n) ≠ [] := by rw [hct]; simp
    have htrim : TrimSpace (prURL (sc ++ ww) owner repo (numeral n)) =
        prURL (sc ++ ww) owner repo (numeral n) := by
      have := TrimSpace_pad [] (prURL (sc ++ ww) owner repo (numeral n)) []
        (by intro c h; cases h) (by intro c h; cases h) hne
        (by simp only [hct, List.head_cons]; exact hc)
        (by
          unfold prURL
          rw [List.getLast_append_of_ne_nil hd.1]
          exact isSpace_of_isDigit (hd.2 _ (List.getLast_mem _)))
      simpa using this
    unfold ParsePRArg
    simp only [htrim, hm, h1, h2, h3, Atoi_digits (numeral n) hd (by rw [hv]; exact hmax), hv]
  · intro arg number repo hok hne
    by_contra harg
    exact hne (hrepo arg (hnone arg harg) number repo hok)

theorem parsePRArg_case_witness :
    ParsePRArg "HTTPS://Www.github.com/Owner/Repo/pull/7".toList =
        .ok (7, "Owner/Repo".toList) ∧
      prURLPattern.FindStringSubmatch (TrimSpace "HTTPS://GitHub.COM/Owner/Repo/pull/7".toList) =
        none :=
  ⟨parsePRArg_case.1 "HTTPS://".toList "Www.".toList "Owner".toList "Repo".toList 7
      (by decide) (by decide) (by decide) (by decide) (by decide),
    (parsePRArg_case.2.1 "HTTPS://GitHub.COM/Owner/Repo/pull/7".toList (by
      intro h
      have hg : 'g' ∈ "HTTPS://GitHub.COM/Owner/Repo/pull/7".toList :=
        h.subset (by decide)
      revert hg
      decide)).1⟩

/-- C5 as stated fails: with the host in another letter case the argument is
no URL for `ParsePRArg` and is rejected, while the lower-case spelling is
accepted. -/
theorem parsePRArg_host_upper :
    ParsePRArg "HTTPS://GitHub.COM/Owner/Repo/pull/7".toList =
        .error (.invalidReference "HTTPS://GitHub.COM/Owner/Repo/pull/7".toList) ∧
      ParsePRArg "https://github.com/Owner/Repo/pull/7".toList =
        .ok (7, "Owner/Repo".toList) := by
  decide

/-- The search for the pattern is not anchored: a `github.com/` in lower case
further on in the text is matched, whatever stands before it. -/
theorem parsePRArg_unanchored :
    ParsePRArg "https://GitHub.com/github.com/o/r/pull/7".toList = .ok (7, "o/r".toList) := by
  decide

/-! ## Case folding of ASCII strings -/

theorem char_lt_iff (a b : Char) : a < b ↔ a.toNat < b.toNat := Iff.rfl

theorem char_le_iff (a b : Char) : a ≤ b ↔ a.toNat ≤ b.toNat := Iff.rfl

theorem char_eq_iff (a b : Char) : a = b ↔ a.toNat = b.toNat := by
  constructor
  · rintro rfl; rfl
  · intro h
    rw [← Char.ofNat_toNat a, ← Char.ofNat_toNat b, h]

theorem toNat_ofNat_small (n : Nat) (h : n < 256) : (Char.ofNat n).toNat = n := by
  interval_cases n <;> rfl

/-- On ASCII runes, against a rune that is no upper-case letter, lower-casing
and comparing is the comparison of `strings.EqualFold`. -/
theorem toLowerRune_eq_iff (lib : Lib) (c d : Char) (hc : c.toNat < 128) (hd : d.toNat < 128)
    (hdl : ¬ (65 ≤ d.toNat ∧ d.toNat ≤ 90)) :
    toLowerRune lib c = d ↔ equalFoldRune lib.orbit c d = true := by
  have hA : ('A' : Char).toNat = 65 := rfl
  have hZ : ('Z' : Char).toNat = 90 := rfl
  unfold toLowerRune equalFoldRune
  simp only [hc, if_true]
  by_cases hdc : d = c
  · subst hdc
    simp only [hdl, if_false, if_true]
  · have hne : d.toNat ≠ c.toNat := fun h => hdc ((char_eq_iff d c).mpr h)
    simp only [hdc, if_false]
    by_cases hlt : d < c
    · have hlt' : d.toNat < c.toNat := (char_lt_iff d c).mp hlt
      simp only [hlt, if_true, show c.toNat < 0x80 from hc, char_le_iff, hA, hZ,
        Bool.and_eq_true, decide_eq_true_eq]
      by_cases hup : 65 ≤ c.toNat ∧ c.toNat ≤ 90
      · simp only [hup, and_self, if_true, char_eq_iff,
          toNat_ofNat_small (c.toNat + 32) (by omega)]
        constructor <;> intro h <;> omega
      · simp only [hup, if_false, char_eq_iff]
        constructor <;> intro h <;> omega
    · have hlt' : ¬ d.toNat < c.toNat := fun h => hlt ((char_lt_iff d c).mpr h)
      simp only [hlt, if_false, show d.toNat < 0x80 from hd, if_true, char_le_iff, hA, hZ,
        Bool.and_eq_true, decide_eq_true_eq]
      by_cases hup : 65 ≤ c.toNat ∧ c.toNat ≤ 90
      · simp only [hup, and_self, if_true, char_eq_iff,
          toNat_ofNat_small (c.toNat + 32) (by omega), true_and]
        constructor <;> intro h <;> omega
      · simp only [hup, if_false, char_eq_iff, false_and, iff_false]
        omega

/-- On ASCII strings, against a word without upper-case letters, equality of
the lower-case form is `strings.EqualFold`. -/
theorem ToLower_eq_iff_EqualFold (lib : Lib) (s w : Str) (hs : ∀ c ∈ s, c.toNat < 128)
    (hw : ∀ d ∈ w, d.toNat < 128 ∧ ¬ (65 ≤ d.toNat ∧ d.toNat ≤ 90)) :
    ToLower lib s = w ↔ EqualFold lib.orbit s w = true := by
  induction s generalizing w with
  | nil =>
    cases w with
    | nil => simp [ToLower, EqualFold]
    | cons d w => simp [ToLower, EqualFold]
  | cons c s ih =>
    cases w with
    | nil => simp [ToLower, EqualFold]
    | cons d w =>
      have hc := hs c (List.mem_cons_self _ _)
      have hd := hw d (List.mem_cons_self _ _)
      have ih' := ih w (fun x hx => hs x (List.mem_cons_of_mem _ hx))
        (fun x hx => hw x (List.mem_cons_of_mem _ hx))
      have hhead := toLowerRune_eq_iff lib c d hc hd.1 hd.2
      unfold ToLower at ih' ⊢
      simp only [List.map_cons, List.cons.injEq, EqualFold, Bool.and_eq_true]
      rw [hhead, ih']

/-! ## `normalizeReviewState` -/

theorem ToLower_canonical (lib : Lib) (w : Str)
    (hw : w ∈ ["pending".toList, "approved".toList, "changes_requested".toList,
      "commented".toList, "submitted".toList]) : ToLower lib w = w := by
  simp only [List.mem_cons, List.mem_singleton, List.not_mem_nil, or_false] at hw
  rcases hw with rfl | rfl | rfl | rfl | rfl <;> rfl

/-- The `switch` of `normalizeReviewState`, as a function of the lower-case
form `x` of the state. -/
theorem normalize_switch (x : Str) :
    ((if x = "pending".toList then "pending".toList
      else if x = "approved".toList then "approved".toList
      else if x = "changes_requested".toList then "changes_requested".toList
      else if x = "commented".toList then "commented".toList
      else "submitted".toList) = "pending".toList ↔ x = "pending".toList) ∧
    ((if x = "pending".toList then "pending".toList
      else if x = "approved".toList then "approved".toList
      else if x = "changes_requested".toList then "changes_requested".toList
      else if x = "commented".toList then "commented".toList
      else "submitted".toList) = "approved".toList ↔ x = "approved".toList) ∧
    ((if x = "pending".toList then "pending".toList
      else if x = "approved".toList then "approved".toList
      else if x = "changes_requested".toList then "changes_requested".toList
      else if x = "commented".toList then "commented".toList
      else "submitted".toList) = "changes_requested".toList ↔
        x = "changes_requested".toList) ∧
    ((if x = "pending".toList then "pending".toList
      else if x = "approved".toList then "approved".toList
      else if x = "changes_requested".toList then "changes_requested".toList
      else if x = "commented".toList then "commented".toList
      else "submitted".toList) = "commented".toList ↔ x = "commented".toList) ∧
    ((if x = "pending".toList then "pending".toList
      else if x = "approved".toList then "approved".toList
      else if x = "changes_requested".toList then "changes_requested".toList
      else if x = "commented".toList then "commented".toList
      else "submitted".toList) = "submitted".toList ↔
        x ∉ ["pending".toList, "approved".toList, "changes_requested".toList,
          "commented".toList]) ∧
    (if x = "pending".toList then "pending".toList
      else if x = "approved".toList then "approved".toList
      else if x = "changes_requested".toList then "changes_requested".toList
      else if x = "commented".toList then "commented".toList
      else "submitted".toList) ∈ ["pending".toList, "approved".toList,
        "changes_requested".toList, "commented".toList, "submitted".toList] := by
  by_cases h1 : x = "pending".toList
  · subst h1; decide
  · by_cases h2 : x = "approved".toList
    · subst h2; decide
    · by_cases h3 : x = "changes_requested".toList
      · subst h3; decide
      · by_cases h4 : x = "commented".toList
        · subst h4; decide
        · rw [if_neg h1, if_neg h2, if_neg h3, if_neg h4]
          refine ⟨⟨fun h => absurd h (by decide), fun h => absurd h h1⟩,
            ⟨fun h => absurd h (by decide), fun h => absurd h h2⟩,
            ⟨fun h => absurd h (by decide), fun h => absurd h h3⟩,
            ⟨fun h => absurd h (by decide), fun h => absurd h h4⟩,
            ⟨fun _ => ?_, fun _ => rfl⟩, by decide⟩
          intro hmem
          simp only [List.mem_cons, List.mem_singleton, List.not_mem_nil, or_false] at hmem
          rcases hmem with h | h | h | h
          · exact h1 h
          · exact h2 h
          · exact h3 h
          · exact h4 h

/-- C11: for every string `s`, `normalizeReviewState(s)` is `pending`,
`approved`, `changes_requested` or `commented` exactly when `s` is that word
up to letter case, that is when the lower-case form of `s`
(`strings.ToLower`) is the word, which for an ASCII string `s` is
`strings.EqualFold` of `s` and the word; it is `submitted` for every other
string, the empty string included; so the result lies in the five-element set
and normalising twice is the same as normalising once. -/
theorem normalizeReviewState_spec (lib : Lib) (s : Str) :
    (normalizeReviewState lib s = "pending".toList ↔ ToLower lib s = "pending".toList) ∧
    (normalizeReviewState lib s = "approved".toList ↔ ToLower lib s = "approved".toList) ∧
    (normalizeReviewState lib s = "changes_requested".toList ↔
      ToLower lib s = "changes_requested".toList) ∧
    (normalizeReviewState lib s = "commented".toList ↔ ToLower lib s = "commented".toList) ∧
    (normalizeReviewState lib s = "submitted".toList ↔
      ToLower lib s ∉ ["pending".toList, "approved".toList, "changes_requested".toList,
        "commented".toList]) ∧
    normalizeReviewState lib [] = "submitted".toList ∧
    normalizeReviewState lib s ∈ ["pending".toList, "approved".toList,
      "changes_requested".toList, "commented".toList, "submitted".toList] ∧
    normalizeReviewState lib (normalizeReviewState lib s) = normalizeReviewState lib s ∧
    ((∀ c ∈ s, c.toNat < 128) →
      ∀ w ∈ ["pending".toList, "approved".toList, "changes_requested".toList,
        "commented".toList],
        (normalizeReviewState lib s = w ↔ EqualFold lib.orbit s w = true)) := by
  obtain ⟨h1, h2, h3, h4, h5, hmem⟩ := normalize_switch (ToLower lib s)
  refine ⟨h1, h2, h3, h4, h5, rfl, hmem, ?_, ?_⟩
  · have hfix : ∀ w : Str, w ∈ ["pending".toList, "approved".toList,
        "changes_requested".toList, "commented".toList, "submitted".toList] →
        normalizeReviewState lib w = w := by
      intro w hw
      simp only [List.mem_cons, List.mem_singleton, List.not_mem_nil, or_false] at hw
      rcases hw with rfl | rfl | rfl | rfl | rfl <;> rfl
    exact hfix _ hmem
  · intro hs w hw
    simp only [List.mem_cons, List.mem_singleton, List.not_mem_nil, or_false] at hw
    rcases hw with rfl | rfl | rfl | rfl
    · exact h1.trans (ToLower_eq_iff_EqualFold lib s _ hs (by decide))
    · exact h2.trans (ToLower_eq_iff_EqualFold lib s _ hs (by decide))
    · exact h3.trans (ToLower_eq_iff_EqualFold lib s _ hs (by decide))
    · exact h4.trans (ToLower_eq_iff_EqualFold lib s _ hs (by decide))

theorem normalizeReviewState_spec_witness :
    (normalizeReviewState sampleLib "Changes_Requested".toList = "changes_requested".toList ↔
      EqualFold sampleLib.orbit "Changes_Requested".toList "changes_requested".toList = true) :=
  (normalizeReviewState_spec sampleLib "Changes_Requested".toList).2.2.2.2.2.2.2.2
    (by decide) "changes_requested".toList (by decide)

/-! ## `LatestPendingReview` -/

/-- The selection loop of `LatestPendingReview`: started on `cur` with the
reviews before it older and those between it and the rest not newer, it ends
on the first review with the greatest `UpdatedAt`. -/
theorem latest_loop (rest pre mid : List PendingReview) (cur : PendingReview)
    (hpre : ∀ x ∈ pre, x.UpdatedAt < cur.UpdatedAt)
    (hmid : ∀ x ∈ mid, x.UpdatedAt ≤ cur.UpdatedAt) :
    ∃ pre' post', pre ++ cur :: (mid ++ rest) =
        pre' ++ (rest.foldl (fun latest r => if latest.UpdatedAt < r.UpdatedAt then r else latest)
          cur) :: post' ∧
      (∀ x ∈ pre', x.UpdatedAt <
        (rest.foldl (fun latest r => if latest.UpdatedAt < r.UpdatedAt then r else latest)
          cur).UpdatedAt) ∧
      (∀ x ∈ post', x.UpdatedAt ≤
        (rest.foldl (fun latest r => if latest.UpdatedAt < r.UpdatedAt then r else latest)
          cur).UpdatedAt) := by
  induction rest generalizing pre mid cur with
  | nil =>
    exact ⟨pre, mid, by simp, hpre, hmid⟩
  | cons r rest ih =>
    rw [List.foldl_cons]
    by_cases hlt : cur.UpdatedAt < r.UpdatedAt
    · rw [if_pos hlt]
      obtain ⟨pre', post', heq, h1, h2⟩ := ih (pre ++ cur :: mid) [] r
        (by
          intro x hx
          rcases List.mem_append.mp hx with h | h
          · exact lt_trans (hpre x h) hlt
          · rcases List.mem_cons.mp h with rfl | h
            · exact hlt
            · exact lt_of_le_of_lt (hmid x h) hlt)
        (by intro x hx; cases hx)
      exact ⟨pre', post', by rw [← heq]; simp, h1, h2⟩
    · rw [if_neg hlt]
      obtain ⟨pre', post', heq, h1, h2⟩ := ih pre (mid ++ [r]) cur hpre
        (by
          intro x hx
          rcases List.mem_append.mp hx with h | h
          · exact hmid x h
          · rw [List.mem_singleton] at h
            rw [h]; exact not_lt.mp hlt)
      exact ⟨pre', post', by rw [← heq]; simp, h1, h2⟩

/-- C12: `LatestPendingReview` fails with `no pending review found` iff
`PendingReviews` yields an empty list; when `PendingReviews` yields a non-empty
list it returns a review of that list whose `UpdatedAt` is not earlier than
any other's, and of the reviews with that greatest `UpdatedAt` the first one:
every review before it in the list is strictly older. -/
theorem latestPendingReview_spec (lib : Lib) (gql : GraphQLClient) (pr : PRRef)
    (opts : PendingReviewsOptions) :
    ((LatestPendingReview lib gql pr opts).1 = .error (.text "no pending review found".toList) ↔
      (PendingReviews lib gql pr opts).1 = .ok []) ∧
    (∀ reviews : List PendingReview, reviews ≠ [] →
      (PendingReviews lib gql pr opts).1 = .ok reviews →
      ∃ latest pre post, (LatestPendingReview lib gql pr opts).1 = .ok latest ∧
        reviews = pre ++ latest :: post ∧
        (∀ x ∈ pre, x.UpdatedAt < latest.UpdatedAt) ∧
        (∀ x ∈ post, x.UpdatedAt ≤ latest.UpdatedAt)) ∧
    (∀ err : ApiError, (PendingReviews lib gql pr opts).1 = .error err →
      (LatestPendingReview lib gql pr opts).1 = .error err) := by
  have hpend : ∀ err : ApiError, (PendingReviews lib gql pr opts).1 = .error err →
      err ≠ .text "no pending review found".toList := by
    intro err h
    unfold PendingReviews at h
    simp only [] at h
    by_cases hrev : TrimSpace opts.Reviewer = []
    · simp only [hrev, if_true] at h
      unfold ViewerLogin at h
      cases hv : gql.viewerLogin .viewerLogin with
      | error e =>
        simp only [hv] at h
        injection h with h
        rw [← h]; intro hc; cases hc
      | ok resp =>
        simp only [hv] at h
        by_cases hlogin : TrimSpace resp.Login = []
        · simp only [hlogin, if_true] at h
          injection h with h
          rw [← h]; decide
        · simp only [hlogin, if_false] at h
          cases hq : gql.pendingReviews
              (.pendingReviews pr.Owner pr.Repo pr.Number (if opts.First ≤ 0 then 20 else opts.First)) with
          | error e =>
            simp only [hq] at h
            injection h with h
            rw [← h]; intro hc; cases hc
          | ok r => simp only [hq] at h; cases h
    · simp only [hrev, if_false] at h
      cases hq : gql.pendingReviews
          (.pendingReviews pr.Owner pr.Repo pr.Number (if opts.First ≤ 0 then 20 else opts.First)) with
      | error e =>
        simp only [hq] at h
        injection h with h
        rw [← h]; intro hc; cases hc
      | ok r => simp only [hq] at h; cases h
  rcases hres : PendingReviews lib gql pr opts with ⟨res, calls⟩
  rw [hres] at hpend
  cases res with
  | error err =>
    have hL : LatestPendingReview lib gql pr opts = (.error err, calls) := by
      simp only [LatestPendingReview, hres]
    rw [hL]
    refine ⟨⟨fun h => ?_, fun h => (by cases h)⟩, fun reviews _ h => (by cases h),
      fun e h => (by injection h with h; subst h; rfl)⟩
    injection h with h
    exact absurd h (hpend err rfl)
  | ok reviews =>
    cases reviews with
    | nil =>
      have hL : LatestPendingReview lib gql pr opts =
          (.error (.text "no pending review found".toList), calls) := by
        simp only [LatestPendingReview, hres]
      rw [hL]
      exact ⟨⟨fun _ => rfl, fun _ => rfl⟩, fun reviews hne h => (by
        injection h with h; exact absurd h.symm hne), fun e h => (by cases h)⟩
    | cons first rest =>
      have hL : LatestPendingReview lib gql pr opts =
          (.ok (rest.foldl (fun latest r => if latest.UpdatedAt < r.UpdatedAt then r else latest)
            first), calls) := by
        simp only [LatestPendingReview, hres]
      rw [hL]
      refine ⟨⟨fun h => (by cases h), fun h => (by cases h)⟩, fun reviews _ h => ?_,
        fun e h => (by cases h)⟩
      injection h with h
      subst h
      obtain ⟨pre, post, heq, h1, h2⟩ := latest_loop rest [] [] first
        (by intro x hx; cases hx) (by intro x hx; cases hx)
      exact ⟨_, pre, post, rfl, by simpa using heq, h1, h2⟩

theorem latestPendingReview_spec_witness :
    ∃ latest pre post, (LatestPendingReview sampleLib sampleGql samplePR ⟨[], 0⟩).1 = .ok latest ∧
      [(⟨"PRR_1".toList, "PENDING".toList, [], 1, "alice".toList, 0,
          [⟨"PRRC_1".toList, "main.go".toList, 7, none, "text".toList, [], none, false, []⟩],
          1⟩ : PendingReview),
        ⟨"PRR_2".toList, "PENDING".toList, [], 2, "Alice".toList, 0, [], 0⟩] =
        pre ++ latest :: post ∧
      (∀ x ∈ pre, x.UpdatedAt < latest.UpdatedAt) ∧
      (∀ x ∈ post, x.UpdatedAt ≤ latest.UpdatedAt) :=
  (latestPendingReview_spec sampleLib sampleGql samplePR ⟨[], 0⟩).2.1 _ (by decide) (by decide)

/-! ## `PendingReviews` -/

/-- A loop that skips or appends, against the filter of its input: the
results correspond, in order, to the elements that are not skipped. -/
theorem filterMap_forall₂ {α β : Type} (f : α → Option β) (p : α → Bool) (R : β → α → Prop)
    (hnone : ∀ a, p a = false → f a = none)
    (hsome : ∀ a, p a = true → ∃ b, f a = some b ∧ R b a) (l : List α) :
    List.Forall₂ R (l.filterMap f) (l.filter p) := by
  induction l with
  | nil => exact List.Forall₂.nil
  | cons a l ih =>
    cases hp : p a with
    | false =>
      rw [List.filterMap_cons, hnone a hp, List.filter_cons, hp]
      exact ih
    | true =>
      obtain ⟨b, hb, hR⟩ := hsome a hp
      rw [List.filterMap_cons, hb, List.filter_cons, hp]
      exact List.Forall₂.cons hR ih

theorem lineRule_match (live original : Option Int) :
    lineRule live original
      (match live with
        | some l => l
        | none =>
          match original with
          | some o => o
          | none => 0) := by
  cases live with
  | some l =>
    refine ⟨fun l' h => ?_, fun h => ?_, fun h => ?_⟩
    · injection h
    · cases h
    · cases h
  | none =>
    cases original with
    | some o =>
      refine ⟨fun l' h => ?_, fun _ o' h => ?_, fun _ h => ?_⟩
      · cases h
      · injection h
      · cases h
    | none =>
      refine ⟨fun l' h => ?_, fun _ o' h => ?_, fun _ _ => rfl⟩
      · cases h
      · cases h

theorem pendingCommentOfNode_some (cn : PendingCommentNode) (h : TrimSpace cn.ID ≠ []) :
    ∃ c, pendingCommentOfNode cn = some c ∧ pendingCommentMatches c cn := by
  unfold pendingCommentOfNode
  simp only [h, if_false]
  exact ⟨_, rfl, rfl, rfl, rfl, rfl, rfl, lineRule_match _ _⟩

theorem pendingCommentOfNode_none (cn : PendingCommentNode) (h : TrimSpace cn.ID = []) :
    pendingCommentOfNode cn = none := by
  simp only [pendingCommentOfNode, h, if_true]

theorem pendingComments_forall₂ (nodes : List PendingCommentNode) :
    List.Forall₂ pendingCommentMatches (nodes.filterMap pendingCommentOfNode)
      (nodes.filter (fun cn => decide (TrimSpace cn.ID ≠ []))) := by
  apply filterMap_forall₂
  · intro cn h
    exact pendingCommentOfNode_none cn (by simpa using h)
  · intro cn h
    exact pendingCommentOfNode_some cn (by simpa using h)

theorem pendingReviews_forall₂ (lib : Lib) (reviewer : Str) (nodes : List PendingReviewNode) :
    List.Forall₂ (pendingReviewMatches lib)
      (nodes.filterMap (pendingReviewOfNode lib reviewer))
      (keptReviewNodes lib reviewer nodes) := by
  unfold keptReviewNodes
  apply filterMap_forall₂
  · intro node h
    rw [Bool.and_eq_false_iff] at h
    rcases h with h | h
    · simp only [pendingReviewOfNode, h, if_true]
    · have hid : TrimSpace node.ID = [] := by simpa using h
      unfold pendingReviewOfNode
      simp only [hid, if_true]
      split_ifs <;> rfl
  · intro node h
    rw [Bool.and_eq_true] at h
    obtain ⟨hfold, hid⟩ := h
    have hid' : TrimSpace node.ID ≠ [] := by simpa using hid
    unfold pendingReviewOfNode
    simp only [hfold, hid', Bool.true_eq_false, if_false]
    exact ⟨_, rfl, rfl, rfl, rfl, rfl, rfl, pendingComments_forall₂ _⟩

/-- C13: for every response and reviewer option, `PendingReviews` returns, in
response order, the records of exactly the review nodes whose trimmed author
login equals the reviewer under `EqualFold` and whose trimmed id is non-empty,
each with the records of its comments that have a non-empty trimmed id; the
reviewer is the trimmed option when that is non-empty and otherwise the login
given by `ViewerLogin`, and when `ViewerLogin` fails the operation fails with
its error and the reviews query is not sent. -/
theorem pendingReviews_spec (lib : Lib) (gql : GraphQLClient) (pr : PRRef)
    (opts : PendingReviewsOptions) :
    (TrimSpace opts.Reviewer ≠ [] → ∀ response,
      gql.pendingReviews (pendingReviewsCall pr opts) = .ok response →
      ∃ reviews, PendingReviews lib gql pr opts = (.ok reviews, [pendingReviewsCall pr opts]) ∧
        List.Forall₂ (pendingReviewMatches lib) reviews
          (keptReviewNodes lib (TrimSpace opts.Reviewer) response.Nodes)) ∧
    (TrimSpace opts.Reviewer = [] → ∀ login, (ViewerLogin gql).1 = .ok login → ∀ response,
      gql.pendingReviews (pendingReviewsCall pr opts) = .ok response →
      ∃ reviews, PendingReviews lib gql pr opts =
          (.ok reviews, [.viewerLogin, pendingReviewsCall pr opts]) ∧
        List.Forall₂ (pendingReviewMatches lib) reviews
          (keptReviewNodes lib login response.Nodes)) ∧
    (TrimSpace opts.Reviewer = [] → ∀ err, (ViewerLogin gql).1 = .error err →
      PendingReviews lib gql pr opts = (.error err, [.viewerLogin])) := by
  have hcalls : (ViewerLogin gql).2 = [.viewerLogin] := by
    unfold ViewerLogin
    cases gql.viewerLogin .viewerLogin with
    | error e => rfl
    | ok resp => simp only []; split_ifs <;> rfl
  refine ⟨?_, ?_, ?_⟩
  · intro hrev response hresp
    refine ⟨_, ?_, pendingReviews_forall₂ lib (TrimSpace opts.Reviewer) response.Nodes⟩
    unfold pendingReviewsCall at hresp
    simp only [PendingReviews, pendingReviewsCall, hrev, if_false, hresp, List.nil_append]
  · intro hrev login hlogin response hresp
    refine ⟨_, ?_, pendingReviews_forall₂ lib login response.Nodes⟩
    unfold pendingReviewsCall at hresp
    rcases hv : ViewerLogin gql with ⟨res, calls⟩
    rw [hv] at hlogin hcalls
    simp only at hlogin hcalls
    subst hlogin hcalls
    simp only [PendingReviews, pendingReviewsCall, hrev, if_true, hv, hresp, List.cons_append,
      List.nil_append]
  · intro hrev err herr
    rcases hv : ViewerLogin gql with ⟨res, calls⟩
    rw [hv] at herr hcalls
    simp only at herr hcalls
    subst herr hcalls
    simp only [PendingReviews, hrev, if_true, hv]

theorem pendingReviews_spec_witness :
    (∃ reviews, PendingReviews sampleLib sampleGql samplePR ⟨[], 0⟩ =
        (.ok reviews, [.viewerLogin, pendingReviewsCall samplePR ⟨[], 0⟩]) ∧
      List.Forall₂ (pendingReviewMatches sampleLib) reviews
        (keptReviewNodes sampleLib "alice".toList
          [⟨"PRR_1".toList, "PENDING".toList, [], "1".toList, "alice".toList, 1,
            [⟨"PRRC_1".toList, "main.go".toList, none, none, "text".toList, false, some 7⟩,
             ⟨" ".toList, "main.go".toList, some 3, none, "text".toList, false, some 9⟩]⟩,
           ⟨"PRR_9".toList, "PENDING".toList, [], "5".toList, "bob".toList, 0, []⟩,
           ⟨"PRR_2".toList, "PENDING".toList, [], "2".toList, "Alice ".toList, 0, []⟩])) ∧
      PendingReviews sampleLib failingGql samplePR ⟨" ".toList, 0⟩ =
        (.error (.wrap "get viewer login".toList "boom".toList), [.viewerLogin]) :=
  ⟨(pendingReviews_spec sampleLib sampleGql samplePR ⟨[], 0⟩).2.1 (by decide) "alice".toList
      (by decide) _ rfl,
    (pendingReviews_spec sampleLib failingGql samplePR ⟨" ".toList, 0⟩).2.2 (by decide) _
      (by decide)⟩

/-! ## The record of a review comment node -/

theorem reviewCommentOfNode_eq_some (reviewState reviewAuthor : Str) (cn : ReviewCommentNode)
    (c : ReviewCommentWithState) (h : reviewCommentOfNode reviewState reviewAuthor cn = some c) :
    TrimSpace cn.ID ≠ [] ∧ c.ID = TrimSpace cn.ID ∧ c.Path = cn.Path ∧ c.Body = cn.Body ∧
      c.StartLine = cn.StartLine ∧ c.Outdated = cn.Outdated ∧
      lineRule cn.Line cn.OriginalLine c.Line ∧ c.State = reviewState ∧
      c.Author = (if TrimSpace cn.AuthorLogin = [] then reviewAuthor
        else TrimSpace cn.AuthorLogin) := by
  unfold reviewCommentOfNode at h
  simp only [] at h
  by_cases hid : TrimSpace cn.ID = []
  · simp only [hid, if_true] at h; cases h
  · simp only [hid, if_false] at h
    injection h with h
    rw [← h]
    exact ⟨hid, rfl, rfl, rfl, rfl, rfl, lineRule_match _ _, rfl, rfl⟩

/-! ## Preconditions of the mutations -/

theorem ToUpper_eq_nil (lib : Lib) (s : Str) : ToUpper lib s = [] ↔ s = [] := by
  simp [ToUpper]

/-- With valid input `AddThread` sends one call, the one of `addThreadCall`,
and its result is decided by the answer to that call. -/
theorem AddThread_valid (lib : Lib) (gql : GraphQLClient) (input : AddThreadInput)
    (h : addThreadValid input) :
    AddThread lib gql input =
      match gql.addThread (addThreadCall lib input) with
      | .error err => (.error (.wrap "add thread".toList err), [addThreadCall lib input])
      | .ok response =>
        if TrimSpace response.ID = [] then
          (.error (.text "add thread returned empty ID".toList), [addThreadCall lib input])
        else
          (.ok ⟨TrimSpace response.ID, response.Path,
            (match response.Line with
              | some l => l
              | none => 0), response.IsOutdated⟩, [addThreadCall lib input]) := by
  obtain ⟨hid, hpre, hpath, hline, hbody⟩ := h
  have hline' : ¬ input.Line ≤ 0 := by omega
  have hcall : GqlCall.addThread
      { pullRequestReviewId := TrimSpace input.ReviewID, path := TrimSpace input.Path,
        line := input.Line,
        side := if ToUpper lib (TrimSpace input.Side) = [] then "RIGHT".toList
          else ToUpper lib (TrimSpace input.Side),
        body := TrimSpace input.Body, startLine := input.StartLine,
        startSide := input.StartSide.map (ToUpper lib) } = addThreadCall lib input := by
    unfold addThreadCall
    by_cases hs : TrimSpace input.Side = []
    · simp [hs, ToUpper]
    · have : ToUpper lib (TrimSpace input.Side) ≠ [] := fun h => hs ((ToUpper_eq_nil lib _).mp h)
      simp [hs, this]
  unfold AddThread
  simp only [hid, hpre, hpath, hline', hbody, if_false, Bool.true_eq_false, hcall]

/-- C15: `AddThread` returns a validation error without calling the transport,
and so the same result for every transport, whenever the trimmed review id is
empty or does not start with `PRR_`, or the trimmed path is empty, or
`line <= 0`, or the trimmed body is empty; with review id and path in order,
`line = 0` fails with `line must be positive`.  When none of these holds the
transport is called exactly once. -/
theorem addThread_validation (lib : Lib) (gql : GraphQLClient) (input : AddThreadInput) :
    ((TrimSpace input.ReviewID = [] ∨ HasPrefix (TrimSpace input.ReviewID) "PRR_".toList = false ∨
        TrimSpace input.Path = [] ∨ input.Line ≤ 0 ∨ TrimSpace input.Body = []) →
      (AddThread lib gql input).2 = [] ∧
      (AddThread lib gql input).1 ∈
        [Except.error (ApiError.text "review ID required".toList),
          Except.error (ApiError.invalidID "review".toList (TrimSpace input.ReviewID)),
          Except.error (ApiError.text "path required".toList),
          Except.error (ApiError.text "line must be positive".toList),
          Except.error (ApiError.text "body required".toList)] ∧
      ∀ gql' : GraphQLClient, AddThread lib gql' input = AddThread lib gql input) ∧
    (input.Line = 0 → TrimSpace input.ReviewID ≠ [] →
      HasPrefix (TrimSpace input.ReviewID) "PRR_".toList = true → TrimSpace input.Path ≠ [] →
      AddThread lib gql input = (.error (.text "line must be positive".toList), [])) ∧
    (¬ (TrimSpace input.ReviewID = [] ∨ HasPrefix (TrimSpace input.ReviewID) "PRR_".toList = false ∨
        TrimSpace input.Path = [] ∨ input.Line ≤ 0 ∨ TrimSpace input.Body = []) →
      (AddThread lib gql input).2.length = 1) := by
  have hinvalid : ∀ g : GraphQLClient, ¬ addThreadValid input →
      AddThread lib g input =
        if TrimSpace input.ReviewID = [] then (.error (.text "review ID required".toList), [])
        else if HasPrefix (TrimSpace input.ReviewID) "PRR_".toList = false then
          (.error (.invalidID "review".toList (TrimSpace input.ReviewID)), [])
        else if TrimSpace input.Path = [] then (.error (.text "path required".toList), [])
        else if input.Line ≤ 0 then (.error (.text "line must be positive".toList), [])
        else (.error (.text "body required".toList), []) := by
    intro g hnv
    unfold AddThread
    simp only []
    by_cases h1 : TrimSpace input.ReviewID = []
    · simp only [h1, if_true]
    · by_cases h2 : HasPrefix (TrimSpace input.ReviewID) "PRR_".toList = false
      · simp only [h1, h2, if_true, if_false]
      · by_cases h3 : TrimSpace input.Path = []
        · simp only [h1, h2, h3, if_true, if_false]
        · by_cases h4 : input.Line ≤ 0
          · simp only [h1, h2, h3, h4, if_true, if_false]
          · by_cases h5 : TrimSpace input.Body = []
            · simp only [h1, h2, h3, h4, h5, if_true, if_false]
            · exfalso
              apply hnv
              exact ⟨h1, by simpa using h2, h3, by omega, h5⟩
  refine ⟨?_, ?_, ?_⟩
  · intro hcond
    have hnv : ¬ addThreadValid input := by
      rintro ⟨h1, h2, h3, h4, h5⟩
      rcases hcond with h | h | h | h | h
      · exact h1 h
      · rw [h2] at h; cases h
      · exact h3 h
      · omega
      · exact h5 h
    refine ⟨?_, ?_, fun gql' => by rw [hinvalid gql' hnv, hinvalid gql hnv]⟩
    · rw [hinvalid gql hnv]; split_ifs <;> rfl
    · rw [hinvalid gql hnv]; split_ifs <;> simp
  · intro hline h1 h2 h3
    have hnv : ¬ addThreadValid input := by
      rintro ⟨-, -, -, h4, -⟩; omega
    have hle : input.Line ≤ 0 := by omega
    rw [hinvalid gql hnv]
    simp only [h1, h2, h3, hle, if_false, if_true, Bool.true_eq_false]
  · intro hcond
    have hv : addThreadValid input := by
      refine ⟨fun h => hcond (Or.inl h), ?_, fun h => hcond (Or.inr (Or.inr (Or.inl h))), ?_,
        fun h => hcond (Or.inr (Or.inr (Or.inr (Or.inr h))))⟩
      · cases hp : HasPrefix (TrimSpace input.ReviewID) "PRR_".toList with
        | true => rfl
        | false => exact absurd (Or.inr (Or.inl hp)) hcond
      · by_contra hl
        exact hcond (Or.inr (Or.inr (Or.inr (Or.inl (by omega)))))
    rw [AddThread_valid lib gql input hv]
    cases gql.addThread (addThreadCall lib input) with
    | error e => rfl
    | ok response => simp only []; split_ifs <;> rfl

theorem addThread_validation_witness :
    AddThread sampleLib sampleGql ⟨"PRR_123".toList, "file.go".toList, 0, [], "comment".toList,
        none, none⟩ = (.error (.text "line must be positive".toList), []) ∧
      (AddThread sampleLib sampleGql sampleThreadInput).2.length = 1 :=
  ⟨(addThread_validation sampleLib sampleGql ⟨"PRR_123".toList, "file.go".toList, 0, [],
      "comment".toList, none, none⟩).2.1 (by decide) (by decide) (by decide) (by decide),
    (addThread_validation sampleLib sampleGql sampleThreadInput).2.2 (by decide)⟩

/-- C17: when the preconditions of `AddThread` pass, the one call it makes
carries the mutation input with side `RIGHT` if the given side is blank and
otherwise the trimmed side in upper case, the trimmed review id, path and
body, the unchanged line, and the start line and the start side (in upper
case) exactly when they are supplied. -/
theorem addThread_input (lib : Lib) (gql : GraphQLClient) (input : AddThreadInput)
    (h : addThreadValid input) :
    (AddThread lib gql input).2 =
      [GqlCall.addThread
        { pullRequestReviewId := TrimSpace input.ReviewID, path := TrimSpace input.Path,
          line := input.Line,
          side := if TrimSpace input.Side = [] then "RIGHT".toList
            else ToUpper lib (TrimSpace input.Side),
          body := TrimSpace input.Body,
          startLine := input.StartLine,
          startSide := input.StartSide.map (ToUpper lib) }] ∧
    (input.StartLine = none → input.StartSide = none →
      ∃ v : AddThreadVariables, (AddThread lib gql input).2 = [GqlCall.addThread v] ∧
        v.startLine = none ∧ v.startSide = none) := by
  have hcalls : (AddThread lib gql input).2 = [addThreadCall lib input] := by
    rw [AddThread_valid lib gql input h]
    cases gql.addThread (addThreadCall lib input) with
    | error e => rfl
    | ok response => simp only []; split_ifs <;> rfl
  refine ⟨hcalls, fun hl hs => ⟨_, hcalls, hl, ?_⟩⟩
  simp only [hs, Option.map_none']

theorem addThread_input_witness :
    (AddThread sampleLib sampleGql sampleThreadInput).2 =
      [GqlCall.addThread ⟨"PRR_1".toList, "main.go".toList, 3, "LEFT".toList, "text".toList,
        none, some "RIGHT".toList⟩] :=
  (addThread_input sampleLib sampleGql sampleThreadInput (by decide)).1

theorem UpdateComment_cases (gql : GraphQLClient) (input : UpdateCommentInput) :
    UpdateComment gql input =
      if TrimSpace input.CommentID = [] then (some (.text "comment ID required".toList), [])
      else if HasPrefix (TrimSpace input.CommentID) "PRRC_".toList = false then
        (some (.invalidID "comment".toList (TrimSpace input.CommentID)), [])
      else if TrimSpace input.Body = [] then (some (.text "body required".toList), [])
      else
        match gql.updateComment (updateCommentCall input) with
        | .error err => (some (.wrap "update comment".toList err), [updateCommentCall input])
        | .ok _ => (none, [updateCommentCall input]) := by
  rfl

theorem DeleteComment_cases (gql : GraphQLClient) (commentID : Str) :
    DeleteComment gql commentID =
      if TrimSpace commentID = [] then (some (.text "comment ID required".toList), [])
      else if HasPrefix (TrimSpace commentID) "PRRC_".toList = false then
        (some (.invalidID "comment".toList (TrimSpace commentID)), [])
      else
        match gql.deleteComment (.deleteComment (TrimSpace commentID)) with
        | .error err =>
          (some (.wrap "delete comment".toList err), [.deleteComment (TrimSpace commentID)])
        | .ok _ => (none, [.deleteComment (TrimSpace commentID)]) := by
  rfl

theorem SubmitReview_cases (lib : Lib) (gql : GraphQLClient) (input : SubmitReviewInput) :
    SubmitReview lib gql input =
      if TrimSpace input.ReviewID = [] then (some (.text "review ID required".toList), [])
      else if HasPrefix (TrimSpace input.ReviewID) "PRR_".toList = false then
        (some (.invalidID "review".toList (TrimSpace input.ReviewID)), [])
      else if TrimSpace input.Event = [] then (some (.text "event required".toList), [])
      else
        match gql.submitReview (submitReviewCall lib input) with
        | .error err => (some (.wrap "submit review".toList err), [submitReviewCall lib input])
        | .ok _ => (none, [submitReviewCall lib input]) := by
  unfold SubmitReview submitReviewCall
  simp only [ToUpper_eq_nil]

theorem DeleteReview_cases (gql : GraphQLClient) (reviewID : Str) :
    DeleteReview gql reviewID =
      if TrimSpace reviewID = [] then (some (.text "review ID required".toList), [])
      else if HasPrefix (TrimSpace reviewID) "PRR_".toList = false then
        (some (.invalidID "review".toList (TrimSpace reviewID)), [])
      else
        match gql.deleteReview (.deleteReview (TrimSpace reviewID)) with
        | .error err =>
          (some (.wrap "delete review".toList err), [.deleteReview (TrimSpace reviewID)])
        | .ok _ => (none, [.deleteReview (TrimSpace reviewID)]) := by
  rfl

/-- The prefixes `PRR_` and `PRRC_` exclude each other. -/
theorem prefixes_disjoint (s : Str) :
    ¬ (HasPrefix s "PRR_".toList = true ∧ HasPrefix s "PRRC_".toList = true) := by
  rintro ⟨h1, h2⟩
  unfold HasPrefix at h1 h2
  match s, h1, h2 with
  | a :: b :: c :: d :: rest, h1, h2 =>
    simp only [String.toList, List.isPrefixOf, Bool.and_eq_true, beq_iff_eq] at h1 h2
    obtain ⟨-, -, -, h1, -⟩ := h1
    obtain ⟨-, -, -, h2, -⟩ := h2
    rw [← h1] at h2
    revert h2; decide
  | [], h1, _ => simp [List.isPrefixOf] at h1
  | [_], h1, _ => simp [List.isPrefixOf] at h1
  | [_, _], h1, _ => simp [List.isPrefixOf] at h1
  | [_, _, _], h1, _ => simp [List.isPrefixOf] at h1

/-- C16: `UpdateComment` and `DeleteComment` fail without calling the transport
when the trimmed comment id is empty or does not start with `PRRC_`
(`UpdateComment` also when the trimmed body is empty); `SubmitReview` and
`DeleteReview` fail without calling the transport when the trimmed review id
is empty or does not start with `PRR_` (`SubmitReview` also when the trimmed
event is empty).  No identifier is accepted both as a review id and as a
comment id. -/
theorem mutation_preconditions (lib : Lib) (gql : GraphQLClient) :
    (∀ input : UpdateCommentInput,
      (TrimSpace input.CommentID = [] ∨
        HasPrefix (TrimSpace input.CommentID) "PRRC_".toList = false ∨
        TrimSpace input.Body = []) →
      (UpdateComment gql input).2 = [] ∧ (UpdateComment gql input).1 ≠ none ∧
        ∀ gql' : GraphQLClient, UpdateComment gql' input = UpdateComment gql input) ∧
    (∀ commentID : Str,
      (TrimSpace commentID = [] ∨ HasPrefix (TrimSpace commentID) "PRRC_".toList = false) →
      (DeleteComment gql commentID).2 = [] ∧ (DeleteComment gql commentID).1 ≠ none ∧
        ∀ gql' : GraphQLClient, DeleteComment gql' commentID = DeleteComment gql commentID) ∧
    (∀ input : SubmitReviewInput,
      (TrimSpace input.ReviewID = [] ∨
        HasPrefix (TrimSpace input.ReviewID) "PRR_".toList = false ∨
        TrimSpace input.Event = []) →
      (SubmitReview lib gql input).2 = [] ∧ (SubmitReview lib gql input).1 ≠ none ∧
        ∀ gql' : GraphQLClient, SubmitReview lib gql' input = SubmitReview lib gql input) ∧
    (∀ reviewID : Str,
      (TrimSpace reviewID = [] ∨ HasPrefix (TrimSpace reviewID) "PRR_".toList = false) →
      (DeleteReview gql reviewID).2 = [] ∧ (DeleteReview gql reviewID).1 ≠ none ∧
        ∀ gql' : GraphQLClient, DeleteReview gql' reviewID = DeleteReview gql reviewID) ∧
    (∀ id : Str, ¬ (reviewIDValid id ∧ commentIDValid id)) ∧
    (∀ id : Str, (DeleteReview gql id).2 = [] ∨ (DeleteComment gql id).2 = []) := by
  refine ⟨?_, ?_, ?_, ?_, ?_, ?_⟩
  · intro input hcond
    have key : ∀ g : GraphQLClient, UpdateComment g input =
        if TrimSpace input.CommentID = [] then (some (.text "comment ID required".toList), [])
        else if HasPrefix (TrimSpace input.CommentID) "PRRC_".toList = false then
          (some (.invalidID "comment".toList (TrimSpace input.CommentID)), [])
        else (some (.text "body required".toList), []) := by
      intro g
      rw [UpdateComment_cases]
      by_cases h1 : TrimSpace input.CommentID = []
      · simp only [h1, if_true]
      · by_cases h2 : HasPrefix (TrimSpace input.CommentID) "PRRC_".toList = false
        · simp only [h1, h2, if_true, if_false]
        · have h3 : TrimSpace input.Body = [] := by
            rcases hcond with h | h | h
            · exact absurd h h1
            · exact absurd h h2
            · exact h
          simp only [h1, h2, h3, if_true, if_false]
    refine ⟨?_, ?_, fun gql' => by rw [key gql', key gql]⟩
    · rw [key gql]; split_ifs <;> rfl
    · rw [key gql]; split_ifs <;> simp
  · intro commentID hcond
    have key : ∀ g : GraphQLClient, DeleteComment g commentID =
        if TrimSpace commentID = [] then (some (.text "comment ID required".toList), [])
        else (some (.invalidID "comment".toList (TrimSpace commentID)), []) := by
      intro g
      rw [DeleteComment_cases]
      by_cases h1 : TrimSpace commentID = []
      · simp only [h1, if_true]
      · have h2 : HasPrefix (TrimSpace commentID) "PRRC_".toList = false := by
          rcases hcond with h | h
          · exact absurd h h1
          · exact h
        simp only [h1, h2, if_true, if_false]
    refine ⟨?_, ?_, fun gql' => by rw [key gql', key gql]⟩
    · rw [key gql]; split_ifs <;> rfl
    · rw [key gql]; split_ifs <;> simp
  · intro input hcond
    have key : ∀ g : GraphQLClient, SubmitReview lib g input =
        if TrimSpace input.ReviewID = [] then (some (.text "review ID required".toList), [])
        else if HasPrefix (TrimSpace input.ReviewID) "PRR_".toList = false then
          (some (.invalidID "review".toList (TrimSpace input.ReviewID)), [])
        else (some (.text "event required".toList), []) := by
      intro g
      rw [SubmitReview_cases]
      by_cases h1 : TrimSpace input.ReviewID = []
      · simp only [h1, if_true]
      · by_cases h2 : HasPrefix (TrimSpace input.ReviewID) "PRR_".toList = false
        · simp only [h1, h2, if_true, if_false]
        · have h3 : TrimSpace input.Event = [] := by
            rcases hcond with h | h | h
            · exact absurd h h1
            · exact absurd h h2
            · exact h
          simp only [h1, h2, h3, if_true, if_false]
    refine ⟨?_, ?_, fun gql' => by rw [key gql', key gql]⟩
    · rw [key gql]; split_ifs <;> rfl
    · rw [key gql]; split_ifs <;> simp
  · intro reviewID hcond
    have key : ∀ g : GraphQLClient, DeleteReview g reviewID =
        if TrimSpace reviewID = [] then (some (.text "review ID required".toList), [])
        else (some (.invalidID "review".toList (TrimSpace reviewID)), []) := by
      intro g
      rw [DeleteReview_cases]
      by_cases h1 : TrimSpace reviewID = []
      · simp only [h1, if_true]
      · have h2 : HasPrefix (TrimSpace reviewID) "PRR_".toList = false := by
          rcases hcond with h | h
          · exact absurd h h1
          · exact h
        simp only [h1, h2, if_true, if_false]
    refine ⟨?_, ?_, fun gql' => by rw [key gql', key gql]⟩
    · rw [key gql]; split_ifs <;> rfl
    · rw [key gql]; split_ifs <;> simp
  · rintro id ⟨⟨-, h1⟩, ⟨-, h2⟩⟩
    exact prefixes_disjoint _ ⟨h1, h2⟩
  · intro id
    by_cases h1 : HasPrefix (TrimSpace id) "PRR_".toList = true
    · right
      have h2 : HasPrefix (TrimSpace id) "PRRC_".toList = false := by
        cases hp : HasPrefix (TrimSpace id) "PRRC_".toList with
        | false => rfl
        | true => exact absurd ⟨h1, hp⟩ (prefixes_disjoint _)
      rw [DeleteComment_cases]
      simp only [h2, if_true]
      split_ifs <;> rfl
    · left
      have h1' : HasPrefix (TrimSpace id) "PRR_".toList = false := by simpa using h1
      rw [DeleteReview_cases]
      simp only [h1', if_true]
      split_ifs <;> rfl

theorem mutation_preconditions_witness :
    (UpdateComment sampleGql ⟨"PRR_1".toList, "text".toList⟩).2 = [] ∧
      (DeleteComment sampleGql " ".toList).2 = [] ∧
      (SubmitReview sampleLib sampleGql ⟨"PRR_1".toList, " ".toList, []⟩).2 = [] ∧
      (DeleteReview sampleGql "PRRC_1".toList).2 = [] :=
  ⟨((mutation_preconditions sampleLib sampleGql).1 ⟨"PRR_1".toList, "text".toList⟩
      (by decide)).1,
    ((mutation_preconditions sampleLib sampleGql).2.1 " ".toList (by decide)).1,
    ((mutation_preconditions sampleLib sampleGql).2.2.1 ⟨"PRR_1".toList, " ".toList, []⟩
      (by decide)).1,
    ((mutation_preconditions sampleLib sampleGql).2.2.2.1 "PRRC_1".toList (by decide)).1⟩

/-! ## Transport failures -/

theorem effectiveLimit_eq (limit : Int) :
    (if limit ≤ 0 then 100 else limit) = effectiveLimit limit := by
  unfold effectiveLimit
  by_cases h : limit ≤ 0
  · have : ¬ 0 < limit := by omega
    simp only [h, this, if_true, if_false]
  · have : 0 < limit := by omega
    simp only [h, this, if_true, if_false]

theorem AllPRComments_eq (lib : Lib) (gql : GraphQLClient) (pr : PRRef)
    (opts : AllCommentsOptions) :
    AllPRComments lib gql pr opts =
      match gql.allPRComments (allPRCommentsCall lib pr opts) with
      | .error err =>
        (.error (.wrap "query all PR comments".toList err), [allPRCommentsCall lib pr opts])
      | .ok response =>
        (.ok (allCommentsOfResponse lib (effectiveLimit opts.Limit) response),
          [allPRCommentsCall lib pr opts]) := by
  have hstates : (if opts.States.length > 0 then some (opts.States.map (ToUpper lib)) else none) =
      (if opts.States = [] then none else some (opts.States.map (ToUpper lib))) := by
    cases opts.States with
    | nil => rfl
    | cons a l => simp
  unfold AllPRComments allPRCommentsCall
  simp only [effectiveLimit_eq, hstates]

theorem ReviewThreads_eq (lib : Lib) (gql : GraphQLClient) (pr : PRRef)
    (opts : ReviewThreadsOptions) :
    ReviewThreads lib gql pr opts =
      match gql.reviewThreads (reviewThreadsCall pr opts) with
      | .error err =>
        (.error (.wrap "query review threads".toList err), [reviewThreadsCall pr opts])
      | .ok response =>
        (.ok (threadsOfResponse lib opts (effectiveLimit opts.Limit) response),
          [reviewThreadsCall pr opts]) := by
  unfold ReviewThreads reviewThreadsCall
  simp only [effectiveLimit_eq]

/-- C18: for every client operation whose preconditions pass, if the call of
the operation fails with an error of message `e`, the operation fails with the
error whose message is the fixed prefix of the operation, `: ` and `e`; that
call is the only call of the operation and is made once, and no result value
is returned.  (`PendingReviews` with a blank reviewer option has obtained the
viewer login before, by the one call of `ViewerLogin`.) -/
theorem transport_failure_wrapped (lib : Lib) (gql : GraphQLClient) (e : Str) :
    (∀ op : Str, (ApiError.wrap op e).message lib = op ++ ": ".toList ++ e) ∧
    (∀ pr : PRRef, gql.resolvePR (resolvePRCall pr) = .error e →
      ResolvePR gql pr = (.error (.wrap "resolve PR".toList e), [resolvePRCall pr])) ∧
    (gql.viewerLogin .viewerLogin = .error e →
      ViewerLogin gql = (.error (.wrap "get viewer login".toList e), [.viewerLogin])) ∧
    (∀ (pr : PRRef) (opts : PendingReviewsOptions),
      gql.pendingReviews (pendingReviewsCall pr opts) = .error e →
      (TrimSpace opts.Reviewer ≠ [] →
        PendingReviews lib gql pr opts =
          (.error (.wrap "query pending reviews".toList e), [pendingReviewsCall pr opts])) ∧
      (TrimSpace opts.Reviewer = [] → ∀ login, (ViewerLogin gql).1 = .ok login →
        PendingReviews lib gql pr opts =
          (.error (.wrap "query pending reviews".toList e),
            [.viewerLogin, pendingReviewsCall pr opts]))) ∧
    (∀ input : CreateReviewInput, TrimSpace input.PRNodeID ≠ [] →
      gql.createReview (createReviewCall input) = .error e →
      CreateReview gql input =
        (.error (.wrap "create review".toList e), [createReviewCall input])) ∧
    (∀ input : AddThreadInput, addThreadValid input →
      gql.addThread (addThreadCall lib input) = .error e →
      AddThread lib gql input = (.error (.wrap "add thread".toList e), [addThreadCall lib input])) ∧
    (∀ input : UpdateCommentInput, updateCommentValid input →
      gql.updateComment (updateCommentCall input) = .error e →
      UpdateComment gql input =
        (some (.wrap "update comment".toList e), [updateCommentCall input])) ∧
    (∀ commentID : Str, commentIDValid commentID →
      gql.deleteComment (.deleteComment (TrimSpace commentID)) = .error e →
      DeleteComment gql commentID =
        (some (.wrap "delete comment".toList e), [.deleteComment (TrimSpace commentID)])) ∧
    (∀ input : SubmitReviewInput, submitReviewValid input →
      gql.submitReview (submitReviewCall lib input) = .error e →
      SubmitReview lib gql input =
        (some (.wrap "submit review".toList e), [submitReviewCall lib input])) ∧
    (∀ reviewID : Str, reviewIDValid reviewID →
      gql.deleteReview (.deleteReview (TrimSpace reviewID)) = .error e →
      DeleteReview gql reviewID =
        (some (.wrap "delete review".toList e), [.deleteReview (TrimSpace reviewID)])) ∧
    (∀ (pr : PRRef) (opts : AllCommentsOptions),
      gql.allPRComments (allPRCommentsCall lib pr opts) = .error e →
      AllPRComments lib gql pr opts =
        (.error (.wrap "query all PR comments".toList e), [allPRCommentsCall lib pr opts])) ∧
    (∀ (pr : PRRef) (opts : ReviewThreadsOptions),
      gql.reviewThreads (reviewThreadsCall pr opts) = .error e →
      ReviewThreads lib gql pr opts =
        (.error (.wrap "query review threads".toList e), [reviewThreadsCall pr opts])) := by
  refine ⟨fun op => rfl, ?_, ?_, ?_, ?_, ?_, ?_, ?_, ?_, ?_, ?_, ?_⟩
  · intro pr h
    unfold resolvePRCall at h
    simp only [ResolvePR, resolvePRCall, h]
  · intro h
    simp only [ViewerLogin, h]
  · intro pr opts h
    unfold pendingReviewsCall at h
    refine ⟨fun hrev => ?_, fun hrev login hlogin => ?_⟩
    · simp only [PendingReviews, pendingReviewsCall, hrev, if_false, h, List.nil_append]
    · have hcalls : (ViewerLogin gql).2 = [.viewerLogin] := by
        unfold ViewerLogin
        cases gql.viewerLogin .viewerLogin with
        | error e => rfl
        | ok resp => simp only []; split_ifs <;> rfl
      rcases hv : ViewerLogin gql with ⟨res, calls⟩
      rw [hv] at hlogin hcalls
      simp only at hlogin hcalls
      subst hlogin hcalls
      simp only [PendingReviews, pendingReviewsCall, hrev, if_true, hv, h, List.cons_append,
        List.nil_append]
  · intro input hid h
    unfold createReviewCall at h
    simp only [CreateReview, createReviewCall, hid, if_false, h]
  · intro input hv h
    rw [AddThread_valid lib gql input hv, h]
  · intro input hv h
    obtain ⟨h1, h2, h3⟩ := hv
    rw [UpdateComment_cases, h]
    simp only [h1, h2, h3, if_false, Bool.true_eq_false]
  · intro commentID hv h
    obtain ⟨h1, h2⟩ := hv
    rw [DeleteComment_cases, h]
    simp only [h1, h2, if_false, Bool.true_eq_false]
  · intro input hv h
    obtain ⟨⟨h1, h2⟩, h3⟩ := hv
    rw [SubmitReview_cases, h]
    simp only [h1, h2, h3, if_false, Bool.true_eq_false]
  · intro reviewID hv h
    obtain ⟨h1, h2⟩ := hv
    rw [DeleteReview_cases, h]
    simp only [h1, h2, if_false, Bool.true_eq_false]
  · intro pr opts h
    rw [AllPRComments_eq, h]
  · intro pr opts h
    rw [ReviewThreads_eq, h]

theorem transport_failure_wrapped_witness :
    ResolvePR failingGql samplePR =
        (.error (.wrap "resolve PR".toList "boom".toList), [resolvePRCall samplePR]) ∧
      AddThread sampleLib failingGql sampleThreadInput =
        (.error (.wrap "add thread".toList "boom".toList),
          [addThreadCall sampleLib sampleThreadInput]) ∧
      DeleteReview failingGql "PRR_1".toList =
        (some (.wrap "delete review".toList "boom".toList), [.deleteReview "PRR_1".toList]) :=
  ⟨(transport_failure_wrapped sampleLib failingGql "boom".toList).2.1 samplePR rfl,
    (transport_failure_wrapped sampleLib failingGql "boom".toList).2.2.2.2.2.1
      sampleThreadInput (by decide) rfl,
    (transport_failure_wrapped sampleLib failingGql "boom".toList).2.2.2.2.2.2.2.2.2.1
      "PRR_1".toList (by decide) rfl⟩

/-! ## `AllPRComments` -/

theorem flatMap_forall₂ {α β γ : Type} (R : β → γ → Prop) (f : α → List β) (g : α → List γ)
    (h : ∀ a, List.Forall₂ R (f a) (g a)) (l : List α) :
    List.Forall₂ R (l.flatMap f) (l.flatMap g) := by
  induction l with
  | nil => exact List.Forall₂.nil
  | cons a l ih =>
    rw [List.flatMap_cons, List.flatMap_cons]
    exact List.rel_append (h a) ih

theorem reviewComments_forall₂ (lib : Lib) (review : ReviewNode) :
    List.Forall₂ (reviewCommentMatches lib)
      (review.Comments.filterMap
        (reviewCommentOfNode (normalizeReviewState lib review.State)
          (TrimSpace review.AuthorLogin)))
      ((review.Comments.filter (fun cmt => decide (TrimSpace cmt.ID ≠ []))).map
        (fun cmt => (review, cmt))) := by
  rw [List.forall₂_map_right_iff]
  apply filterMap_forall₂
  · intro cn hp
    have hid : TrimSpace cn.ID = [] := by simpa using hp
    simp only [reviewCommentOfNode, hid, if_true]
  · intro cn hp
    have hid : TrimSpace cn.ID ≠ [] := by simpa using hp
    cases hc : reviewCommentOfNode (normalizeReviewState lib review.State)
        (TrimSpace review.AuthorLogin) cn with
    | none => simp only [reviewCommentOfNode, hid, if_false] at hc; cases hc
    | some c =>
      obtain ⟨-, h2, h3, h4, -, -, -, h8, h9⟩ := reviewCommentOfNode_eq_some _ _ cn c hc
      refine ⟨c, rfl, h8, fun hne => ?_, fun he => ?_, h2, ?_, h3, h4⟩
      · rw [h9, if_neg hne]
      · rw [h9, if_pos he]
      · rw [h2]; exact hid

/-- C19: when the query of `AllPRComments` is answered with `response`, the
review comments of the result correspond one to one and in order to the
comment nodes of the response with a non-empty trimmed id (reviews in order,
comments within a review in order); each has `State` equal to
`normalizeReviewState` of the state of its parent review and `Author` equal to
its own trimmed author login when that is non-empty, otherwise the trimmed
author login of the parent review. -/
theorem allPRComments_reviewComments (lib : Lib) (gql : GraphQLClient) (pr : PRRef)
    (opts : AllCommentsOptions) (response : AllPRCommentsResponse)
    (h : gql.allPRComments (allPRCommentsCall lib pr opts) = .ok response) :
    ∃ result : AllCommentsResult, (AllPRComments lib gql pr opts).1 = .ok result ∧
      List.Forall₂ (reviewCommentMatches lib) result.ReviewComments
        (keptReviewComments response) := by
  rw [AllPRComments_eq, h]
  exact ⟨_, rfl, flatMap_forall₂ _ _ _ (reviewComments_forall₂ lib) response.Reviews⟩

theorem allPRComments_reviewComments_witness :
    ∃ result : AllCommentsResult,
      (AllPRComments sampleLib sampleGql samplePR ⟨0, []⟩).1 = .ok result ∧
      List.Forall₂ (reviewCommentMatches sampleLib) result.ReviewComments
        (keptReviewComments ⟨1, [⟨"PRR_1".toList, "APPROVED".toList, "alice".toList,
          [⟨"PRRC_1".toList, "main.go".toList, none, none, "text".toList, false, some 7,
            []⟩]⟩], 200, []⟩) :=
  allPRComments_reviewComments sampleLib sampleGql samplePR ⟨0, []⟩ _ rfl

/-- C20: when the query of `AllPRComments` is answered with `response`, the
flag `Truncated` of the result is true iff the total count of reviews or the
total count of discussion comments of the response is greater than the limit,
the limit being the requested `Limit` when that is positive and 100 otherwise;
two calls with the same requested limit answered with the same two total
counts give the same flag, whatever the nodes, the states option, the
pull request and the transport. -/
theorem allPRComments_truncated (lib : Lib) (gql : GraphQLClient) (pr : PRRef)
    (opts : AllCommentsOptions) (response : AllPRCommentsResponse)
    (h : gql.allPRComments (allPRCommentsCall lib pr opts) = .ok response) :
    ∃ result : AllCommentsResult, (AllPRComments lib gql pr opts).1 = .ok result ∧
      (result.Truncated = true ↔
        (response.ReviewsTotalCount > effectiveLimit opts.Limit ∨
          response.CommentsTotalCount > effectiveLimit opts.Limit)) ∧
      (0 < opts.Limit → effectiveLimit opts.Limit = opts.Limit) ∧
      (¬ 0 < opts.Limit → effectiveLimit opts.Limit = 100) ∧
      (∀ (lib' : Lib) (gql' : GraphQLClient) (pr' : PRRef) (opts' : AllCommentsOptions)
        (response' : AllPRCommentsResponse) (result' : AllCommentsResult),
        opts'.Limit = opts.Limit →
        response'.ReviewsTotalCount = response.ReviewsTotalCount →
        response'.CommentsTotalCount = response.CommentsTotalCount →
        gql'.allPRComments (allPRCommentsCall lib' pr' opts') = .ok response' →
        (AllPRComments lib' gql' pr' opts').1 = .ok result' →
        result'.Truncated = result.Truncated) := by
  rw [AllPRComments_eq, h]
  refine ⟨_, rfl, ?_, fun hpos => ?_, fun hneg => ?_, ?_⟩
  · simp only [allCommentsOfResponse, Bool.or_eq_true, decide_eq_true_eq]
  · simp only [effectiveLimit, hpos, if_true]
  · simp only [effectiveLimit, hneg, if_false]
  · intro lib' gql' pr' opts' response' result' hl hr hc h' hres
    rw [AllPRComments_eq, h'] at hres
    injection hres with hres
    rw [← hres]
    simp only [allCommentsOfResponse, hl, hr, hc]

theorem allPRComments_truncated_witness :
    ∃ result : AllCommentsResult,
      (AllPRComments sampleLib sampleGql samplePR ⟨0, []⟩).1 = .ok result ∧
      (result.Truncated = true ↔
        ((1 : Int) > effectiveLimit 0 ∨ (200 : Int) > effectiveLimit 0)) :=
  (allPRComments_truncated sampleLib sampleGql samplePR ⟨0, []⟩
    ⟨1, [⟨"PRR_1".toList, "APPROVED".toList, "alice".toList,
      [⟨"PRRC_1".toList, "main.go".toList, none, none, "text".toList, false, some 7,
        []⟩]⟩], 200, []⟩ rfl).imp (fun _ hr => ⟨hr.1, hr.2.1⟩)

/-! ## `ReviewThreads` -/

theorem threadComments_forall₂ (nodes : List ThreadCommentNode) :
    List.Forall₂ threadCommentMatches (nodes.filterMap threadCommentOfNode)
      (nodes.filter (fun cn => decide (TrimSpace cn.ID ≠ []))) := by
  apply filterMap_forall₂
  · intro cn hp
    have hid : TrimSpace cn.ID = [] := by simpa using hp
    simp only [threadCommentOfNode, hid, if_true]
  · intro cn hp
    have hid : TrimSpace cn.ID ≠ [] := by simpa using hp
    refine ⟨⟨TrimSpace cn.ID, cn.Body, TrimSpace cn.AuthorLogin⟩, ?_, rfl, rfl, rfl⟩
    simp only [threadCommentOfNode, hid, if_false]

theorem threadOfNode_state (lib : Lib) (opts : ReviewThreadsOptions) (node : ThreadNode) :
    threadOfNode lib opts node =
      if (opts.UnresolvedOnly && node.IsResolved) = true then none
      else if TrimSpace node.ID = [] then none
      else if opts.States.length > 0 ∧
          (opts.States.any (fun s => EqualFold lib.orbit (threadStateOf lib node) s)) = false then
        none
      else
        some { ID := TrimSpace node.ID, Path := node.Path,
               Line :=
                 (match node.Line with
                  | some l => l
                  | none =>
                    match node.OriginalLine with
                    | some o => o
                    | none => 0),
               IsResolved := node.IsResolved, State := threadStateOf lib node,
               Comments := node.Comments.filterMap threadCommentOfNode } := by
  rfl

theorem threads_forall₂ (lib : Lib) (opts : ReviewThreadsOptions) (nodes : List ThreadNode) :
    List.Forall₂ (threadMatches lib) (nodes.filterMap (threadOfNode lib opts))
      (nodes.filter (keepsThread lib opts)) := by
  apply filterMap_forall₂
  · intro node hp
    rw [threadOfNode_state]
    unfold keepsThread at hp
    by_cases h1 : (opts.UnresolvedOnly && node.IsResolved) = true
    · rw [if_pos h1]
    · rw [if_neg h1]
      by_cases h2 : TrimSpace node.ID = []
      · rw [if_pos h2]
      · rw [if_neg h2]
        have h1' : (!opts.UnresolvedOnly || !node.IsResolved) = true := by
          revert h1; cases opts.UnresolvedOnly <;> cases node.IsResolved <;> simp
        simp only [h2, ne_eq, not_false_eq_true, decide_True, h1', Bool.and_self, Bool.true_and,
          Bool.or_eq_false_iff] at hp
        obtain ⟨hs1, hs2⟩ := hp
        have hlen : opts.States.length > 0 := by
          cases hst : opts.States with
          | nil => rw [hst] at hs1; simp at hs1
          | cons a l => simp
        rw [if_pos ⟨hlen, hs2⟩]
  · intro node hp
    rw [threadOfNode_state]
    unfold keepsThread at hp
    simp only [Bool.and_eq_true, decide_eq_true_eq, Bool.or_eq_true, Bool.not_eq_true',
      List.isEmpty_iff] at hp
    obtain ⟨⟨hid, hres⟩, hst⟩ := hp
    have h1 : ¬ (opts.UnresolvedOnly && node.IsResolved) = true := by
      rcases hres with h | h <;> simp [h]
    have h3 : ¬ (opts.States.length > 0 ∧
        (opts.States.any (fun s => EqualFold lib.orbit (threadStateOf lib node) s)) = false) := by
      rintro ⟨hl, hf⟩
      rcases hst with h | h
      · rw [h] at hl; simp at hl
      · rw [h] at hf; cases hf
    rw [if_neg h1, if_neg hid, if_neg h3]
    exact ⟨_, rfl, rfl, rfl, rfl, rfl, lineRule_match _ _, threadComments_forall₂ _⟩

/-- C21: when the query of `ReviewThreads` is answered with `response`, the
returned threads correspond one to one and in order to the thread nodes of the
response that have a non-empty trimmed id, that are unresolved when
`UnresolvedOnly` is set, and, when `States` is non-empty, whose state equals
one of the requested states under `EqualFold`; the state of a node is
`normalizeReviewState` of the review state of its first comment node (and the
empty string for a node without comment nodes).  `Truncated` is true iff the
total count of the response is greater than the limit, the limit being 100
when `Limit <= 0` and `Limit` otherwise, and it is the same for two calls with
the same limit answered with the same total count, whatever the nodes and the
filters. -/
theorem reviewThreads_spec (lib : Lib) (gql : GraphQLClient) (pr : PRRef)
    (opts : ReviewThreadsOptions) (response : ReviewThreadsResponse)
    (h : gql.reviewThreads (reviewThreadsCall pr opts) = .ok response) :
    ∃ result : ThreadsResult, (ReviewThreads lib gql pr opts).1 = .ok result ∧
      List.Forall₂ (threadMatches lib) result.Threads
        (response.Nodes.filter (keepsThread lib opts)) ∧
      (∀ (node : ThreadNode) (cmt : ThreadCommentNode) (rest : List ThreadCommentNode),
        node.Comments = cmt :: rest →
        threadStateOf lib node = normalizeReviewState lib cmt.ReviewState) ∧
      (result.Truncated = true ↔ response.TotalCount > effectiveLimit opts.Limit) ∧
      (opts.Limit ≤ 0 → effectiveLimit opts.Limit = 100) ∧
      (0 < opts.Limit → effectiveLimit opts.Limit = opts.Limit) ∧
      (∀ (lib' : Lib) (gql' : GraphQLClient) (pr' : PRRef) (opts' : ReviewThreadsOptions)
        (response' : ReviewThreadsResponse) (result' : ThreadsResult),
        opts'.Limit = opts.Limit → response'.TotalCount = response.TotalCount →
        gql'.reviewThreads (reviewThreadsCall pr' opts') = .ok response' →
        (ReviewThreads lib' gql' pr' opts').1 = .ok result' →
        result'.Truncated = result.Truncated) := by
  rw [ReviewThreads_eq, h]
  refine ⟨_, rfl, threads_forall₂ lib opts response.Nodes, ?_, ?_, fun hle => ?_, fun hpos => ?_,
    ?_⟩
  · intro node cmt rest hc
    simp only [threadStateOf, hc]
  · simp only [threadsOfResponse, decide_eq_true_eq]
  · have : ¬ 0 < opts.Limit := by omega
    simp only [effectiveLimit, this, if_false]
  · simp only [effectiveLimit, hpos, if_true]
  · intro lib' gql' pr' opts' response' result' hl hc h' hres
    rw [ReviewThreads_eq, h'] at hres
    injection hres with hres
    rw [← hres]
    simp only [threadsOfResponse, hl, hc]

theorem reviewThreads_spec_witness :
    ∃ result : ThreadsResult,
      (ReviewThreads sampleLib sampleGql samplePR ⟨0, true, []⟩).1 =
        .ok result ∧
      List.Forall₂ (threadMatches sampleLib) result.Threads
        ([⟨"PRRT_1".toList, false, "main.go".toList, none, some 5, []⟩].filter
          (keepsThread sampleLib ⟨0, true, []⟩)) :=
  (reviewThreads_spec sampleLib sampleGql samplePR ⟨0, true, []⟩
    ⟨1, [⟨"PRRT_1".toList, false, "main.go".toList, none, some 5, []⟩]⟩ rfl).imp
    (fun _ hr => ⟨hr.1, hr.2.1⟩)

/-! ## Filtering -/

/-- C28: for every comment list and every filter criteria, the comments kept
by `matchesFilters` form a sublist of the input in the same order (exactly the
comments for which `matchesFilters` holds), and filtering that result again
with the same criteria returns it unchanged. -/
theorem filterComments_idempotent (orbit : Char → Char → Bool) (f : ListFlags)
    (comments : List Comment) :
    List.Sublist (filterComments orbit f comments) comments ∧
    (∀ c : Comment, c ∈ filterComments orbit f comments ↔
      c ∈ comments ∧ matchesFilters orbit f c = true) ∧
    filterComments orbit f (filterComments orbit f comments) =
      filterComments orbit f comments := by
  refine ⟨List.filter_sublist _, fun c => ?_, ?_⟩
  · simp only [filterComments, List.mem_filter]
  · simp only [filterComments, List.filter_filter, Bool.and_self]

/-! ## `truncateBody` -/

theorem utf8_dots : utf8 "...".toList = [46, 46, 46] := by
  decide

theorem replaceNewlineBytes_length (s : Bytes) : (replaceNewlineBytes s).length = s.length := by
  simp only [replaceNewlineBytes, List.length_map]

theorem replaceNewlineBytes_not_mem (s : Bytes) : 10 ∉ replaceNewlineBytes s := by
  simp only [replaceNewlineBytes, List.mem_map, not_exists, not_and]
  intro b _ hb
  by_cases h : b = 10
  · rw [if_pos h] at hb; omega
  · rw [if_neg h] at hb; exact h hb

theorem replaceNewlineBytes_fix (s : Bytes) (h : 10 ∉ s) : replaceNewlineBytes s = s := by
  induction s with
  | nil => rfl
  | cons b s ih =>
    have hb : b ≠ 10 := fun hb => h (by rw [hb]; exact List.mem_cons_self _ _)
    have hs : 10 ∉ s := fun hs => h (List.mem_cons_of_mem _ hs)
    have ih' := ih hs
    unfold replaceNewlineBytes at ih' ⊢
    rw [List.map_cons, if_neg hb, ih']

theorem utf8Char_replace (c : Char) :
    replaceNewlineBytes (utf8Char c) = utf8Char (if c = '\n' then ' ' else c) := by
  by_cases hc : c = '\n'
  · subst hc; decide
  · rw [if_neg hc]
    have hne : c.toNat ≠ 10 := fun h => hc ((char_eq_iff c '\n').mpr h)
    apply replaceNewlineBytes_fix
    unfold utf8Char
    simp only []
    split_ifs <;> simp only [List.mem_cons, List.mem_singleton, List.not_mem_nil, or_false] <;>
      omega

/-- On the bytes of a string given by its runes, the replacement of the bytes
10 is the replacement of the newline runes. -/
theorem utf8_replaceNewlines (s : Str) :
    replaceNewlineBytes (utf8 s) = utf8 (replaceNewlines s) := by
  induction s with
  | nil => rfl
  | cons c s ih =>
    have hcons : ∀ (c : Char) (s : Str), utf8 (c :: s) = utf8Char c ++ utf8 s := fun _ _ => rfl
    have happ : ∀ a b : Bytes,
        replaceNewlineBytes (a ++ b) = replaceNewlineBytes a ++ replaceNewlineBytes b := by
      intro a b; simp only [replaceNewlineBytes, List.map_append]
    rw [hcons, happ, ih, utf8Char_replace]
    rfl

/-- C29: for every string `s` and every `maxLen >= 0`, `truncateBody(s, maxLen)`
returns the text `s` with every newline replaced by a space when the byte
length of `s` is at most `maxLen`, and otherwise the first `maxLen` bytes of
that text followed by `...`; the result has no newline, a length of at most
`maxLen + 3`, and `truncateBody` leaves it unchanged. -/
theorem truncateBody_spec (s : Bytes) (maxLen : Int) (h : 0 ≤ maxLen) :
    truncateBody s maxLen =
      some (if (s.length : Int) ≤ maxLen then replaceNewlineBytes s
        else (replaceNewlineBytes s).take maxLen.toNat ++ [46, 46, 46]) ∧
    (∀ r : Str, replaceNewlineBytes (utf8 r) = utf8 (replaceNewlines r)) ∧
    (replaceNewlineBytes s).length = s.length ∧
    (∀ i : Nat, ∀ b ∈ s.get? i,
      (replaceNewlineBytes s).get? i = some (if b = 10 then 32 else b)) ∧
    ∀ t : Bytes, truncateBody s maxLen = some t →
      10 ∉ t ∧ (t.length : Int) ≤ maxLen + 3 ∧ truncateBody t maxLen = some t := by
  have hval : truncateBody s maxLen =
      some (if (s.length : Int) ≤ maxLen then replaceNewlineBytes s
        else (replaceNewlineBytes s).take maxLen.toNat ++ [46, 46, 46]) := by
    unfold truncateBody
    simp only [replaceNewlineBytes_length, utf8_dots]
    by_cases hle : (s.length : Int) ≤ maxLen
    · have : ¬ (s.length : Int) > maxLen := by omega
      simp only [hle, this, if_true, if_false]
    · have : (s.length : Int) > maxLen := by omega
      have hneg : ¬ maxLen < 0 := by omega
      simp only [hle, this, hneg, if_true, if_false]
  refine ⟨hval, utf8_replaceNewlines, replaceNewlineBytes_length s, ?_, ?_⟩
  · intro i b hb
    simp only [Option.mem_def] at hb
    simp only [replaceNewlineBytes, List.get?_eq_getElem?, List.getElem?_map] at hb ⊢
    rw [hb]; rfl
  · intro t ht
    rw [hval] at ht
    injection ht with ht
    have hdots : (10 : Nat) ∉ [46, 46, 46] := by decide
    by_cases hle : (s.length : Int) ≤ maxLen
    · rw [if_pos hle] at ht
      subst ht
      refine ⟨replaceNewlineBytes_not_mem s, ?_, ?_⟩
      · rw [replaceNewlineBytes_length]; omega
      · unfold truncateBody
        have hfix := replaceNewlineBytes_fix _ (replaceNewlineBytes_not_mem s)
        have : ¬ ((replaceNewlineBytes s).length : Int) > maxLen := by
          rw [replaceNewlineBytes_length]; omega
        simp only [hfix, this, if_false]
    · rw [if_neg hle] at ht
      have hlen : ((replaceNewlineBytes s).take maxLen.toNat).length = maxLen.toNat := by
        rw [List.length_take, replaceNewlineBytes_length]
        omega
      have hnot : 10 ∉ (replaceNewlineBytes s).take maxLen.toNat ++ [46, 46, 46] := by
        intro hm
        rcases List.mem_append.mp hm with hm | hm
        · exact replaceNewlineBytes_not_mem s (List.mem_of_mem_take hm)
        · exact hdots hm
      subst ht
      refine ⟨hnot, ?_, ?_⟩
      · rw [List.length_append, hlen]
        simp only [List.length_cons, List.length_nil]
        omega
      · unfold truncateBody
        have hfix := replaceNewlineBytes_fix _ hnot
        have hlong : (((replaceNewlineBytes s).take maxLen.toNat ++ [46, 46, 46]).length : Int) >
            maxLen := by
          rw [List.length_append, hlen]
          simp only [List.length_cons, List.length_nil]
          omega
        have hneg : ¬ maxLen < 0 := by omega
        simp only [hfix, hlong, hneg, if_true, if_false, utf8_dots]
        rw [List.take_append_of_le_length (by omega), List.take_take]
        simp only [min_self]

theorem truncateBody_spec_witness :
    truncateBody (utf8 "hello\nworld\nfoo".toList) 10 = some (utf8 "hello worl...".toList) :=
  ((truncateBody_spec (utf8 "hello\nworld\nfoo".toList) 10 (by decide)).1).trans (by decide)

/-! ## The table renderer of a `ViewResult` -/

theorem utf8_append (a b : Str) : utf8 (a ++ b) = utf8 a ++ utf8 b := by
  simp only [utf8, List.flatMap_append]

theorem truncateBody_isSome (s : Bytes) (maxLen : Int) (h : 0 ≤ maxLen) :
    ∃ t : Bytes, truncateBody s maxLen = some t := by
  unfold truncateBody
  have hneg : ¬ maxLen < 0 := by omega
  simp only [hneg, if_false]
  split_ifs
  · exact ⟨_, rfl⟩
  · exact ⟨_, rfl⟩

theorem viewCommentLine_isSome (includeIDs : Bool) (c : ViewThreadComment) :
    ∃ line : Bytes, tableFormatter.viewCommentLine includeIDs c = some line := by
  obtain ⟨b60, h60⟩ := truncateBody_isSome (utf8 c.Body) 60 (by decide)
  obtain ⟨b50, h50⟩ := truncateBody_isSome (utf8 c.Body) 50 (by decide)
  unfold tableFormatter.viewCommentLine
  rw [h60, h50]
  cases includeIDs
  · exact ⟨_, rfl⟩
  · exact ⟨_, rfl⟩

theorem allSome_map {α β : Type} (f : α → Option β) (l : List α)
    (h : ∀ a ∈ l, ∃ b, f a = some b) :
    ∃ bs : List β, allSome (l.map f) = some bs ∧
      List.Forall₂ (fun b a => f a = some b) bs l := by
  induction l with
  | nil => exact ⟨[], rfl, List.Forall₂.nil⟩
  | cons a l ih =>
    obtain ⟨b, hb⟩ := h a (List.mem_cons_self _ _)
    obtain ⟨bs, hbs, hall⟩ := ih (fun x hx => h x (List.mem_cons_of_mem _ hx))
    refine ⟨b :: bs, ?_, List.Forall₂.cons hb hall⟩
    simp only [List.map_cons, hb, allSome, hbs]

theorem viewThread_plain (styles : Styles) (includeIDs : Bool) (i : Nat) (thread : ViewThread) :
    ∃ lines : List Bytes,
      tableFormatter.viewThread styles false includeIDs i thread =
        some ((if i > 0 then [[]] else []) ++
          [utf8 (tableFormatter.threadHeader includeIDs thread)] ++ lines) ∧
      lines.length = thread.Comments.length := by
  obtain ⟨lines, hlines, hall⟩ := allSome_map (tableFormatter.viewCommentLine includeIDs)
    thread.Comments (fun c _ => viewCommentLine_isSome includeIDs c)
  refine ⟨lines, ?_, hall.length_eq⟩
  unfold tableFormatter.viewThread
  simp only [hlines, Bool.false_eq_true, if_false]

theorem threadHeader_flag (includeIDs : Bool) (thread : ViewThread) :
    ∃ rest : Str, tableFormatter.threadHeader includeIDs thread =
      "[".toList ++ (if thread.Resolved = true then "resolved".toList else "unresolved".toList)
        ++ rest := by
  unfold tableFormatter.threadHeader
  cases includeIDs <;> cases thread.Resolved <;>
    simp only [Bool.not_true, Bool.not_false, Bool.false_eq_true, if_true, if_false,
      List.append_assoc] <;> exact ⟨_, rfl⟩

/-- C26: in the table renderer without terminal styling, what is printed for
a thread is, after the separating empty line of a thread that is not the
first, the header line followed by one line for each comment; the header is
`[unresolved] <location>` when the thread is not resolved and
`[resolved] <location>` when it is, followed by ` (<thread id>)` when ids are
requested, where the location is `path:line` for `line > 0` and the path
otherwise.  Two threads that differ only in the resolution flag are rendered
differently. -/
theorem table_thread_header (styles : Styles) (includeIDs : Bool) (i : Nat)
    (thread : ViewThread) :
    (∃ lines : List Bytes,
      tableFormatter.viewThread styles false includeIDs i thread =
        some ((if i > 0 then [[]] else []) ++
          [utf8 (tableFormatter.threadHeader includeIDs thread)] ++ lines) ∧
      lines.length = thread.Comments.length) ∧
    (thread.Resolved = false → 0 < thread.Line →
      tableFormatter.threadHeader false thread =
        "[unresolved] ".toList ++ thread.Path ++ ":".toList ++ formatInt thread.Line) ∧
    (thread.Resolved = false → ¬ 0 < thread.Line →
      tableFormatter.threadHeader false thread = "[unresolved] ".toList ++ thread.Path) ∧
    (thread.Resolved = true → 0 < thread.Line →
      tableFormatter.threadHeader false thread =
        "[resolved] ".toList ++ thread.Path ++ ":".toList ++ formatInt thread.Line) ∧
    (thread.Resolved = true → ¬ 0 < thread.Line →
      tableFormatter.threadHeader false thread = "[resolved] ".toList ++ thread.Path) ∧
    tableFormatter.threadHeader true thread =
      tableFormatter.threadHeader false thread ++ " (".toList ++ thread.ID ++ ")".toList ∧
    (∀ j : Nat,
      tableFormatter.viewThread styles false includeIDs j
          { thread with Resolved := !thread.Resolved } ≠
        tableFormatter.viewThread styles false includeIDs j thread) ∧
    (∀ prRef : Str,
      tableFormatter.formatView styles false
          ⟨prRef, [{ thread with Resolved := !thread.Resolved }], includeIDs⟩ ≠
        tableFormatter.formatView styles false ⟨prRef, [thread], includeIDs⟩) := by
  have hdiff : utf8 (tableFormatter.threadHeader includeIDs
        { thread with Resolved := !thread.Resolved }) ≠
      utf8 (tableFormatter.threadHeader includeIDs thread) := by
    obtain ⟨r1, h1⟩ := threadHeader_flag includeIDs { thread with Resolved := !thread.Resolved }
    obtain ⟨r2, h2⟩ := threadHeader_flag includeIDs thread
    rw [h1, h2]
    simp only [utf8_append]
    have hb : utf8 "[".toList = [91] := by decide
    have hr : utf8 "resolved".toList = 114 :: utf8 "esolved".toList := by decide
    have hu : utf8 "unresolved".toList = 117 :: utf8 "nresolved".toList := by decide
    cases thread.Resolved
    · simp only [Bool.not_false, Bool.false_eq_true, if_true, if_false, hb, hr, hu,
        List.cons_append, List.nil_append, ne_eq, List.cons.injEq, true_and]
      intro hc
      have := hc.1
      omega
    · simp only [Bool.not_true, Bool.false_eq_true, if_true, if_false, hb, hr, hu,
        List.cons_append, List.nil_append, ne_eq, List.cons.injEq, true_and]
      intro hc
      have := hc.1
      omega
  have hthread : ∀ j : Nat,
      tableFormatter.viewThread styles false includeIDs j
          { thread with Resolved := !thread.Resolved } ≠
        tableFormatter.viewThread styles false includeIDs j thread := by
    intro j hc
    obtain ⟨l1, h1, -⟩ := viewThread_plain styles includeIDs j
      { thread with Resolved := !thread.Resolved }
    obtain ⟨l2, h2, -⟩ := viewThread_plain styles includeIDs j thread
    rw [h1, h2] at hc
    injection hc with hc
    by_cases hj : j > 0
    · simp only [hj, if_true, List.cons_append, List.nil_append, List.cons.injEq,
        true_and] at hc
      exact hdiff hc.1
    · simp only [hj, if_false, List.cons_append, List.nil_append, List.cons.injEq] at hc
      exact hdiff hc.1
  refine ⟨viewThread_plain styles includeIDs i thread, ?_, ?_, ?_, ?_, ?_, hthread, ?_⟩
  · intro hr hl
    simp only [tableFormatter.threadHeader, hr, hl, Bool.not_false, if_true, Bool.false_eq_true,
      if_false, List.append_assoc]
    rfl
  · intro hr hl
    simp only [tableFormatter.threadHeader, hr, hl, Bool.not_false, if_true, Bool.false_eq_true,
      if_false, List.append_assoc]
    rfl
  · intro hr hl
    simp only [tableFormatter.threadHeader, hr, hl, Bool.not_true, if_true, Bool.false_eq_true,
      if_false, List.append_assoc]
    rfl
  · intro hr hl
    simp only [tableFormatter.threadHeader, hr, hl, Bool.not_true, if_true, Bool.false_eq_true,
      if_false, List.append_assoc]
    rfl
  · simp only [tableFormatter.threadHeader, if_true, Bool.false_eq_true, if_false,
      List.append_assoc]
  · intro prRef hc
    apply hthread 0
    obtain ⟨l1, h1, -⟩ := viewThread_plain styles includeIDs 0
      { thread with Resolved := !thread.Resolved }
    obtain ⟨l2, h2, -⟩ := viewThread_plain styles includeIDs 0 thread
    simp only [tableFormatter.formatView, List.enum_cons, List.enumFrom_cons, List.enumFrom_nil,
      List.enum_nil, List.map_cons, List.map_nil, h1, h2, allSome, Option.map_some',
      List.flatten_cons, List.flatten_nil, List.append_nil, Option.some.injEq] at hc
    rw [h1, h2, hc]

theorem table_thread_header_witness :
    tableFormatter.threadHeader false ⟨"PRRT_1".toList, "main.go".toList, 3, false, []⟩ =
      "[unresolved] main.go:3".toList :=
  ((table_thread_header ⟨id, id, fun _ _ => []⟩ false 0
    ⟨"PRRT_1".toList, "main.go".toList, 3, false, []⟩).2.1 rfl (by decide)).trans (by decide)

/-! ## The commands `add` and `comments` -/

/-- C27, the code at the failing inputs: with no explicit review id, `runAdd`
takes every failure of the pending-review lookup as the signal to create a
review.  When
the reviews query fails with `boom`, and when the viewer login cannot be
obtained, the failure is not returned: the pull request is resolved, a review
is created, the thread is added to it and the command succeeds. -/
theorem runAdd_swallows_lookup_failure :
    LatestPendingReview sampleLib reviewsFailingGql samplePR ⟨[], 0⟩ =
      (.error (.wrap "query pending reviews".toList "boom".toList),
        [.viewerLogin, .pendingReviews "owner".toList "repo".toList 42 20]) ∧
    runAdd (sampleCmdEnv reviewsFailingGql) sampleAddFlags "42".toList =
      (.ok ⟨"main.go".toList, 3⟩,
        [.viewerLogin, .pendingReviews "owner".toList "repo".toList 42 20,
          .resolvePR "owner".toList "repo".toList 42,
          .createReview "PR_1".toList (some "abc".toList),
          .addThread ⟨"PRR_3".toList, "main.go".toList, 3, "RIGHT".toList, "text".toList, none,
            none⟩]) ∧
    LatestPendingReview sampleLib viewerFailingGql samplePR ⟨[], 0⟩ =
      (.error (.wrap "get viewer login".toList "boom".toList), [.viewerLogin]) ∧
    runAdd (sampleCmdEnv viewerFailingGql) sampleAddFlags "42".toList =
      (.ok ⟨"main.go".toList, 3⟩,
        [.viewerLogin, .resolvePR "owner".toList "repo".toList 42,
          .createReview "PR_1".toList (some "abc".toList),
          .addThread ⟨"PRR_3".toList, "main.go".toList, 3, "RIGHT".toList, "text".toList, none,
            none⟩]) := by
  refine ⟨by decide, by decide, by decide, by decide⟩

theorem threadComments_state (threads : List Thread) :
    ∀ c ∈ threadComments threads, c.State = "unresolved".toList := by
  intro c hc
  simp only [threadComments, List.mem_flatMap, List.mem_map] at hc
  obtain ⟨thread, -, tc, -, rfl⟩ := hc
  rfl

theorem matchesFilters_states_false (orbit : Char → Char → Bool) (f : ListFlags) (c : Comment)
    (hne : f.listStates ≠ [])
    (hno : ∀ s ∈ f.listStates, EqualFold orbit c.State s = false) :
    matchesFilters orbit f c = false := by
  have hlen : f.listStates.length > 0 := List.length_pos.mpr hne
  have hany : (f.listStates.any (fun s => EqualFold orbit c.State s)) = false := by
    rw [List.any_eq_false]
    intro s hs
    rw [hno s hs]
    exact Bool.false_ne_true
  unfold matchesFilters
  rw [if_pos ⟨hlen, hany⟩]

theorem applyTail_nil (listTail : Int) : applyTail listTail [] = [] := by
  unfold applyTail
  split_ifs <;> simp

theorem buildGroups_nil (range : List Str → List Str) (listFlat : Bool) :
    ∀ g ∈ buildGroups range listFlat [], g.Comments = [] := by
  intro g hg
  unfold buildGroups at hg
  cases listFlat
  · simp only [Bool.false_eq_true, if_false, buildByAuthor, List.foldl_nil, List.mem_map] at hg
    obtain ⟨author, -, rfl⟩ := hg
    rfl
  · simp only [if_true, List.mem_singleton] at hg
    rw [hg]

/-- C30: in the comments command with `--unresolved`, every comment built from
the review threads has state `unresolved`, whatever the state of its review;
so when a non-empty `--states` filter is given of which no element equals
`unresolved` under `EqualFold`, whatever the transport answers, a result of
the command has no comment in any of its groups. -/
theorem unresolved_state_filter (env : CmdEnv) (flags : CommentsFlags) (arg : Str) :
    (∀ (threads : List Thread), ∀ c ∈ threadComments threads,
      c.State = "unresolved".toList) ∧
    (flags.listUnresolved = true → flags.listStates ≠ [] →
      (∀ s ∈ flags.listStates, EqualFold env.lib.orbit "unresolved".toList s = false) →
      ∀ (result : CommentsResult) (truncated : Bool) (calls : List GqlCall),
        runComments env flags arg = (.ok (result, truncated), calls) →
        ∀ g ∈ result.Groups, g.Comments = []) := by
  refine ⟨threadComments_state, ?_⟩
  intro hunres hne hno result truncated calls hrun
  have hfilter : ∀ (listAuthor : Str) (threads : List Thread),
      filterComments env.lib.orbit { flags.toListFlags with listAuthor := listAuthor }
        (threadComments threads) = [] := by
    intro listAuthor threads
    unfold filterComments
    rw [List.filter_eq_nil_iff]
    intro c hc
    have hst := threadComments_state threads c hc
    have hm := matchesFilters_states_false env.lib.orbit
      { flags.toListFlags with listAuthor := listAuthor } c hne (by rw [hst]; exact hno)
    exact fun h => Bool.false_ne_true (hm.symm.trans h)
  unfold runComments at hrun
  cases hpr : (resolvePR env.repo env.repoFlag arg).1 with
  | error err => rw [hpr] at hrun; simp only [] at hrun; cases hrun
  | ok pr =>
    rw [hpr] at hrun
    simp only [] at hrun
    cases hgql : env.DefaultGraphQLClient with
    | error err => rw [hgql] at hrun; simp only [] at hrun; cases hrun
    | ok gql =>
      rw [hgql] at hrun
      simp only [hunres, if_true, hfilter] at hrun
      split at hrun
      · cases hrun
      · rename_i listAuthor calls0 hmine
        split at hrun
        · cases hrun
        · rename_i comments trunc calls2 hfetch
          split at hfetch
          · cases hfetch
          · injection hfetch with h1 h2
            injection h1 with h1
            injection h1 with h1 h3
            injection hrun with hrun hcalls
            injection hrun with hrun
            injection hrun with hres htr
            rw [← hres, ← h1]
            intro g hg
            simp only [applyTail_nil] at hg
            exact buildGroups_nil _ _ g hg

theorem unresolved_state_filter_witness :
    runComments (sampleCmdEnv threadsGql)
        ⟨⟨["approved".toList], [], 0, true⟩, false, true, false, 100⟩ "42".toList =
      (.ok (⟨"owner/repo#42".toList, [⟨[], []⟩], false⟩, false),
        [.reviewThreads "owner".toList "repo".toList 42 100]) ∧
    ∀ g ∈ [(⟨[], []⟩ : CommentGroup)], g.Comments = [] :=
  ⟨by decide,
    (unresolved_state_filter (sampleCmdEnv threadsGql)
      ⟨⟨["approved".toList], [], 0, true⟩, false, true, false, 100⟩ "42".toList).2 rfl
      (by decide) (by decide) ⟨"owner/repo#42".toList, [⟨[], []⟩], false⟩ false
      [.reviewThreads "owner".toList "repo".toList 42 100] (by decide)⟩

/-! ## The renderers of a `CommentsResult` -/

/-- C23, the code at the failing input: `(*plainFormatter).formatComments`
writes the body of a comment as it is.  For a flat result with one comment of body `a\nb` it
writes two lines, although the result has one comment and no author header;
the plain renderer of a `ViewResult` writes the same body on one line. -/
theorem plain_comment_body_newline :
    (∀ (prRef state body : Str),
      plainFormatter.formatComments
          ⟨prRef, [⟨[], [⟨[], [], 0, body, state, []⟩]⟩], false⟩ =
        state ++ "\t".toList ++ body ++ "\n".toList) ∧
    plainFormatter.formatComments
        ⟨"owner/repo#1".toList, [⟨[], [sampleOutputComment "PRRC_1" "a\nb" "alice"]⟩], false⟩ =
      "pending\tmain.go:3\ta\nb\talice\n".toList ∧
    lineCount (plainFormatter.formatComments
        ⟨"owner/repo#1".toList, [⟨[], [sampleOutputComment "PRRC_1" "a\nb" "alice"]⟩],
          false⟩) = 2 ∧
    commentCount
        ⟨"owner/repo#1".toList, [⟨[], [sampleOutputComment "PRRC_1" "a\nb" "alice"]⟩],
          false⟩ = 1 ∧
    headerCount
        ⟨"owner/repo#1".toList, [⟨[], [sampleOutputComment "PRRC_1" "a\nb" "alice"]⟩],
          false⟩ = 0 ∧
    plainFormatter.formatView
        ⟨"owner/repo#1".toList,
          [⟨"PRRT_1".toList, "main.go".toList, 3, false,
            [⟨"PRRC_1".toList, "alice".toList, "a\nb".toList⟩]⟩], false⟩ =
      "unresolved\tmain.go:3\n\talice\ta b\n".toList := by
  refine ⟨?_, by decide, by decide, by decide, by decide, by decide⟩
  intro prRef state body
  simp [plainFormatter.formatComments, plainFormatter.commentRow, plainFormatter.commentParts,
    joinTSV, Join, List.intercalate]

/-- C24, the code at the failing input: the JSON rendering of a comment has no author.  In flat
mode the JSON rendering of a result is the same whatever the authors of its
comments are, while the rows of the plain and of the table renderer end with
the author of the comment. -/
theorem json_drops_comment_author :
    (∀ (prRef author : Str) (comments : List Comment) (includeIDs : Bool),
      jsonFormatter.formatComments
          ⟨prRef, [⟨[], comments.map (fun c => { c with Author := author })⟩], includeIDs⟩ =
        jsonFormatter.formatComments ⟨prRef, [⟨[], comments⟩], includeIDs⟩) ∧
    jsonFormatter.formatComments
        ⟨"owner/repo#1".toList, [⟨[], [sampleOutputComment "PRRC_1" "text" "alice"]⟩], false⟩ =
      ⟨"owner/repo#1".toList,
        [⟨[], [⟨[], "pending".toList, "main.go".toList, 3, "text".toList⟩]⟩]⟩ ∧
    jsonFormatter.formatComments
        ⟨"owner/repo#1".toList, [⟨[], [sampleOutputComment "PRRC_1" "text" "bob"]⟩], false⟩ =
      jsonFormatter.formatComments
        ⟨"owner/repo#1".toList, [⟨[], [sampleOutputComment "PRRC_1" "text" "alice"]⟩], false⟩ ∧
    plainFormatter.formatComments
        ⟨"owner/repo#1".toList, [⟨[], [sampleOutputComment "PRRC_1" "text" "alice"]⟩], false⟩ =
      "pending\tmain.go:3\ttext\talice\n".toList ∧
    plainFormatter.formatComments
        ⟨"owner/repo#1".toList, [⟨[], [sampleOutputComment "PRRC_1" "text" "bob"]⟩], false⟩ =
      "pending\tmain.go:3\ttext\tbob\n".toList ∧
    tableFormatter.commentRow false [] (sampleOutputComment "PRRC_1" "text" "alice") =
      [utf8 "pending".toList, utf8 "main.go:3".toList, utf8 "text".toList,
        utf8 "alice".toList] ∧
    tableFormatter.commentRow false [] (sampleOutputComment "PRRC_1" "text" "bob") =
      [utf8 "pending".toList, utf8 "main.go:3".toList, utf8 "text".toList,
        utf8 "bob".toList] := by
  refine ⟨?_, by decide, by decide, by decide, by decide, by decide, by decide⟩
  intro prRef author comments includeIDs
  simp only [jsonFormatter.formatComments, List.map_cons, List.map_nil, List.map_map]
  rfl

/-! ## Identifiers in the output -/

theorem comment_id_member (includeIDs : Bool) (c : Comment) :
    (jsonComment.marshal (jsonFormatter.comment includeIDs c)).member "id" =
      if includeIDs = true ∧ c.ID ≠ [] then some (.string c.ID) else none := by
  cases includeIDs
  · simp [jsonFormatter.comment, jsonComment.marshal, JSON.member, omitempty, JSON.lookup]
    split_ifs <;> simp [JSON.lookup]
  · by_cases hid : c.ID = []
    · simp [jsonFormatter.comment, jsonComment.marshal, JSON.member, omitempty, JSON.lookup, hid]
      split_ifs <;> simp [JSON.lookup]
    · simp [jsonFormatter.comment, jsonComment.marshal, JSON.member, omitempty, JSON.lookup, hid]

theorem viewComment_id_member (includeIDs : Bool) (c : ViewThreadComment) :
    (jsonViewComment.marshal (jsonFormatter.viewComment includeIDs c)).member "id" =
      if includeIDs = true ∧ c.ID ≠ [] then some (.string c.ID) else none := by
  cases includeIDs
  · simp [jsonFormatter.viewComment, jsonViewComment.marshal, JSON.member, omitempty,
      JSON.lookup]
  · by_cases hid : c.ID = []
    · simp [jsonFormatter.viewComment, jsonViewComment.marshal, JSON.member, omitempty,
        JSON.lookup, hid]
    · simp [jsonFormatter.viewComment, jsonViewComment.marshal, JSON.member, omitempty,
        JSON.lookup, hid]

theorem viewThread_id_member (includeIDs : Bool) (t : ViewThread) :
    (jsonViewThread.marshal (jsonFormatter.viewThread includeIDs t)).member "id" =
      if includeIDs = true ∧ t.ID ≠ [] then some (.string t.ID) else none := by
  cases includeIDs
  · simp [jsonFormatter.viewThread, jsonViewThread.marshal, JSON.member, omitempty, JSON.lookup]
    split_ifs <;> simp [JSON.lookup]
  · by_cases hid : t.ID = []
    · simp [jsonFormatter.viewThread, jsonViewThread.marshal, JSON.member, omitempty,
        JSON.lookup, hid]
      split_ifs <;> simp [JSON.lookup]
    · simp [jsonFormatter.viewThread, jsonViewThread.marshal, JSON.member, omitempty,
        JSON.lookup, hid]

theorem commentParts_false (groupAuthor : Str) (c : Comment) :
    plainFormatter.commentParts false groupAuthor c =
      c.State :: (plainFormatter.commentParts false groupAuthor c).tail := by
  unfold plainFormatter.commentParts
  simp only [Bool.false_eq_true, if_false]
  split_ifs <;> rfl

theorem commentParts_true (groupAuthor : Str) (c : Comment) :
    plainFormatter.commentParts true groupAuthor c =
      c.State :: c.ID :: (plainFormatter.commentParts false groupAuthor c).tail := by
  unfold plainFormatter.commentParts
  simp only [Bool.false_eq_true, if_false, if_true]
  split_ifs <;> rfl

/-- C22, amended: with `IncludeIDs` false no JSON comment or thread object of
a `CommentsResult` or `ViewResult` has a member `id`, and the plain rows do
not depend on the identifiers: they have no id column.  With `IncludeIDs` true
the member `id` of the JSON object of a comment or thread with a non-empty
identifier is that identifier, and the plain row carries the identifier as a
column: the second one of a comment of a `CommentsResult`, the first one of a
thread and of a comment of a thread. -/
theorem ids_only_when_requested (r : CommentsResult) (v : ViewResult) :
    (r.IncludeIDs = false →
      ∀ g ∈ (jsonFormatter.formatComments r).Groups, ∀ c ∈ g.Comments,
        (jsonComment.marshal c).member "id" = none) ∧
    (v.IncludeIDs = false →
      ∀ t ∈ (jsonFormatter.formatView v).Threads,
        (jsonViewThread.marshal t).member "id" = none ∧
        ∀ c ∈ t.Comments, (jsonViewComment.marshal c).member "id" = none) ∧
    (∀ (groupAuthor id : Str) (c : Comment),
      plainFormatter.commentRow false groupAuthor { c with ID := id } =
        plainFormatter.commentRow false groupAuthor c) ∧
    (∀ (id : Str) (t : ViewThread),
      plainFormatter.threadRow false { t with ID := id } = plainFormatter.threadRow false t) ∧
    (∀ (id : Str) (c : ViewThreadComment),
      plainFormatter.viewCommentRow false { c with ID := id } =
        plainFormatter.viewCommentRow false c) ∧
    (r.IncludeIDs = true →
      List.Forall₂ (fun (jg : jsonCommentGroup) (g : CommentGroup) =>
          List.Forall₂ (fun jc (c : Comment) =>
              c.ID ≠ [] → (jsonComment.marshal jc).member "id" = some (.string c.ID))
            jg.Comments g.Comments)
        (jsonFormatter.formatComments r).Groups r.Groups) ∧
    (v.IncludeIDs = true →
      List.Forall₂ (fun jt (t : ViewThread) =>
          (t.ID ≠ [] → (jsonViewThread.marshal jt).member "id" = some (.string t.ID)) ∧
          List.Forall₂ (fun jc (c : ViewThreadComment) =>
              c.ID ≠ [] → (jsonViewComment.marshal jc).member "id" = some (.string c.ID))
            jt.Comments t.Comments)
        (jsonFormatter.formatView v).Threads v.Threads) ∧
    (∀ (groupAuthor : Str) (c : Comment),
      plainFormatter.commentParts false groupAuthor c =
        c.State :: (plainFormatter.commentParts false groupAuthor c).tail ∧
      plainFormatter.commentParts true groupAuthor c =
        c.State :: c.ID :: (plainFormatter.commentParts false groupAuthor c).tail) ∧
    (∀ t : ViewThread,
      plainFormatter.threadRow true t =
        t.ID ++ "\t".toList ++ plainFormatter.threadRow false t) ∧
    (∀ c : ViewThreadComment,
      plainFormatter.viewCommentRow true c =
        "\t".toList ++ c.ID ++ plainFormatter.viewCommentRow false c) := by
  refine ⟨?_, ?_, fun _ _ _ => rfl, fun _ _ => rfl, fun _ _ => rfl, ?_, ?_,
    fun ga c => ⟨commentParts_false ga c, commentParts_true ga c⟩, ?_, ?_⟩
  · intro hids g hg c hc
    simp only [jsonFormatter.formatComments, List.mem_map] at hg
    obtain ⟨g0, -, rfl⟩ := hg
    simp only [List.mem_map] at hc
    obtain ⟨c0, -, rfl⟩ := hc
    rw [comment_id_member, hids]
    simp
  · intro hids t ht
    simp only [jsonFormatter.formatView, List.mem_map] at ht
    obtain ⟨t0, -, rfl⟩ := ht
    refine ⟨by rw [viewThread_id_member, hids]; simp, ?_⟩
    intro c hc
    rw [hids] at hc
    simp only [jsonFormatter.viewThread, Bool.false_eq_true, if_false, List.mem_map] at hc
    obtain ⟨c0, -, rfl⟩ := hc
    rw [viewComment_id_member]
    simp
  · intro hids
    simp only [jsonFormatter.formatComments, List.forall₂_map_left_iff]
    apply List.forall₂_same.mpr
    intro g _
    apply List.forall₂_same.mpr
    intro c _ hid
    rw [comment_id_member, hids]
    simp [hid]
  · intro hids
    simp only [jsonFormatter.formatView, List.forall₂_map_left_iff]
    apply List.forall₂_same.mpr
    intro t _
    refine ⟨fun hid => by rw [viewThread_id_member, hids]; simp [hid], ?_⟩
    rw [hids]
    simp only [jsonFormatter.viewThread, if_true, List.forall₂_map_left_iff]
    apply List.forall₂_same.mpr
    intro c _ hid
    rw [viewComment_id_member]
    simp [hid]
  · intro t
    simp only [plainFormatter.threadRow, if_true, Bool.false_eq_true, if_false,
      List.append_assoc]
  · intro c
    simp only [plainFormatter.viewCommentRow, if_true, Bool.false_eq_true, if_false,
      List.append_assoc]

theorem ids_only_when_requested_witness :
    (∀ g ∈ (jsonFormatter.formatComments
        ⟨"owner/repo#1".toList, [⟨[], [sampleOutputComment "PRRC_1" "text" "alice"]⟩],
          false⟩).Groups,
      ∀ c ∈ g.Comments, (jsonComment.marshal c).member "id" = none) ∧
    List.Forall₂ (fun (jg : jsonCommentGroup) (g : CommentGroup) =>
        List.Forall₂ (fun jc (c : Comment) =>
            c.ID ≠ [] → (jsonComment.marshal jc).member "id" = some (.string c.ID))
          jg.Comments g.Comments)
      (jsonFormatter.formatComments
        ⟨"owner/repo#1".toList, [⟨[], [sampleOutputComment "PRRC_1" "text" "alice"]⟩],
          true⟩).Groups
      [(⟨[], [sampleOutputComment "PRRC_1" "text" "alice"]⟩ : CommentGroup)] :=
  ⟨(ids_only_when_requested
      ⟨"owner/repo#1".toList, [⟨[], [sampleOutputComment "PRRC_1" "text" "alice"]⟩], false⟩
      ⟨[], [], false⟩).1 rfl,
    (ids_only_when_requested
      ⟨"owner/repo#1".toList, [⟨[], [sampleOutputComment "PRRC_1" "text" "alice"]⟩], true⟩
      ⟨[], [], true⟩).2.2.2.2.2.1 rfl⟩

/-- C22 as stated fails: with `IncludeIDs` true, the JSON object of a thread
whose identifier is empty has no member `id`, and the rendering of the result
is the one for `IncludeIDs` false. -/
theorem json_empty_thread_id_omitted :
    (jsonViewThread.marshal (jsonFormatter.viewThread true
      ⟨[], "main.go".toList, 3, false, []⟩)).member "id" = none ∧
    jsonFormatter.formatView
        ⟨"owner/repo#1".toList, [⟨[], "main.go".toList, 3, false, []⟩], true⟩ =
      jsonFormatter.formatView
        ⟨"owner/repo#1".toList, [⟨[], "main.go".toList, 3, false, []⟩], false⟩ :=
  ⟨rfl, by decide⟩

/-! ## The JSON rendering of a `CommentsResult`, parsed back -/

theorem jsonComment_round_trip (c : jsonComment) :
    jsonComment.unmarshal (jsonComment.marshal c) = some c := by
  obtain ⟨id, state, path, line, body⟩ := c
  by_cases h1 : id = [] <;> by_cases h2 : path = [] <;> by_cases h3 : line = 0 <;>
    simp [jsonComment.unmarshal, jsonComment.marshal, omitempty, JSON.stringField,
      JSON.intField, JSON.lookup, h1, h2, h3]

theorem allSome_round_trip {α : Type} (marshal : α → JSON) (unmarshal : JSON → Option α)
    (h : ∀ a, unmarshal (marshal a) = some a) (l : List α) :
    allSome ((l.map marshal).map unmarshal) = some l := by
  induction l with
  | nil => rfl
  | cons a l ih =>
    simp only [List.map_cons, h a, allSome, ih]

theorem jsonCommentGroup_round_trip (g : jsonCommentGroup) :
    jsonCommentGroup.unmarshal (jsonCommentGroup.marshal g) = some g := by
  obtain ⟨author, comments⟩ := g
  have hall := allSome_round_trip jsonComment.marshal jsonComment.unmarshal
    jsonComment_round_trip comments
  rw [List.map_map] at hall
  by_cases h1 : author = [] <;>
    simp [jsonCommentGroup.unmarshal, jsonCommentGroup.marshal, omitempty, JSON.stringField,
      JSON.arrayField, JSON.lookup, h1, hall]

theorem jsonCommentsResult_round_trip (r : jsonCommentsResult) :
    jsonCommentsResult.unmarshal (jsonCommentsResult.marshal r) = some r := by
  obtain ⟨pr, groups⟩ := r
  have hall := allSome_round_trip jsonCommentGroup.marshal jsonCommentGroup.unmarshal
    jsonCommentGroup_round_trip groups
  rw [List.map_map] at hall
  simp [jsonCommentsResult.unmarshal, jsonCommentsResult.marshal, JSON.stringField,
    JSON.arrayField, JSON.lookup, hall]

/-- C25, amended: for every `CommentsResult`, the JSON value produced has one
group for each input group, in order and with the same author, and in each
group one comment for each input comment, in order and with the same state,
body, path and line; parsing the JSON value back gives these groups and
comments again.  A comment with a non-empty id has the member `id`, equal to
that id, iff `IncludeIDs` is set, and a member `id` occurs only when
`IncludeIDs` is set and is then the id of the comment. -/
theorem json_round_trip (r : CommentsResult) :
    jsonCommentsResult.unmarshal (jsonCommentsResult.marshal (jsonFormatter.formatComments r)) =
      some (jsonFormatter.formatComments r) ∧
    (jsonFormatter.formatComments r).PR = r.PRRef ∧
    List.Forall₂ (fun (jg : jsonCommentGroup) (g : CommentGroup) =>
        jg.Author = g.Author ∧
        List.Forall₂ (fun (jc : jsonComment) (c : Comment) =>
            jc.State = c.State ∧ jc.Body = c.Body ∧ jc.Path = c.Path ∧ jc.Line = c.Line ∧
            (c.ID ≠ [] →
              ((jsonComment.marshal jc).member "id" = some (.string c.ID) ↔
                r.IncludeIDs = true)) ∧
            (∀ v : JSON, (jsonComment.marshal jc).member "id" = some v →
              r.IncludeIDs = true ∧ v = .string c.ID))
          jg.Comments g.Comments)
      (jsonFormatter.formatComments r).Groups r.Groups := by
  refine ⟨jsonCommentsResult_round_trip _, rfl, ?_⟩
  simp only [jsonFormatter.formatComments, List.forall₂_map_left_iff]
  apply List.forall₂_same.mpr
  intro g _
  refine ⟨rfl, ?_⟩
  apply List.forall₂_same.mpr
  intro c _
  have hfields : (jsonFormatter.comment r.IncludeIDs c).State = c.State ∧
      (jsonFormatter.comment r.IncludeIDs c).Body = c.Body ∧
      (jsonFormatter.comment r.IncludeIDs c).Path = c.Path ∧
      (jsonFormatter.comment r.IncludeIDs c).Line = c.Line := by
    unfold jsonFormatter.comment
    cases r.IncludeIDs <;> exact ⟨rfl, rfl, rfl, rfl⟩
  refine ⟨hfields.1, hfields.2.1, hfields.2.2.1, hfields.2.2.2, ?_, ?_⟩
  · intro hid
    rw [comment_id_member]
    cases r.IncludeIDs <;> simp [hid]
  · intro v hv
    rw [comment_id_member] at hv
    by_cases hcond : r.IncludeIDs = true ∧ c.ID ≠ []
    · rw [if_pos hcond] at hv
      injection hv with hv
      exact ⟨hcond.1, hv.symm⟩
    · rw [if_neg hcond] at hv
      cases hv

theorem json_round_trip_witness :
    (jsonComment.marshal (jsonFormatter.comment true
        (sampleOutputComment "PRRC_1" "text" "alice"))).member "id" =
      some (.string "PRRC_1".toList) :=
  (List.forall₂_cons.mp (List.forall₂_cons.mp (json_round_trip
    ⟨"owner/repo#1".toList, [⟨"alice".toList, [sampleOutputComment "PRRC_1" "text" "alice"]⟩],
      true⟩).2.2).1.2).1.2.2.2.2.1 (by decide) |>.mpr rfl

/-- C25 as stated fails: with `IncludeIDs` set, the JSON comment of a comment
whose id is empty carries no member `id`. -/
theorem json_empty_comment_id_omitted :
    jsonCommentsResult.marshal (jsonFormatter.formatComments
        ⟨"owner/repo#1".toList,
          [⟨"alice".toList, [sampleOutputComment "" "text" "alice"]⟩], true⟩) =
      .object [("pr".toList, .string "owner/repo#1".toList),
        ("groups".toList, .array [.object [("author".toList, .string "alice".toList),
          ("comments".toList, .array [.object [("state".toList, .string "pending".toList),
            ("path".toList, .string "main.go".toList), ("line".toList, .number 3),
            ("body".toList, .string "text".toList)]])]])] ∧
    (jsonComment.marshal (jsonFormatter.comment true
      (sampleOutputComment "" "text" "alice"))).member "id" = none :=
  ⟨rfl, rfl⟩

/-! ## Line normalisation -/

theorem lineRule_some (l : Int) (o : Option Int) (line : Int) :
    lineRule (some l) o line ↔ line = l := by
  constructor
  · intro h; exact h.1 l rfl
  · rintro rfl
    exact ⟨fun l' h => (Option.some.inj h), fun h => (by cases h), fun h => (by cases h)⟩

theorem lineRule_none_some (o line : Int) : lineRule none (some o) line ↔ line = o := by
  constructor
  · intro h; exact h.2.1 rfl o rfl
  · rintro rfl
    exact ⟨fun l' h => (by cases h), fun _ o' h => (Option.some.inj h), fun _ h => (by cases h)⟩

theorem lineRule_none_none (line : Int) : lineRule none none line ↔ line = 0 := by
  constructor
  · intro h; exact h.2.2 rfl rfl
  · rintro rfl
    exact ⟨fun l' h => (by cases h), fun _ o' h => (by cases h), fun _ _ => rfl⟩

theorem reviewComments_line_forall₂ (reviewState reviewAuthor : Str) (review : ReviewNode) :
    List.Forall₂ (fun (c : ReviewCommentWithState) (p : ReviewNode × ReviewCommentNode) =>
        c.ID = TrimSpace p.2.ID ∧ lineRule p.2.Line p.2.OriginalLine c.Line)
      (review.Comments.filterMap (reviewCommentOfNode reviewState reviewAuthor))
      ((review.Comments.filter (fun cmt => decide (TrimSpace cmt.ID ≠ []))).map
        (fun cmt => (review, cmt))) := by
  rw [List.forall₂_map_right_iff]
  apply filterMap_forall₂
  · intro cn hp
    have hid : TrimSpace cn.ID = [] := by simpa using hp
    simp only [reviewCommentOfNode, hid, if_true]
  · intro cn hp
    have hid : TrimSpace cn.ID ≠ [] := by simpa using hp
    cases hc : reviewCommentOfNode reviewState reviewAuthor cn with
    | none => simp only [reviewCommentOfNode, hid, if_false] at hc; cases hc
    | some c =>
      obtain ⟨-, h2, -, -, -, -, h7, -, -⟩ := reviewCommentOfNode_eq_some _ _ cn c hc
      exact ⟨c, rfl, h2, h7⟩

theorem pendingReviews_line (lib : Lib) (reviewer : Str) (nodes : List PendingReviewNode) :
    List.Forall₂ (fun (r : PendingReview) (node : PendingReviewNode) =>
        List.Forall₂ (fun (c : ReviewComment) (cn : PendingCommentNode) =>
            c.ID = TrimSpace cn.ID ∧ lineRule cn.Line cn.OriginalLine c.Line)
          r.Comments (node.Comments.filter (fun cn => decide (TrimSpace cn.ID ≠ []))))
      (nodes.filterMap (pendingReviewOfNode lib reviewer))
      (keptReviewNodes lib reviewer nodes) := by
  refine (pendingReviews_forall₂ lib reviewer nodes).imp ?_
  intro r node h
  refine h.2.2.2.2.2.imp ?_
  intro c cn hc
  exact ⟨hc.1, hc.2.2.2.2.2⟩

/-- C14: whenever the query of `PendingReviews`, of `AllPRComments` or of
`ReviewThreads` is answered, the operation returns a result whose comments
(threads for `ReviewThreads`) correspond one to one and in order to the
response nodes it keeps, and the `Line` of each is the live line of its node
when the response gives one, whether or not it also gives an original line,
otherwise the original line when the response gives one, otherwise 0. -/
theorem line_normalised (lib : Lib) (gql : GraphQLClient) (pr : PRRef) :
    (∀ (l : Int) (o : Option Int) (line : Int), lineRule (some l) o line ↔ line = l) ∧
    (∀ o line : Int, lineRule none (some o) line ↔ line = o) ∧
    (∀ line : Int, lineRule none none line ↔ line = 0) ∧
    (∀ (opts : PendingReviewsOptions) (response : PendingReviewsResponse),
      gql.pendingReviews (pendingReviewsCall pr opts) = .ok response →
      ∀ reviewer : Str,
        ((TrimSpace opts.Reviewer ≠ [] ∧ reviewer = TrimSpace opts.Reviewer) ∨
          (TrimSpace opts.Reviewer = [] ∧ (ViewerLogin gql).1 = .ok reviewer)) →
        ∃ reviews : List PendingReview, (PendingReviews lib gql pr opts).1 = .ok reviews ∧
          List.Forall₂ (fun (r : PendingReview) (node : PendingReviewNode) =>
              List.Forall₂ (fun (c : ReviewComment) (cn : PendingCommentNode) =>
                  c.ID = TrimSpace cn.ID ∧ lineRule cn.Line cn.OriginalLine c.Line)
                r.Comments (node.Comments.filter (fun cn => decide (TrimSpace cn.ID ≠ []))))
            reviews (keptReviewNodes lib reviewer response.Nodes)) ∧
    (∀ (opts : AllCommentsOptions) (response : AllPRCommentsResponse),
      gql.allPRComments (allPRCommentsCall lib pr opts) = .ok response →
      ∃ result : AllCommentsResult, (AllPRComments lib gql pr opts).1 = .ok result ∧
        List.Forall₂ (fun (c : ReviewCommentWithState) (p : ReviewNode × ReviewCommentNode) =>
            c.ID = TrimSpace p.2.ID ∧ lineRule p.2.Line p.2.OriginalLine c.Line)
          result.ReviewComments (keptReviewComments response)) ∧
    (∀ (opts : ReviewThreadsOptions) (response : ReviewThreadsResponse),
      gql.reviewThreads (reviewThreadsCall pr opts) = .ok response →
      ∃ result : ThreadsResult, (ReviewThreads lib gql pr opts).1 = .ok result ∧
        List.Forall₂ (fun (t : Thread) (node : ThreadNode) =>
            t.ID = TrimSpace node.ID ∧ lineRule node.Line node.OriginalLine t.Line)
          result.Threads (response.Nodes.filter (keepsThread lib opts))) := by
  refine ⟨lineRule_some, lineRule_none_some, lineRule_none_none, ?_, ?_, ?_⟩
  · intro opts response hresp reviewer hrev
    refine ⟨_, ?_, pendingReviews_line lib reviewer response.Nodes⟩
    unfold pendingReviewsCall at hresp
    rcases hrev with ⟨hne, rfl⟩ | ⟨hemp, hlogin⟩
    · simp only [PendingReviews, hne, if_false, hresp]
    · rcases hv : ViewerLogin gql with ⟨res, calls⟩
      rw [hv] at hlogin
      simp only at hlogin
      subst hlogin
      simp only [PendingReviews, hemp, if_true, hv, hresp]
  · intro opts response hresp
    rw [AllPRComments_eq, hresp]
    exact ⟨_, rfl, flatMap_forall₂ _ _ _
      (fun review => reviewComments_line_forall₂ _ _ review) response.Reviews⟩
  · intro opts response hresp
    rw [ReviewThreads_eq, hresp]
    refine ⟨_, rfl, (threads_forall₂ lib opts response.Nodes).imp ?_⟩
    intro t node h
    exact ⟨h.1, h.2.2.2.2.1⟩

theorem line_normalised_witness :
    (∃ reviews : List PendingReview,
      (PendingReviews sampleLib linesGql samplePR ⟨[], 0⟩).1 = .ok reviews ∧
      List.Forall₂ (fun (r : PendingReview) (node : PendingReviewNode) =>
          List.Forall₂ (fun (c : ReviewComment) (cn : PendingCommentNode) =>
              c.ID = TrimSpace cn.ID ∧ lineRule cn.Line cn.OriginalLine c.Line)
            r.Comments (node.Comments.filter (fun cn => decide (TrimSpace cn.ID ≠ []))))
        reviews
        (keptReviewNodes sampleLib "alice".toList
          [⟨"PRR_1".toList, "PENDING".toList, [], "1".toList, "alice".toList, 3,
            [⟨"PRRC_1".toList, "main.go".toList, some 3, none, "text".toList, false, some 9⟩,
             ⟨"PRRC_2".toList, "main.go".toList, none, none, "text".toList, true, some 7⟩,
             ⟨"PRRC_3".toList, "main.go".toList, none, none, "text".toList, true, none⟩]⟩])) ∧
    (∃ result : AllCommentsResult,
      (AllPRComments sampleLib linesGql samplePR ⟨0, []⟩).1 = .ok result ∧
      List.Forall₂ (fun (c : ReviewCommentWithState) (p : ReviewNode × ReviewCommentNode) =>
          c.ID = TrimSpace p.2.ID ∧ lineRule p.2.Line p.2.OriginalLine c.Line)
        result.ReviewComments
        (keptReviewComments ⟨1, [⟨"PRR_1".toList, "APPROVED".toList, "alice".toList,
          [⟨"PRRC_1".toList, "main.go".toList, some 3, none, "text".toList, false, some 9, []⟩,
           ⟨"PRRC_2".toList, "main.go".toList, none, none, "text".toList, true, some 7, []⟩,
           ⟨"PRRC_3".toList, "main.go".toList, none, none, "text".toList, true, none, []⟩]⟩],
          0, []⟩)) ∧
    (∃ result : ThreadsResult,
      (ReviewThreads sampleLib linesGql samplePR ⟨0, false, []⟩).1 = .ok result ∧
      List.Forall₂ (fun (t : Thread) (node : ThreadNode) =>
          t.ID = TrimSpace node.ID ∧ lineRule node.Line node.OriginalLine t.Line)
        result.Threads
        ([⟨"PRRT_1".toList, false, "main.go".toList, some 3, some 9, []⟩,
          ⟨"PRRT_2".toList, false, "main.go".toList, none, some 7, []⟩,
          ⟨"PRRT_3".toList, false, "main.go".toList, none, none, []⟩].filter
          (keepsThread sampleLib ⟨0, false, []⟩))) ∧
    ((PendingReviews sampleLib linesGql samplePR ⟨[], 0⟩).1.toOption.map
        (fun reviews => reviews.map (fun r => r.Comments.map (fun c => c.Line))) =
      some [[3, 7, 0]]) ∧
    ((AllPRComments sampleLib linesGql samplePR ⟨0, []⟩).1.toOption.map
        (fun result => result.ReviewComments.map (fun c => c.Line)) = some [3, 7, 0]) ∧
    ((ReviewThreads sampleLib linesGql samplePR ⟨0, false, []⟩).1.toOption.map
        (fun result => result.Threads.map (fun t => t.Line)) = some [3, 7, 0]) :=
  ⟨(line_normalised sampleLib linesGql samplePR).2.2.2.1 ⟨[], 0⟩ _ rfl "alice".toList
      (Or.inr ⟨by decide, by decide⟩),
    (line_normalised sampleLib linesGql samplePR).2.2.2.2.1 ⟨0, []⟩ _ rfl,
    (line_normalised sampleLib linesGql samplePR).2.2.2.2.2 ⟨0, false, []⟩ _ rfl,
    by decide, by decide, by decide⟩

end GhReview
